import Mathlib

/-!
# Client-side QoS limiter (`sdk/data/manager/limiter.go`)

A shallow embedding of the limiter: grids, waiters, factors and the manager are
records, the linked lists are Lean lists (front = head of the list), every
method is a function from the state before the call to the state after it.
Machine integers are natural numbers reduced explicitly (`u8`, `u32`, `u64`).
A nil dereference of the source is the result `none`.
-/

namespace Limiter

/-! ## Constants -/

def runNow : Nat := 1
def runLater : Nat := 2
def gridHitLimitCnt : Nat := 1
def girdCntOneSecond : Nat := 3
def gridWindowTimeScope : Nat := 10
def qosExpireTime : Nat := 20
def qosReportMinGap : Nat := 500
def defaultMagnifyFactor : Nat := 100

/-- Modelled from the spec: `util.MB` of package `util` (not part of the sources);
the spec calls it MiB. -/
def MB : Nat := 2 ^ 20

/-- Modelled from the spec: `util.GB` of package `util` (not part of the sources);
the spec gives `GB/8` as 128 MiB. -/
def GB : Nat := 2 ^ 30

/-- Modelled from the spec: the traffic classes of package `proto` (not part of
the sources), a fixed enumeration of four values. -/
inductive FactorType where
  | IopsReadType
  | IopsWriteType
  | FlowReadType
  | FlowWriteType
deriving DecidableEq, Repr

/-! ## Machine integers -/

/-- Value of a `uint8` expression. -/
def u8 (x : Nat) : Nat := x % 2 ^ 8

/-- Value of a `uint32` expression. -/
def u32 (x : Nat) : Nat := x % 2 ^ 32

/-- Value of a `uint64` expression. -/
def u64 (x : Nat) : Nat := x % 2 ^ 64

/-- The `uint64` subtraction `a - b` (wraps below zero). -/
def u64sub (a b : Nat) : Nat := (a + (2 ^ 64 - b % 2 ^ 64)) % 2 ^ 64

/-- The `uint8` decrement `c--` (wraps below zero). -/
def u8dec (c : Nat) : Nat := (c + (2 ^ 8 - 1)) % 2 ^ 8

/-! ## Data model -/

/-- Modelled from the spec: `util.Future`, the one-shot completion handle of a
parked request (package `util` is not part of the sources); a handle is
identified by a number. -/
abbrev Future := Nat

/-- The record `GridElement`; `time` is in nanoseconds. -/
structure GridElement where
  time : Nat
  used : Nat
  limit : Nat
  buffer : Nat
  hitLimit : Bool
  ID : Nat
deriving DecidableEq, Repr

/-- The record `AllocElement`. -/
structure AllocElement where
  used : Nat
  magnify : Nat
  future : Future
deriving DecidableEq, Repr

/-- The record `LimitFactor` without its lock and without the back pointer
`mgr`: the functions that read `factor.mgr` take the manager as an argument. -/
structure LimitFactor where
  factorType : FactorType
  gridList : List GridElement
  waitList : List AllocElement
  need : Nat
  gidHitLimitCnt : Nat
  gridId : Nat
  magnify : Nat
deriving DecidableEq, Repr

/-- The map `limitMap`: one factor for each of the four keys that
`NewLimitManager` inserts. -/
structure LimitMap where
  iopsRead : LimitFactor
  iopsWrite : LimitFactor
  flowWrite : LimitFactor
  flowRead : LimitFactor
deriving DecidableEq, Repr

/-- The scalar fields of `LimitManager` (`once` is true when `once.Do` has
run); times are in nanoseconds. The factors are kept apart in a `LimitMap`. -/
structure LimitManager where
  ID : Nat
  enable : Bool
  ReqPeriod : Nat
  HitTriggerCnt : Nat
  lastReqTime : Nat
  lastTimeOfSetLimit : Nat
  isLastReqValid : Bool
  once : Bool
deriving DecidableEq, Repr

/-! ## `getNeedByMagnify` -/

/-- The test `factorType == proto.FlowWriteType || factorType == proto.FlowReadType`. -/
def isFlow (t : FactorType) : Bool :=
  t == FactorType.FlowWriteType || t == FactorType.FlowReadType

/-- The method `getNeedByMagnify`: the product `allocCnt * magnify` is a `uint32`
product, converted to `uint64` afterwards. -/
def getNeedByMagnify (factor : LimitFactor) (allocCnt magnify : Nat) : Nat :=
  if magnify = 0 then 0
  else
    let magnify := if allocCnt > 1000 then defaultMagnifyFactor else magnify
    let need := u32 (allocCnt * magnify)
    if isFlow factor.factorType then
      if need > GB / 8 then GB / 8 else need
    else need

/-! ## `TryReleaseWaitList` -/

/-- Result of a drain: the factor, the target grid and the waiters whose future
received `Respond(true, nil)`, in the order of the calls. -/
structure ReleaseResult where
  factor : LimitFactor
  grid : GridElement
  released : List AllocElement
deriving DecidableEq, Repr

/-- The loop of `TryReleaseWaitList` over the wait list `ws`, with the running
values of `factor.need` and `newGrid.used`; returns the wait list left, the
need, the used and the waiters released. -/
def releaseLoop (factor : LimitFactor) (newGrid : GridElement) :
    List AllocElement → Nat → Nat → List AllocElement × Nat × Nat × List AllocElement
  | [], need, used => ([], need, used, [])
  | ele :: rest, need, used =>
    if u64 (used + ele.used) > u64 (newGrid.limit + newGrid.buffer) then
      (ele :: rest, need, used, [])
    else
      let r := releaseLoop factor newGrid rest
        (u64sub need (getNeedByMagnify factor ele.used ele.magnify)) (u64 (used + ele.used))
      (r.1, r.2.1, r.2.2.1, ele :: r.2.2.2)

/-- The method `TryReleaseWaitList(newGrid)`. The grid is passed and returned by
value; the callers store the returned grid where the pointer points (the tail
of `gridList`). -/
def TryReleaseWaitList (factor : LimitFactor) (newGrid : GridElement) : ReleaseResult :=
  let r := releaseLoop factor newGrid factor.waitList factor.need newGrid.used
  { factor := { factor with waitList := r.1, need := r.2.1 }
    grid := { newGrid with used := r.2.2.1 }
    released := r.2.2.2 }

/-! ## `alloc` -/

/-- Replace the last element of a list (the grid `gridList.Back()` points to). -/
def setBack {α : Type} (l : List α) (x : α) : List α := l.dropLast ++ [x]

/-- Result of `alloc`: the two return values, the state afterwards, and whether
`go factor.mgr.WrapperUpdate(...)` was started. -/
structure AllocResult where
  ret : Nat
  future : Option Future
  factor : LimitFactor
  mgr : LimitManager
  spawned : Bool
deriving DecidableEq, Repr

/-- The method `alloc(allocCnt)`, run atomically. `now` is the value of
`time.Now()` and `newFuture` the value of `util.NewFuture()`, both read on the
parking path only. `none` is the nil dereference of `gridList.Back()` on an
empty window when the manager is enabled. -/
def alloc (mgr : LimitManager) (factor : LimitFactor) (allocCnt : Nat) (now : Nat)
    (newFuture : Future) : Option AllocResult :=
  if !mgr.enable then
    match factor.gridList.getLast? with
    | none => some { ret := runNow, future := none, factor := factor, mgr := mgr, spawned := false }
    | some grid =>
      some { ret := runNow, future := none
             factor := { factor with
               gridList := setBack factor.gridList { grid with used := u64 (grid.used + allocCnt) } }
             mgr := mgr, spawned := false }
  else
    match factor.gridList.getLast? with
    | none => none
    | some grid =>
      if mgr.enable && (decide (factor.waitList.length > 0) ||
          decide (u64 (grid.used + allocCnt) > u64 (grid.limit + grid.buffer))) then
        let waitList := factor.waitList ++
          [{ used := allocCnt, future := newFuture, magnify := factor.magnify }]
        let need := u64 (factor.need + getNeedByMagnify factor allocCnt factor.magnify)
        if grid.hitLimit == false then
          let cnt := u8 (factor.gidHitLimitCnt + 1)
          let fire : Bool := decide (cnt ≥ mgr.HitTriggerCnt) &&
            decide (mgr.lastReqTime + mgr.ReqPeriod * 1000000000 < now)
          some { ret := runLater, future := some newFuture
                 factor := { factor with
                   waitList := waitList, need := need, gidHitLimitCnt := cnt
                   gridList := setBack factor.gridList { grid with hitLimit := true } }
                 mgr := if fire then { mgr with lastReqTime := now } else mgr
                 spawned := fire }
        else
          some { ret := runLater, future := some newFuture
                 factor := { factor with
                   waitList := waitList, need := need
                   gridList := setBack factor.gridList { grid with hitLimit := true } }
                 mgr := mgr, spawned := false }
      else
        some { ret := runNow, future := none
               factor := { factor with
                 gridList := setBack factor.gridList { grid with used := u64 (grid.used + allocCnt) } }
               mgr := mgr, spawned := false }

/-! ## `SetLimit`, `CheckGrid`, `newLimitFactor` -/

/-- The grid `SetLimit` creates when the window is empty. -/
def initialGrid (limitVal bufferVal gridId now : Nat) : GridElement :=
  { time := now, used := 0, limit := limitVal / girdCntOneSecond
    buffer := bufferVal / girdCntOneSecond, hitLimit := false, ID := gridId }

/-- Result of `SetLimit`. -/
structure SetLimitResult where
  factor : LimitFactor
  mgr : LimitManager
  released : List AllocElement
deriving DecidableEq, Repr

/-- The method `SetLimit(limitVal, bufferVal)`; `now` is the value of
`time.Now()`. The deferred `TryReleaseWaitList(grid)` runs on the tail grid. -/
def SetLimit (mgr : LimitManager) (factor : LimitFactor) (limitVal bufferVal : Nat)
    (now : Nat) : SetLimitResult :=
  let mgr := { mgr with lastTimeOfSetLimit := now }
  match factor.gridList.getLast? with
  | none =>
    let grid := initialGrid limitVal bufferVal factor.gridId now
    let factor := { factor with gridId := u64 (factor.gridId + 1), gridList := factor.gridList ++ [grid] }
    let r := TryReleaseWaitList factor grid
    { factor := { r.factor with gridList := setBack r.factor.gridList r.grid }
      mgr := mgr, released := r.released }
  | some back =>
    let grid := { back with buffer := bufferVal / girdCntOneSecond, limit := limitVal / girdCntOneSecond }
    let factor := { factor with gridList := setBack factor.gridList grid }
    let r := TryReleaseWaitList factor grid
    { factor := { r.factor with gridList := setBack r.factor.gridList r.grid }
      mgr := mgr, released := r.released }

/-- The retention loop of `CheckGrid`: while the window is longer than
`gridWindowTimeScope*girdCntOneSecond`, drop the front grid and decrement
`gidHitLimitCnt` if its `hitLimit` is set. Returns the window and the counter. -/
def expireLoop : List GridElement → Nat → List GridElement × Nat
  | [], cnt => ([], cnt)
  | firstGrid :: rest, cnt =>
    if (firstGrid :: rest).length > gridWindowTimeScope * girdCntOneSecond then
      expireLoop rest (if firstGrid.hitLimit then u8dec cnt else cnt)
    else (firstGrid :: rest, cnt)

/-- The grid `newGrid` that `CheckGrid` builds from the tail `grid`. -/
def rotatedGrid (grid : GridElement) (gridId now : Nat) : GridElement :=
  { time := now, limit := grid.limit, used := 0, buffer := grid.buffer
    ID := gridId, hitLimit := false }

/-- Result of `CheckGrid`. -/
structure CheckGridResult where
  factor : LimitFactor
  released : List AllocElement
deriving DecidableEq, Repr

/-- The method `CheckGrid()`; `now` is the value of `time.Now()`. `none` is the
nil dereference of `gridList.Back()` on an empty window. The new grid stays the
tail through the retention loop, so the drain result is stored at the tail. -/
def CheckGrid (factor : LimitFactor) (now : Nat) : Option CheckGridResult :=
  match factor.gridList.getLast? with
  | none => none
  | some grid =>
    let newGrid := rotatedGrid grid factor.gridId now
    let e := expireLoop (factor.gridList ++ [newGrid]) factor.gidHitLimitCnt
    let factor := { factor with
      gridId := u64 (factor.gridId + 1), gridList := e.1, gidHitLimitCnt := e.2 }
    let r := TryReleaseWaitList factor newGrid
    some { factor := { r.factor with gridList := setBack r.factor.gridList r.grid }
           released := r.released }

/-- The constructor `newLimitFactor(mgr, factorType)`; returns the factor and
the manager (whose `lastTimeOfSetLimit` the call of `SetLimit(0, 0)` sets). -/
def newLimitFactor (mgr : LimitManager) (factorType : FactorType) (now : Nat) : SetLimitResult :=
  let limit : LimitFactor :=
    { factorType := factorType, waitList := [], gridList := [], magnify := defaultMagnifyFactor
      need := 0, gidHitLimitCnt := 0, gridId := 0 }
  SetLimit mgr limit 0 0 now

/-! ## Floating point (`float64`) used by `GetFlowInfo`

A non-negative finite `float64` is `m * 2^e` with `m < 2^53` (or `m = 2^53`
right after a carry, the same value as `2^52 * 2^(e+1)`). Every operation
rounds the exact result to nearest, ties to even, as IEEE 754 does. The
exponent range is not modelled: the values of this program stay far from
overflow and underflow. -/

/-- Position of the highest set bit of `n` (0 for `n < 2`), by halving at most
`fuel` times. -/
def log2Fuel : Nat → Nat → Nat
  | 0, _ => 0
  | fuel + 1, n => if n ≥ 2 then log2Fuel fuel (n / 2) + 1 else 0

/-- Position of the highest set bit of `n`: `2^(ilog2 n) ≤ n < 2^(ilog2 n + 1)`
for `n > 0`. -/
def ilog2 (n : Nat) : Nat := log2Fuel n n

/-- A non-negative finite `float64`: the value `m * 2^e`. -/
structure F64 where
  m : Nat
  e : Int
deriving DecidableEq, Repr

/-- Round `n * 2^e` to 53 significant bits, to nearest, ties to even. -/
def F64.round (n : Nat) (e : Int) : F64 :=
  if n < 2 ^ 53 then ⟨n, e⟩
  else
    let s := ilog2 n - 52
    let q := n / 2 ^ s
    let r := n % 2 ^ s
    let half := 2 ^ (s - 1)
    if r > half ∨ (r = half ∧ q % 2 = 1) then ⟨q + 1, e + s⟩ else ⟨q, e + s⟩

/-- The `float64` nearest to `(num / den) * 2^e`: the quotient is computed with
more than 64 bits and a sticky bit, then rounded. A zero `den` (the program
never divides by zero: the divisor is at least 500/1000) gives zero. -/
def F64.divRound (num den : Nat) (e : Int) : F64 :=
  if den = 0 then ⟨0, 0⟩
  else
    let k := 65 + ilog2 den
    let q := num * 2 ^ k / den
    let sticky := if num * 2 ^ k % den = 0 then 0 else 1
    F64.round (2 * q + sticky) (e - k - 1)

/-- The conversion `float64(n)` of an unsigned integer. -/
def F64.ofNat (n : Nat) : F64 := F64.round n 0

/-- The `float64` value of the decimal constant `num/den` (as `1.2` is `12/10`). -/
def F64.ofRatio (num den : Nat) : F64 := F64.divRound num den 0

/-- The `float64` product. -/
def F64.mul (a b : F64) : F64 := F64.round (a.m * b.m) (a.e + b.e)

/-- The `float64` quotient. -/
def F64.div (a b : F64) : F64 := F64.divRound a.m b.m (a.e - b.e)

/-- The conversion `uint64(x)`: truncation toward zero. For a value that does
not fit in 64 bits Go leaves the result to the implementation; here it wraps. -/
def F64.toUInt64 (x : F64) : Nat :=
  match x.e with
  | Int.ofNat k => u64 (x.m * 2 ^ k)
  | Int.negSucc k => u64 (x.m / 2 ^ (k + 1))

/-! ## `GetFlowInfo` -/

/-- The record `proto.ClientLimitInfo` as `GetFlowInfo` fills it. -/
structure ClientLimitInfo where
  Used : Nat
  Need : Nat
  UsedLimit : Nat
  UsedBuffer : Nat
deriving DecidableEq, Repr

/-- The record `proto.ClientReportLimitInfo`: the factor map (one entry for each
key of `limitMap`) and the manager ID. -/
structure ClientReportLimitInfo where
  iopsRead : ClientLimitInfo
  iopsWrite : ClientLimitInfo
  flowWrite : ClientLimitInfo
  flowRead : ClientLimitInfo
  ID : Nat
deriving DecidableEq, Repr

/-- The backward walk of `GetFlowInfo` from `grid` through `grid.Prev()` (the
list is the window from the tail backwards): sums `used`, `limit`, `buffer` and
returns them with the last grid visited. -/
def walkBack : List GridElement → Nat → Nat → Nat → Nat → Option (Nat × Nat × Nat × GridElement)
  | [], _, _, _, _ => none
  | grid :: prev, griCnt, used, limit, buffer =>
    let used := u64 (used + grid.used)
    let limit := u64 (limit + grid.limit)
    let buffer := u64 (buffer + grid.buffer)
    let griCnt := griCnt + 1
    if prev = [] ∨ griCnt ≥ girdCntOneSecond then some (used, limit, buffer, grid)
    else
      match walkBack prev griCnt used limit buffer with
      | some r => some r
      | none => some (used, limit, buffer, grid)

/-- The rate `uint64(float64(used) / (float64(timeElapse) / 1000))`. -/
def reqUsedOf (used timeElapse : Nat) : Nat :=
  F64.toUInt64 (F64.div (F64.ofNat used) (F64.div (F64.ofNat timeElapse) (F64.ofNat 1000)))

/-- The demand curve of `GetFlowInfo`: the value assigned to `limitFactor.need`
from `reqUsed`. -/
def needOfReqUsed (reqUsed : Nat) : Nat :=
  if reqUsed < MB then u64 (5 * reqUsed)
  else if reqUsed < 5 * MB then u64 (2 * reqUsed)
  else if reqUsed < 10 * MB then F64.toUInt64 (F64.mul (F64.ofRatio 15 10) (F64.ofNat reqUsed))
  else if reqUsed < 50 * MB then F64.toUInt64 (F64.mul (F64.ofRatio 12 10) (F64.ofNat reqUsed))
  else if reqUsed < 100 * MB then F64.toUInt64 (F64.mul (F64.ofRatio 11 10) (F64.ofNat reqUsed))
  else if reqUsed < 300 * MB then reqUsed
  else 300 * MB

/-- The value `reqUsed` that `GetFlowInfo` computes for a factor at time `now`
(nanoseconds); `none` on an empty window. -/
def reqUsedOfFactor (limitFactor : LimitFactor) (now : Nat) : Option Nat :=
  match walkBack limitFactor.gridList.reverse 0 0 0 0 with
  | none => none
  | some (used, _, _, grid) =>
    let timeElapse := (now - grid.time) / 1000000
    let timeElapse := if timeElapse < qosReportMinGap then qosReportMinGap else timeElapse
    some (reqUsedOf used timeElapse)

/-- The value of `limitFactor.need` after the demand-curve step of `GetFlowInfo`:
rewritten from `reqUsed` for a flow class with `need > 0`, else unchanged. -/
def needAfterReport (limitFactor : LimitFactor) (reqUsed : Nat) : Nat :=
  if isFlow limitFactor.factorType && decide (limitFactor.need > 0) then needOfReqUsed reqUsed
  else limitFactor.need

/-- The body of the loop of `GetFlowInfo` for one factor: the factor afterwards
(its `need` may be rewritten) and its entry in the report. `none` is the nil
dereference on an empty window. -/
def flowInfoOfFactor (limitFactor : LimitFactor) (now : Nat) : Option (LimitFactor × ClientLimitInfo) :=
  match reqUsedOfFactor limitFactor now, limitFactor.gridList.getLast? with
  | some reqUsed, some back =>
    let need := needAfterReport limitFactor reqUsed
    some ({ limitFactor with need := need },
          { Used := reqUsed, Need := need
            UsedLimit := u64 (back.limit * girdCntOneSecond)
            UsedBuffer := u64 (back.buffer * girdCntOneSecond) })
  | _, _ => none

/-- The test `factor.Used|factor.Need|factor.UsedLimit|factor.UsedBuffer > 0`. -/
def infoValid (factor : ClientLimitInfo) : Bool :=
  decide ((factor.Used ||| factor.Need ||| factor.UsedLimit ||| factor.UsedBuffer) > 0)

/-- Result of `GetFlowInfo`: the report, the flag returned with it, and the
state afterwards. -/
structure FlowInfoResult where
  info : ClientReportLimitInfo
  send : Bool
  mgr : LimitManager
  limitMap : LimitMap
deriving DecidableEq, Repr

/-- The method `GetFlowInfo()`. The factors are visited in a fixed order (Go
ranges over the map in an unspecified order; the entries are independent and
`validCliInfo` is a disjunction). -/
def GetFlowInfo (mgr : LimitManager) (limitMap : LimitMap) (now : Nat) : Option FlowInfoResult :=
  match flowInfoOfFactor limitMap.iopsRead now, flowInfoOfFactor limitMap.iopsWrite now,
        flowInfoOfFactor limitMap.flowWrite now, flowInfoOfFactor limitMap.flowRead now with
  | some (f1, i1), some (f2, i2), some (f3, i3), some (f4, i4) =>
    let validCliInfo := infoValid i1 || infoValid i2 || infoValid i3 || infoValid i4
    let lastValid := mgr.isLastReqValid
    let mgr := { mgr with isLastReqValid := validCliInfo }
    let validCliInfo := if mgr.once then validCliInfo else true
    let mgr := { mgr with once := true }
    some { info := { iopsRead := i1, iopsWrite := i2, flowWrite := i3, flowRead := i4, ID := mgr.ID }
           send := !(!lastValid && !validCliInfo)
           mgr := mgr
           limitMap := { iopsRead := f1, iopsWrite := f2, flowWrite := f3, flowRead := f4 } }
  | _, _, _, _ => none

/-- Result of `NewLimitManager`. -/
structure ManagerState where
  mgr : LimitManager
  limitMap : LimitMap
deriving DecidableEq, Repr

/-- The constructor `NewLimitManager` (the ticker it starts is the caller of
`CheckGrid`); `now` is the value of `time.Now()`. -/
def NewLimitManager (now : Nat) : ManagerState :=
  let mgr : LimitManager :=
    { ID := 0, enable := false, HitTriggerCnt := gridHitLimitCnt, ReqPeriod := 1
      lastReqTime := 0, lastTimeOfSetLimit := 0, isLastReqValid := false, once := false }
  let r1 := newLimitFactor mgr FactorType.IopsReadType now
  let r2 := newLimitFactor r1.mgr FactorType.IopsWriteType now
  let r3 := newLimitFactor r2.mgr FactorType.FlowWriteType now
  let r4 := newLimitFactor r3.mgr FactorType.FlowReadType now
  { mgr := r4.mgr
    limitMap := { iopsRead := r1.factor, iopsWrite := r2.factor
                  flowWrite := r3.factor, flowRead := r4.factor } }

/-! ## Reachable factor states -/

/-- The factor states reachable from `newLimitFactor` by `alloc`, `CheckGrid`
and `SetLimit`, each run atomically, with any manager state at each call. -/
inductive Reachable : LimitFactor → Prop where
  | init (mgr : LimitManager) (factorType : FactorType) (now : Nat) :
      Reachable (newLimitFactor mgr factorType now).factor
  | alloc {f : LimitFactor} (mgr : LimitManager) (allocCnt now : Nat) (newFuture : Future)
      (r : AllocResult) : Reachable f → alloc mgr f allocCnt now newFuture = some r →
      Reachable r.factor
  | checkGrid {f : LimitFactor} (now : Nat) (r : CheckGridResult) :
      Reachable f → CheckGrid f now = some r → Reachable r.factor
  | setLimit {f : LimitFactor} (mgr : LimitManager) (limitVal bufferVal now : Nat) :
      Reachable f → Reachable (SetLimit mgr f limitVal bufferVal now).factor

/-! ## Auxiliary notions used in the statements -/

/-- Sum of the `used` fields of a list of waiters. -/
def sumUsed (ws : List AllocElement) : Nat := (ws.map (fun w => w.used)).sum

/-- Number of grids of a window whose `hitLimit` flag is set. -/
def hitCount (l : List GridElement) : Nat := l.countP (fun g => g.hitLimit)

/-! ## Concrete states -/

/-- A manager as `NewLimitManager` builds it, with the given `enable` flag. -/
def mgrWith (enable : Bool) : LimitManager :=
  { ID := 0, enable := enable, HitTriggerCnt := gridHitLimitCnt, ReqPeriod := 1
    lastReqTime := 0, lastTimeOfSetLimit := 0, isLastReqValid := false, once := false }

/-- A fresh flow-write factor: `newLimitFactor` at time 0. -/
def freshFactor : LimitFactor := (newLimitFactor (mgrWith false) FactorType.FlowWriteType 0).factor

/-- The fresh factor after `SetLimit(300, 0)`: per-grid limit 100. -/
def factor100 : LimitFactor := (SetLimit (mgrWith true) freshFactor 300 0 1).factor

/-- The state of `factor100` after an enabled `alloc(80)` (admitted) followed by
an enabled `alloc(80)` (parked): tail used 80, one waiter of 80. -/
def parkedFactor : LimitFactor :=
  { factorType := FactorType.FlowWriteType
    gridList := [{ time := 0, used := 80, limit := 100, buffer := 0, hitLimit := true, ID := 0 }]
    waitList := [{ used := 80, magnify := 100, future := 7 }]
    need := 8000, gidHitLimitCnt := 1, gridId := 1, magnify := 100 }

/-- The state of `factor100` after an enabled `alloc(80)` (admitted): tail used
80, no waiter. -/
def admittedFactor : LimitFactor :=
  { factorType := FactorType.FlowWriteType
    gridList := [{ time := 0, used := 80, limit := 100, buffer := 0, hitLimit := false, ID := 0 }]
    waitList := []
    need := 0, gidHitLimitCnt := 0, gridId := 1, magnify := 100 }

/-- The tail grid of `admittedFactor` with the limit and buffer that
`SetLimit(0, 0)` writes: the grid `SetLimit` passes to `TryReleaseWaitList`. -/
def loweredGrid : GridElement :=
  { time := 0, used := 80, limit := 0, buffer := 0, hitLimit := false, ID := 0 }

/-- A queue of three waiters of 40, 50 and 30 on a factor whose tail is full. -/
def queuedFactor : LimitFactor :=
  { factorType := FactorType.FlowWriteType
    gridList := [{ time := 0, used := 100, limit := 100, buffer := 0, hitLimit := true, ID := 0 }]
    waitList := [{ used := 40, magnify := 100, future := 1 }, { used := 50, magnify := 100, future := 2 },
                 { used := 30, magnify := 100, future := 3 }]
    need := 12000, gidHitLimitCnt := 1, gridId := 1, magnify := 100 }

/-- A fresh grid of capacity 100, as `CheckGrid` builds after the tail of
`queuedFactor`. -/
def freshGrid100 : GridElement :=
  { time := 5, used := 0, limit := 100, buffer := 0, hitLimit := false, ID := 1 }

/-- The window invariant: the window is non-empty, holds at most
`gridWindowTimeScope * girdCntOneSecond` grids, and `gidHitLimitCnt` counts its
flagged grids. -/
def WindowInv (f : LimitFactor) : Prop :=
  f.gridList ≠ [] ∧ f.gridList.length ≤ gridWindowTimeScope * girdCntOneSecond ∧
    f.gidHitLimitCnt = hitCount f.gridList

/-- An IOPS-read factor with the window of `admittedFactor`. -/
def iopsFactor : LimitFactor := { admittedFactor with factorType := FactorType.IopsReadType }

/-- The entry `limitMap[t]`. -/
def LimitMap.get (m : LimitMap) : FactorType → LimitFactor
  | FactorType.IopsReadType => m.iopsRead
  | FactorType.IopsWriteType => m.iopsWrite
  | FactorType.FlowWriteType => m.flowWrite
  | FactorType.FlowReadType => m.flowRead

/-- The entry `info.FactorMap[t]` of a report. -/
def ClientReportLimitInfo.get (i : ClientReportLimitInfo) : FactorType → ClientLimitInfo
  | FactorType.IopsReadType => i.iopsRead
  | FactorType.IopsWriteType => i.iopsWrite
  | FactorType.FlowWriteType => i.flowWrite
  | FactorType.FlowReadType => i.flowRead

/-- The demand curve in the words of the spec (section 4.8, step 4), with the
fractional products truncated: the definition `needOfReqUsed`, taken from the
source, is compared with this one. -/
def specNeedCurve (reqUsed : Nat) : Nat :=
  if reqUsed < MB then 5 * reqUsed
  else if reqUsed < 5 * MB then 2 * reqUsed
  else if reqUsed < 10 * MB then 3 * reqUsed / 2
  else if reqUsed < 50 * MB then 6 * reqUsed / 5
  else if reqUsed < 100 * MB then 11 * reqUsed / 10
  else if reqUsed < 300 * MB then reqUsed
  else 300 * MB

/-- A report is valid when some entry has a non-zero field: the value of
`validCliInfo` after the loop of `GetFlowInfo`. -/
def reportValid (i : ClientReportLimitInfo) : Bool :=
  infoValid i.iopsRead || infoValid i.iopsWrite || infoValid i.flowWrite || infoValid i.flowRead

/-- A flow-read factor whose only grid, created at time 0, holds 3 MiB, with a
pending need. -/
def busyFlowRead : LimitFactor :=
  { factorType := FactorType.FlowReadType
    gridList := [{ time := 0, used := 3 * MB, limit := MB, buffer := 0, hitLimit := true, ID := 0 }]
    waitList := [{ used := 80, magnify := 100, future := 7 }]
    need := 8000, gidHitLimitCnt := 1, gridId := 1, magnify := 100 }

/-- A factor map with `busyFlowRead` as its flow-read entry. -/
def busyMap : LimitMap :=
  { iopsRead := iopsFactor
    iopsWrite := { iopsFactor with factorType := FactorType.IopsWriteType }
    flowWrite := parkedFactor
    flowRead := busyFlowRead }

/-! ## `SetClientLimit` and the manager as a state machine -/

/-- Modelled from the spec: the message `proto.LimitRsp2Client` (package `proto`
is not part of the sources): the enable flag, the optional hit trigger count
and request period (0 when absent), a map of class to `{UsedLimit, UsedBuffer}`
and a map of class to magnify. -/
structure LimitRsp2Client where
  Enable : Bool
  HitTriggerCnt : Nat
  ReqPeriod : Nat
  FactorMap : FactorType → Option ClientLimitInfo
  Magnify : FactorType → Option Nat

/-- The store `limitMap[t] = f`. -/
def LimitMap.set (m : LimitMap) (t : FactorType) (f : LimitFactor) : LimitMap :=
  match t with
  | FactorType.IopsReadType => { m with iopsRead := f }
  | FactorType.IopsWriteType => { m with iopsWrite := f }
  | FactorType.FlowWriteType => { m with flowWrite := f }
  | FactorType.FlowReadType => { m with flowRead := f }

/-- The body of the magnify loop of `SetClientLimit` for one factor: a positive
magnify different from the current one replaces it. -/
def setMagnify (factor : LimitFactor) (magnify : Nat) : LimitFactor :=
  if magnify > 0 ∧ magnify ≠ factor.magnify then { factor with magnify := magnify } else factor

/-- The body of the first loop of `SetClientLimit` for the key `t`: `SetLimit`
on `limitMap[t]` when `limit.FactorMap` has the key. -/
def setLimitOf (limit : LimitRsp2Client) (now : Nat) (s : ManagerState) (t : FactorType) :
    ManagerState :=
  match limit.FactorMap t with
  | none => s
  | some clientLimitInfo =>
    let r := SetLimit s.mgr (s.limitMap.get t) clientLimitInfo.UsedLimit clientLimitInfo.UsedBuffer now
    { mgr := r.mgr, limitMap := s.limitMap.set t r.factor }

/-- The body of the second loop of `SetClientLimit` for the key `t`. -/
def setMagnifyOf (limit : LimitRsp2Client) (s : ManagerState) (t : FactorType) : ManagerState :=
  match limit.Magnify t with
  | none => s
  | some magnify => { s with limitMap := s.limitMap.set t (setMagnify (s.limitMap.get t) magnify) }

/-- The four keys of `limitMap`, in the order the loops of this model visit them
(Go ranges over a map in an unspecified order; the factors are independent). -/
def factorTypes : List FactorType :=
  [FactorType.IopsReadType, FactorType.IopsWriteType, FactorType.FlowWriteType,
   FactorType.FlowReadType]

/-- The method `SetClientLimit(limit)`; `none` is the nil `limit`, `now` the
value of `time.Now()` in the calls of `SetLimit`. -/
def SetClientLimit (s : ManagerState) (limit : Option LimitRsp2Client) (now : Nat) : ManagerState :=
  match limit with
  | none => s
  | some limit =>
    let mgr := { s.mgr with enable := limit.Enable }
    let mgr := if limit.HitTriggerCnt > 0 then { mgr with HitTriggerCnt := limit.HitTriggerCnt } else mgr
    let mgr := if limit.ReqPeriod > 0 then { mgr with ReqPeriod := limit.ReqPeriod } else mgr
    let s := factorTypes.foldl (setLimitOf limit now) { s with mgr := mgr }
    factorTypes.foldl (setMagnifyOf limit) s

/-- A call on the manager: `alloc` and `CheckGrid` on the factor `limitMap[t]`,
`GetFlowInfo`, `SetClientLimit`. -/
inductive Op where
  | alloc (t : FactorType) (allocCnt now : Nat) (newFuture : Future)
  | checkGrid (t : FactorType) (now : Nat)
  | getFlowInfo (now : Nat)
  | setClientLimit (limit : Option LimitRsp2Client) (now : Nat)

/-- One call, run atomically: the state afterwards and, when the call started
the refresh callback (`go factor.mgr.WrapperUpdate(...)`), the time it did.
`none` is a nil dereference. -/
def step (s : ManagerState) : Op → Option (ManagerState × Option Nat)
  | Op.alloc t allocCnt now newFuture =>
    match alloc s.mgr (s.limitMap.get t) allocCnt now newFuture with
    | none => none
    | some r =>
      some ({ mgr := r.mgr, limitMap := s.limitMap.set t r.factor },
            if r.spawned then some now else none)
  | Op.checkGrid t now =>
    match CheckGrid (s.limitMap.get t) now with
    | none => none
    | some r => some ({ s with limitMap := s.limitMap.set t r.factor }, none)
  | Op.getFlowInfo now =>
    match GetFlowInfo s.mgr s.limitMap now with
    | none => none
    | some R => some ({ mgr := R.mgr, limitMap := R.limitMap }, none)
  | Op.setClientLimit limit now => some (SetClientLimit s limit now, none)

/-- A sequence of calls: the final state and the times at which the refresh
callback was started, in order. -/
def run : ManagerState → List Op → Option (ManagerState × List Nat)
  | s, [] => some (s, [])
  | s, op :: ops =>
    match step s op with
    | none => none
    | some (s1, ev) =>
      match run s1 ops with
      | none => none
      | some (s2, evs) => some (s2, (match ev with | some t => [t] | none => []) ++ evs)

/-- The request period of an `Op` leaves `ReqPeriod` at `p`. -/
def Op.keepsReqPeriod (p : Nat) : Op → Prop
  | Op.setClientLimit (some limit) _ => limit.ReqPeriod = 0 ∨ limit.ReqPeriod = p
  | _ => True

/-- The factor states reachable from `newLimitFactor` by `alloc`, `CheckGrid`,
`SetLimit`, the loop body of `GetFlowInfo` and the magnify update of
`SetClientLimit`, each run atomically, with any manager state at each call. -/
inductive ReachableR : LimitFactor → Prop where
  | init (mgr : LimitManager) (factorType : FactorType) (now : Nat) :
      ReachableR (newLimitFactor mgr factorType now).factor
  | alloc {f : LimitFactor} (mgr : LimitManager) (allocCnt now : Nat) (newFuture : Future)
      (r : AllocResult) : ReachableR f → alloc mgr f allocCnt now newFuture = some r →
      ReachableR r.factor
  | checkGrid {f : LimitFactor} (now : Nat) (r : CheckGridResult) :
      ReachableR f → CheckGrid f now = some r → ReachableR r.factor
  | setLimit {f : LimitFactor} (mgr : LimitManager) (limitVal bufferVal now : Nat) :
      ReachableR f → ReachableR (SetLimit mgr f limitVal bufferVal now).factor
  | getFlowInfo {f : LimitFactor} (now : Nat) (f' : LimitFactor) (info : ClientLimitInfo) :
      ReachableR f → flowInfoOfFactor f now = some (f', info) → ReachableR f'
  | setMagnify {f : LimitFactor} (magnify : Nat) :
      ReachableR f → ReachableR (setMagnify f magnify)

/-- The factor states reachable from `newLimitFactor` by `alloc`, `CheckGrid`,
`SetLimit` and magnify updates, without `GetFlowInfo`. -/
inductive ReachableM : LimitFactor → Prop where
  | init (mgr : LimitManager) (factorType : FactorType) (now : Nat) :
      ReachableM (newLimitFactor mgr factorType now).factor
  | alloc {f : LimitFactor} (mgr : LimitManager) (allocCnt now : Nat) (newFuture : Future)
      (r : AllocResult) : ReachableM f → alloc mgr f allocCnt now newFuture = some r →
      ReachableM r.factor
  | checkGrid {f : LimitFactor} (now : Nat) (r : CheckGridResult) :
      ReachableM f → CheckGrid f now = some r → ReachableM r.factor
  | setLimit {f : LimitFactor} (mgr : LimitManager) (limitVal bufferVal now : Nat) :
      ReachableM f → ReachableM (SetLimit mgr f limitVal bufferVal now).factor
  | setMagnify {f : LimitFactor} (magnify : Nat) :
      ReachableM f → ReachableM (setMagnify f magnify)

/-- `RotAlloc f f'`: the state `f'` is reached from `f` by any number of
`CheckGrid` rotations and `alloc` calls (with any manager state), and no
`SetLimit`. -/
inductive RotAlloc : LimitFactor → LimitFactor → Prop where
  | refl (f : LimitFactor) : RotAlloc f f
  | alloc {f g : LimitFactor} (mgr : LimitManager) (allocCnt now : Nat) (newFuture : Future)
      (r : AllocResult) : RotAlloc f g → alloc mgr g allocCnt now newFuture = some r →
      RotAlloc f r.factor
  | checkGrid {f g : LimitFactor} (now : Nat) (r : CheckGridResult) :
      RotAlloc f g → CheckGrid g now = some r → RotAlloc f r.factor

/-- The sum of `getNeedByMagnify(w.used, w.magnify)` over a list of waiters. -/
def needSum (factor : LimitFactor) (ws : List AllocElement) : Nat :=
  (ws.map (fun w => getNeedByMagnify factor w.used w.magnify)).sum

/-- The call is `GetFlowInfo`. -/
def Op.isGetFlowInfo : Op → Bool
  | Op.getFlowInfo _ => true
  | _ => false

/-- The all-zero entry of a report. -/
def zeroInfo : ClientLimitInfo := { Used := 0, Need := 0, UsedLimit := 0, UsedBuffer := 0 }

/-- The result of the first `GetFlowInfo` on the fresh manager `NewLimitManager 0`:
an all-zero report, sent because of the latch. -/
def zeroReport : FlowInfoResult :=
  { info := { iopsRead := zeroInfo, iopsWrite := zeroInfo, flowWrite := zeroInfo,
              flowRead := zeroInfo, ID := 0 }
    send := true
    mgr := { (NewLimitManager 0).mgr with isLastReqValid := false, once := true }
    limitMap := (NewLimitManager 0).limitMap }

/-- An enabled manager over two IOPS factors whose tail holds 80 of 100 and has
not hit its limit. -/
def triggerState : ManagerState :=
  { mgr := mgrWith true, limitMap := busyMap }

/-- Three parking requests of 80: on the IOPS-read factor at 2 s and at 2.5 s,
on the IOPS-write factor at 4 s. -/
def triggerOps : List Op :=
  [Op.alloc FactorType.IopsReadType 80 2000000000 1,
   Op.checkGrid FactorType.IopsReadType 2400000000,
   Op.alloc FactorType.IopsReadType 80 2500000000 2,
   Op.alloc FactorType.IopsWriteType 80 4000000000 3]

/-- The values of a state are in range for exact arithmetic in a drain into
`g`: `g.used` and the capacity `g.limit + g.buffer` leave room for one more
`uint32`, and every queued `used` is a `uint32`. -/
def DrainInRange (factor : LimitFactor) (g : GridElement) : Prop :=
  g.used + 2 ^ 32 ≤ 2 ^ 64 ∧ g.limit + g.buffer + 2 ^ 32 ≤ 2 ^ 64 ∧
    ∀ w ∈ factor.waitList, w.used < 2 ^ 32

/-- The need invariant: `need` is the `uint64` value of the sum of
`getNeedByMagnify(w.used, w.magnify)` over the queued waiters. -/
def NeedInv (f : LimitFactor) : Prop := f.need = u64 (needSum f f.waitList)

/-- The master's answer that enables the limiter and gives the flow-write class
a limit of 300 per second (100 per grid). -/
def enableFlowWrite : LimitRsp2Client :=
  { Enable := true, HitTriggerCnt := 0, ReqPeriod := 0
    FactorMap := fun t =>
      if t = FactorType.FlowWriteType then
        some { Used := 0, Need := 0, UsedLimit := 300, UsedBuffer := 0 }
      else none
    Magnify := fun _ => none }

/-- On a fresh manager: enable with 100 per grid for flow-write, admit 80, park
80 (need becomes 8000), report after one second (the rate is 80, so the report
rewrites need to 400), then rotate (the waiter is released and 8000 is
subtracted). -/
def reportThenDrainOps : List Op :=
  [Op.setClientLimit (some enableFlowWrite) 1,
   Op.alloc FactorType.FlowWriteType 80 2 0,
   Op.alloc FactorType.FlowWriteType 80 3 7,
   Op.getFlowInfo 1000000000,
   Op.checkGrid FactorType.FlowWriteType 1100000000]

/-- A factor whose head waiter asks for 500 while the tail offers 100. -/
def oversizedFactor : LimitFactor :=
  { factorType := FactorType.FlowWriteType
    gridList := [{ time := 0, used := 0, limit := 100, buffer := 0, hitLimit := true, ID := 0 }]
    waitList := [{ used := 500, magnify := 100, future := 7 }]
    need := 50000, gidHitLimitCnt := 1, gridId := 1, magnify := 100 }

end Limiter

/-! # Theorems -/

namespace Limiter

/-! ## Lists and machine integers -/

theorem getLast?_snoc {α : Type} (l : List α) (x : α) : (l ++ [x]).getLast? = some x := by
  simp

theorem setBack_snoc {α : Type} (l : List α) (x y : α) : setBack (l ++ [x]) y = l ++ [y] := by
  simp [setBack]

theorem setBack_drop_snoc {α : Type} (l : List α) (x y : α) (k : Nat) (hk : k ≤ l.length) :
    setBack ((l ++ [x]).drop k) y = (l ++ [y]).drop k := by
  rw [List.drop_append_of_le_length hk, List.drop_append_of_le_length hk, setBack_snoc]

theorem exists_snoc_of_ne_nil {α : Type} {l : List α} (h : l ≠ []) :
    ∃ ini x, l = ini ++ [x] := by
  rcases List.eq_nil_or_concat l with h1 | ⟨L, b, hb⟩
  · exact absurd h1 h
  · exact ⟨L, b, by simpa using hb⟩

theorem u64_lt (x : Nat) : u64 x < 2 ^ 64 := Nat.mod_lt _ (by norm_num)

theorem u64_le (x : Nat) : u64 x ≤ x := Nat.mod_le _ _

theorem u64_of_lt {x : Nat} (h : x < 2 ^ 64) : u64 x = x := Nat.mod_eq_of_lt h

theorem u64_add_u64 (a b : Nat) : u64 (u64 a + b) = u64 (a + b) := by
  unfold u64; exact Nat.mod_add_mod a _ b

theorem sumUsed_cons (w : AllocElement) (ws : List AllocElement) :
    sumUsed (w :: ws) = w.used + sumUsed ws := by
  simp [sumUsed]

theorem sumUsed_nil : sumUsed [] = 0 := rfl

/-! ## The drain loop -/

/-- The loop releases a prefix of the wait list: the longest one whose running
totals (in `uint64` arithmetic) all fit. -/
theorem releaseLoop_prefix (factor : LimitFactor) (g : GridElement) :
    ∀ (ws : List AllocElement) (need used : Nat),
      ∃ k, k ≤ ws.length ∧
        (releaseLoop factor g ws need used).1 = ws.drop k ∧
        (releaseLoop factor g ws need used).2.2.2 = ws.take k ∧
        (releaseLoop factor g ws need used).2.2.1 =
          (if k = 0 then used else u64 (used + sumUsed (ws.take k))) ∧
        (∀ i, 1 ≤ i → i ≤ k → u64 (used + sumUsed (ws.take i)) ≤ u64 (g.limit + g.buffer)) ∧
        (k < ws.length → u64 (g.limit + g.buffer) < u64 (used + sumUsed (ws.take (k + 1)))) := by
  intro ws
  induction ws with
  | nil =>
    intro need used
    exact ⟨0, by simp, by simp [releaseLoop], by simp [releaseLoop],
      by simp [releaseLoop], by intro i h1 h2; omega, by simp⟩
  | cons ele rest ih =>
    intro need used
    by_cases h : u64 (used + ele.used) > u64 (g.limit + g.buffer)
    · refine ⟨0, by simp, by simp [releaseLoop, h], by simp [releaseLoop, h],
        by simp [releaseLoop, h], by intro i h1 h2; omega, ?_⟩
      intro _
      simpa [sumUsed] using h
    · obtain ⟨k, hk, h1, h2, h3, h4, h5⟩ := ih
        (u64sub need (getNeedByMagnify factor ele.used ele.magnify)) (u64 (used + ele.used))
      refine ⟨k + 1, by simp [hk], by simp [releaseLoop, h, h1], by simp [releaseLoop, h, h2],
        ?_, ?_, ?_⟩
      · simp only [releaseLoop, h, if_false, h3, List.take_succ_cons, sumUsed_cons]
        by_cases hk0 : k = 0
        · subst hk0
          simp [sumUsed_nil]
        · simp only [hk0, if_false, Nat.succ_ne_zero]
          rw [u64_add_u64, Nat.add_assoc]
      · intro i hi1 hi2
        rcases Nat.lt_or_ge i 2 with hlt | hge
        · have hi : i = 1 := by omega
          subst hi
          simpa [sumUsed] using Nat.le_of_not_gt h
        · obtain ⟨j, rfl⟩ : ∃ j, i = j + 1 := ⟨i - 1, by omega⟩
          have := h4 j (by omega) (by omega)
          rw [u64_add_u64, Nat.add_assoc] at this
          simpa [List.take_succ_cons, sumUsed_cons] using this
      · intro hlen
        have := h5 (by simpa using hlen)
        rw [u64_add_u64, Nat.add_assoc] at this
        simpa [List.take_succ_cons, sumUsed_cons] using this

/-- The same without overflow: when `used` and the capacity leave room for one
more `uint32`, the running totals are exact sums. -/
theorem releaseLoop_prefix_exact (factor : LimitFactor) (g : GridElement)
    (hC : g.limit + g.buffer + 2 ^ 32 ≤ 2 ^ 64) :
    ∀ (ws : List AllocElement) (need used : Nat), used + 2 ^ 32 ≤ 2 ^ 64 →
      (∀ w ∈ ws, w.used < 2 ^ 32) →
      ∃ k, k ≤ ws.length ∧
        (releaseLoop factor g ws need used).1 = ws.drop k ∧
        (releaseLoop factor g ws need used).2.2.2 = ws.take k ∧
        (releaseLoop factor g ws need used).2.2.1 = used + sumUsed (ws.take k) ∧
        (∀ i, 1 ≤ i → i ≤ k → used + sumUsed (ws.take i) ≤ g.limit + g.buffer) ∧
        (k < ws.length → g.limit + g.buffer < used + sumUsed (ws.take (k + 1))) := by
  have hcap : u64 (g.limit + g.buffer) = g.limit + g.buffer := u64_of_lt (by omega)
  intro ws
  induction ws with
  | nil =>
    intro need used _ _
    exact ⟨0, by simp, by simp [releaseLoop], by simp [releaseLoop],
      by simp [releaseLoop, sumUsed_nil], by intro i h1 h2; omega, by simp⟩
  | cons ele rest ih =>
    intro need used hu hw
    have hele : ele.used < 2 ^ 32 := hw ele (by simp)
    have hsum : u64 (used + ele.used) = used + ele.used := u64_of_lt (by omega)
    by_cases h : used + ele.used > g.limit + g.buffer
    · refine ⟨0, by simp, by simp [releaseLoop, hsum, hcap, h], by simp [releaseLoop, hsum, hcap, h],
        by simp [releaseLoop, hsum, hcap, h, sumUsed_nil], by intro i h1 h2; omega, ?_⟩
      intro _
      simpa [sumUsed] using h
    · obtain ⟨k, hk, h1, h2, h3, h4, h5⟩ := ih
        (u64sub need (getNeedByMagnify factor ele.used ele.magnify)) (used + ele.used)
        (by omega) (fun w hmem => hw w (by simp [hmem]))
      refine ⟨k + 1, by simp [hk], by simp [releaseLoop, hsum, hcap, h, h1],
        by simp [releaseLoop, hsum, hcap, h, h2], ?_, ?_, ?_⟩
      · simp only [releaseLoop, hsum, hcap, h, if_false, h3, List.take_succ_cons, sumUsed_cons]
        omega
      · intro i hi1 hi2
        rcases Nat.lt_or_ge i 2 with hlt | hge
        · have hi : i = 1 := by omega
          subst hi
          simpa [sumUsed] using Nat.le_of_not_gt h
        · obtain ⟨j, rfl⟩ : ∃ j, i = j + 1 := ⟨i - 1, by omega⟩
          have := h4 j (by omega) (by omega)
          simp only [List.take_succ_cons, sumUsed_cons]
          omega
      · intro hlen
        have := h5 (by simpa using hlen)
        simp only [List.take_succ_cons, sumUsed_cons]
        omega

/-- After the loop, a waiter left at the head of the queue does not fit. -/
theorem releaseLoop_head_blocked (factor : LimitFactor) (g : GridElement) :
    ∀ (ws : List AllocElement) (need used : Nat) (w : AllocElement) (rest : List AllocElement),
      (releaseLoop factor g ws need used).1 = w :: rest →
      u64 (g.limit + g.buffer) < u64 ((releaseLoop factor g ws need used).2.2.1 + w.used) := by
  intro ws
  induction ws with
  | nil => intro need used w rest h; simp [releaseLoop] at h
  | cons ele tl ih =>
    intro need used w rest h
    by_cases hfit : u64 (used + ele.used) > u64 (g.limit + g.buffer)
    · simp only [releaseLoop, hfit, if_true] at h ⊢
      obtain ⟨rfl, _⟩ := List.cons.inj h
      exact hfit
    · simp only [releaseLoop, hfit, if_false] at h ⊢
      exact ih _ _ w rest h

/-- The drain changes only `waitList` and `need` of the factor and only `used`
of the grid. -/
theorem TryReleaseWaitList_frame (factor : LimitFactor) (g : GridElement) :
    (TryReleaseWaitList factor g).factor.gridList = factor.gridList ∧
    (TryReleaseWaitList factor g).factor.gidHitLimitCnt = factor.gidHitLimitCnt ∧
    (TryReleaseWaitList factor g).factor.gridId = factor.gridId ∧
    (TryReleaseWaitList factor g).factor.magnify = factor.magnify ∧
    (TryReleaseWaitList factor g).factor.factorType = factor.factorType ∧
    (TryReleaseWaitList factor g).grid.limit = g.limit ∧
    (TryReleaseWaitList factor g).grid.buffer = g.buffer ∧
    (TryReleaseWaitList factor g).grid.hitLimit = g.hitLimit ∧
    (TryReleaseWaitList factor g).grid.ID = g.ID ∧
    (TryReleaseWaitList factor g).grid.time = g.time := by
  simp [TryReleaseWaitList]

/-! ## `alloc` when the manager is enabled -/

/-- The two outcomes of `alloc` on an enabled manager and a non-empty window. -/
theorem alloc_enabled (mgr : LimitManager) (factor : LimitFactor) (n now : Nat) (fut : Future)
    (ini : List GridElement) (tail : GridElement)
    (hen : mgr.enable = true) (hl : factor.gridList = ini ++ [tail]) :
    ∃ r, alloc mgr factor n now fut = some r ∧
      ((factor.waitList ≠ [] ∨ u64 (tail.limit + tail.buffer) < u64 (tail.used + n)) →
        r.ret = runLater ∧ r.future = some fut ∧
        r.factor.waitList = factor.waitList ++ [{ used := n, magnify := factor.magnify, future := fut }] ∧
        r.factor.gridList = ini ++ [{ tail with hitLimit := true }] ∧
        r.factor.need = u64 (factor.need + getNeedByMagnify factor n factor.magnify) ∧
        r.factor.gidHitLimitCnt =
          (if tail.hitLimit then factor.gidHitLimitCnt else u8 (factor.gidHitLimitCnt + 1)) ∧
        r.factor.gridId = factor.gridId ∧ r.factor.magnify = factor.magnify ∧
        r.factor.factorType = factor.factorType) ∧
      (¬ (factor.waitList ≠ [] ∨ u64 (tail.limit + tail.buffer) < u64 (tail.used + n)) →
        r = { ret := runNow, future := none
              factor := { factor with gridList := ini ++ [{ tail with used := u64 (tail.used + n) }] }
              mgr := mgr, spawned := false }) := by
  by_cases hc : factor.waitList ≠ [] ∨ u64 (tail.limit + tail.buffer) < u64 (tail.used + n)
  · have hcond : (decide (factor.waitList.length > 0) ||
        decide (u64 (tail.used + n) > u64 (tail.limit + tail.buffer))) = true := by
      rcases hc with h | h
      · have : factor.waitList.length > 0 := List.length_pos.mpr h
        simp [this]
      · simp [h]
    cases hh : tail.hitLimit
    · refine ⟨_, by simp only [alloc, hen, hl, getLast?_snoc, setBack_snoc, hcond, hh]; rfl, ?_, ?_⟩
      · intro _; simp
      · intro hn; exact absurd hc hn
    · refine ⟨_, by simp only [alloc, hen, hl, getLast?_snoc, setBack_snoc, hcond, hh]; rfl, ?_, ?_⟩
      · intro _; simp
      · intro hn; exact absurd hc hn
  · have hcond : (decide (factor.waitList.length > 0) ||
        decide (u64 (tail.used + n) > u64 (tail.limit + tail.buffer))) = false := by
      have h1 : factor.waitList = [] := by
        by_contra h; exact hc (Or.inl h)
      have h2 : ¬ u64 (tail.limit + tail.buffer) < u64 (tail.used + n) := fun h => hc (Or.inr h)
      simp [h1, h2]
    refine ⟨_, by simp only [alloc, hen, hl, getLast?_snoc, setBack_snoc, hcond]; rfl, ?_, ?_⟩
    · intro h; exact absurd h hc
    · intro _; rfl

/-! ## C1: sticky parking -/

/-- C1 (as stated) fails: with the manager disabled, `alloc` on a factor whose
waiter queue is non-empty returns `runNow` without a future. -/
theorem alloc_disabled_admits_despite_waiters :
    parkedFactor.waitList ≠ [] ∧
    (alloc (mgrWith false) parkedFactor 1 5 9).map (fun r => (r.ret, r.future)) =
      some (runNow, none) := by
  decide

/-- C1 (amended): when the manager is enabled and the window is non-empty, every
`alloc(n)` on a factor whose waiter queue is non-empty returns `runLater` with
the new future, whatever `tail.used + n` is against `tail.limit + tail.buffer`. -/
theorem alloc_enabled_parks_behind_waiters (mgr : LimitManager) (factor : LimitFactor)
    (n now : Nat) (fut : Future) (hen : mgr.enable = true) (hwin : factor.gridList ≠ [])
    (hq : factor.waitList ≠ []) :
    ∃ r, alloc mgr factor n now fut = some r ∧ r.ret = runLater ∧ r.future = some fut := by
  obtain ⟨ini, tail, hl⟩ := exists_snoc_of_ne_nil hwin
  obtain ⟨r, hr, hpark, _⟩ := alloc_enabled mgr factor n now fut ini tail hen hl
  obtain ⟨h1, h2, _⟩ := hpark (Or.inl hq)
  exact ⟨r, hr, h1, h2⟩

theorem alloc_enabled_parks_behind_waiters_witness :
    ∃ r, alloc (mgrWith true) parkedFactor 1 5 9 = some r ∧ r.ret = runLater ∧
      r.future = some 9 :=
  alloc_enabled_parks_behind_waiters (mgrWith true) parkedFactor 1 5 9 (by decide) (by decide)
    (by decide)

/-! ## C2: capacity after a drain -/

/-- C2 (as stated) fails: `SetLimit(0, 0)` on a factor whose tail holds 80 calls
`TryReleaseWaitList` on a grid with used 80 and capacity 0; the drain leaves
`used` above `limit + buffer`. -/
theorem TryReleaseWaitList_keeps_overdrawn_grid :
    (SetLimit (mgrWith true) admittedFactor 0 0 2).factor.gridList =
      [(TryReleaseWaitList admittedFactor loweredGrid).grid] ∧
    ¬ ((TryReleaseWaitList admittedFactor loweredGrid).grid.used ≤
        (TryReleaseWaitList admittedFactor loweredGrid).grid.limit +
          (TryReleaseWaitList admittedFactor loweredGrid).grid.buffer) := by
  decide

/-- C2 (amended): if the grid is within its capacity when the drain starts, or
the drain releases at least one waiter, then after `TryReleaseWaitList(g)`
`g.used ≤ g.limit + g.buffer` (also against the `uint64` value of the sum);
limit and buffer are unchanged, `used` is charged with the released waiters
only, and a waiter left at the head of the queue is one that does not fit. -/
theorem TryReleaseWaitList_within_capacity (factor : LimitFactor) (g : GridElement)
    (h : g.used ≤ u64 (g.limit + g.buffer) ∨ (TryReleaseWaitList factor g).released ≠ []) :
    (TryReleaseWaitList factor g).grid.used ≤
      (TryReleaseWaitList factor g).grid.limit + (TryReleaseWaitList factor g).grid.buffer ∧
    (TryReleaseWaitList factor g).grid.used ≤ u64 (g.limit + g.buffer) ∧
    (TryReleaseWaitList factor g).grid.limit = g.limit ∧
    (TryReleaseWaitList factor g).grid.buffer = g.buffer ∧
    (TryReleaseWaitList factor g).grid.used =
      u64 (g.used + sumUsed (TryReleaseWaitList factor g).released) ∧
    (TryReleaseWaitList factor g).released ++ (TryReleaseWaitList factor g).factor.waitList =
      factor.waitList ∧
    (∀ w rest, (TryReleaseWaitList factor g).factor.waitList = w :: rest →
      u64 (g.limit + g.buffer) < u64 ((TryReleaseWaitList factor g).grid.used + w.used)) := by
  obtain ⟨k, hk, h1, h2, h3, h4, h5⟩ :=
    releaseLoop_prefix factor g factor.waitList factor.need g.used
  have hused : (TryReleaseWaitList factor g).grid.used ≤ u64 (g.limit + g.buffer) ∧
      (TryReleaseWaitList factor g).grid.used =
        u64 (g.used + sumUsed (TryReleaseWaitList factor g).released) := by
    by_cases hk0 : k = 0
    · subst hk0
      have hrel : (TryReleaseWaitList factor g).released = [] := by
        simp [TryReleaseWaitList, h2]
      have hle : g.used ≤ u64 (g.limit + g.buffer) := by
        rcases h with h | h
        · exact h
        · exact absurd hrel h
      have hlt : g.used < 2 ^ 64 := Nat.lt_of_le_of_lt hle (u64_lt _)
      simp [TryReleaseWaitList, h3, h2, hle, sumUsed_nil, u64_of_lt hlt]
    · have := h4 k (by omega) (Nat.le_refl k)
      simp [TryReleaseWaitList, h3, h2, hk0, this]
  refine ⟨?_, hused.1, rfl, rfl, hused.2, ?_, ?_⟩
  · exact Nat.le_trans hused.1 (u64_le _)
  · simp [TryReleaseWaitList, h1, h2]
  · intro w rest hw
    exact releaseLoop_head_blocked factor g factor.waitList factor.need g.used w rest hw

theorem TryReleaseWaitList_within_capacity_witness :
    (TryReleaseWaitList queuedFactor freshGrid100).grid.used = 90 ∧
    (TryReleaseWaitList queuedFactor freshGrid100).grid.used ≤
      (TryReleaseWaitList queuedFactor freshGrid100).grid.limit +
        (TryReleaseWaitList queuedFactor freshGrid100).grid.buffer :=
  ⟨by decide, (TryReleaseWaitList_within_capacity queuedFactor freshGrid100
    (Or.inl (by decide))).1⟩

/-! ## C3: FIFO service -/

/-- C3: a parked waiter is appended at the back of the queue, and
`TryReleaseWaitList(g)` responds to exactly the first `k` waiters, in queue
order, where `k` is the length of the longest prefix whose running totals
`g.used + w1.used + ... + wi.used` all fit in `g.limit + g.buffer`; the queue
left is the remaining suffix and `g.used` has grown by the sum of the released
`used`. First conjunct: for every state, in the `uint64` arithmetic of the
code. Second conjunct: with exact sums, when `g.used` and the capacity leave
room for one more `uint32` (no overflow). Third conjunct: the append. Since the
released waiters are a prefix, answered front to back, no waiter is completed
after one enqueued behind it. -/
theorem TryReleaseWaitList_fifo (factor : LimitFactor) (g : GridElement) :
    (∃ k, k ≤ factor.waitList.length ∧
      (TryReleaseWaitList factor g).released = factor.waitList.take k ∧
      (TryReleaseWaitList factor g).factor.waitList = factor.waitList.drop k ∧
      (TryReleaseWaitList factor g).grid.used =
        (if k = 0 then g.used else u64 (g.used + sumUsed (factor.waitList.take k))) ∧
      (∀ i, 1 ≤ i → i ≤ k →
        u64 (g.used + sumUsed (factor.waitList.take i)) ≤ u64 (g.limit + g.buffer)) ∧
      (k < factor.waitList.length →
        u64 (g.limit + g.buffer) < u64 (g.used + sumUsed (factor.waitList.take (k + 1))))) ∧
    (g.used + 2 ^ 32 ≤ 2 ^ 64 → g.limit + g.buffer + 2 ^ 32 ≤ 2 ^ 64 →
      (∀ w ∈ factor.waitList, w.used < 2 ^ 32) →
      ∃ k, k ≤ factor.waitList.length ∧
        (TryReleaseWaitList factor g).released = factor.waitList.take k ∧
        (TryReleaseWaitList factor g).factor.waitList = factor.waitList.drop k ∧
        (TryReleaseWaitList factor g).grid.used = g.used + sumUsed (factor.waitList.take k) ∧
        (∀ i, 1 ≤ i → i ≤ k →
          g.used + sumUsed (factor.waitList.take i) ≤ g.limit + g.buffer) ∧
        (k < factor.waitList.length →
          g.limit + g.buffer < g.used + sumUsed (factor.waitList.take (k + 1)))) ∧
    (∀ (mgr : LimitManager) (n now : Nat) (fut : Future) (a : AllocResult),
      alloc mgr factor n now fut = some a → a.ret = runLater →
      a.factor.waitList =
        factor.waitList ++ [{ used := n, magnify := factor.magnify, future := fut }]) := by
  refine ⟨?_, ?_, ?_⟩
  · obtain ⟨k, hk, h1, h2, h3, h4, h5⟩ :=
      releaseLoop_prefix factor g factor.waitList factor.need g.used
    exact ⟨k, hk, by simp [TryReleaseWaitList, h2], by simp [TryReleaseWaitList, h1],
      by simp [TryReleaseWaitList, h3], h4, h5⟩
  · intro hU hC hW
    obtain ⟨k, hk, h1, h2, h3, h4, h5⟩ :=
      releaseLoop_prefix_exact factor g hC factor.waitList factor.need g.used hU hW
    exact ⟨k, hk, by simp [TryReleaseWaitList, h2], by simp [TryReleaseWaitList, h1],
      by simp [TryReleaseWaitList, h3], h4, h5⟩
  · intro mgr n now fut a ha hret
    cases hen : mgr.enable
    · exfalso
      have : a.ret = runNow := by
        unfold alloc at ha
        simp only [hen] at ha
        cases hg : factor.gridList.getLast? <;> simp [hg] at ha <;> rw [← ha]
      rw [this] at hret
      exact absurd hret (by decide)
    · cases hg : factor.gridList.getLast? with
      | none =>
        unfold alloc at ha
        simp [hen, hg] at ha
      | some tail =>
        have hne : factor.gridList ≠ [] := by
          intro h0; simp [h0] at hg
        obtain ⟨ini, t, hl⟩ := exists_snoc_of_ne_nil hne
        obtain ⟨r, hr, hpark, hpass⟩ := alloc_enabled mgr factor n now fut ini t hen hl
        have hra : r = a := Option.some.inj (hr.symm.trans ha)
        subst hra
        by_cases hc : factor.waitList ≠ [] ∨ u64 (t.limit + t.buffer) < u64 (t.used + n)
        · exact (hpark hc).2.2.1
        · have := hpass hc
          rw [this] at hret
          have hne12 : runNow ≠ runLater := by decide
          exact absurd hret hne12

theorem TryReleaseWaitList_fifo_witness :
    (TryReleaseWaitList queuedFactor freshGrid100).released = queuedFactor.waitList.take 2 ∧
    (∃ k, k ≤ queuedFactor.waitList.length ∧
      (TryReleaseWaitList queuedFactor freshGrid100).released = queuedFactor.waitList.take k ∧
      (TryReleaseWaitList queuedFactor freshGrid100).factor.waitList =
        queuedFactor.waitList.drop k ∧
      (TryReleaseWaitList queuedFactor freshGrid100).grid.used =
        freshGrid100.used + sumUsed (queuedFactor.waitList.take k) ∧
      (∀ i, 1 ≤ i → i ≤ k →
        freshGrid100.used + sumUsed (queuedFactor.waitList.take i) ≤
          freshGrid100.limit + freshGrid100.buffer) ∧
      (k < queuedFactor.waitList.length →
        freshGrid100.limit + freshGrid100.buffer <
          freshGrid100.used + sumUsed (queuedFactor.waitList.take (k + 1)))) :=
  ⟨by decide, (TryReleaseWaitList_fifo queuedFactor freshGrid100).2.1 (by decide) (by decide)
    (by decide)⟩

/-! ## Shape of the window after each operation -/

theorem hitCount_snoc (l : List GridElement) (x : GridElement) :
    hitCount (l ++ [x]) = hitCount l + (if x.hitLimit then 1 else 0) := by
  simp [hitCount, List.countP_append, List.countP_cons]

theorem hitCount_cons (x : GridElement) (l : List GridElement) :
    hitCount (x :: l) = hitCount l + (if x.hitLimit then 1 else 0) := by
  simp [hitCount, List.countP_cons]

theorem hitCount_le_length (l : List GridElement) : hitCount l ≤ l.length := by
  unfold hitCount; exact List.countP_le_length _

/-- The retention loop drops grids from the front until 30 are left. -/
theorem expireLoop_fst : ∀ (l : List GridElement) (c : Nat),
    (expireLoop l c).1 = l.drop (l.length - 30) := by
  intro l
  induction l with
  | nil => intro c; simp [expireLoop]
  | cons g rest ih =>
    intro c
    by_cases h : rest.length + 1 > 30
    · have h2 : rest.length + 1 - 30 = (rest.length - 30) + 1 := by omega
      simp only [expireLoop, gridWindowTimeScope, girdCntOneSecond, List.length_cons, h, if_true,
        ih, h2, List.drop_succ_cons]
    · have h2 : rest.length + 1 - 30 = 0 := by omega
      simp only [expireLoop, gridWindowTimeScope, girdCntOneSecond, List.length_cons, h, if_false,
        h2, List.drop_zero]

/-- The retention loop keeps the counter equal to the number of flagged grids. -/
theorem expireLoop_snd : ∀ (l : List GridElement) (c : Nat), c = hitCount l → l.length ≤ 256 →
    (expireLoop l c).2 = hitCount (expireLoop l c).1 := by
  intro l
  induction l with
  | nil => intro c hc _; simp [expireLoop, hc]
  | cons g rest ih =>
    intro c hc hlen
    by_cases h : rest.length + 1 > 30
    · simp only [expireLoop, gridWindowTimeScope, girdCntOneSecond, List.length_cons, h, if_true]
      apply ih
      · rw [hitCount_cons] at hc
        have hle := hitCount_le_length rest
        simp only [List.length_cons] at hlen
        cases hg : g.hitLimit
        · simp [hg] at hc ⊢; exact hc
        · simp only [hg, if_true] at hc ⊢
          unfold u8dec
          omega
      · simp only [List.length_cons] at hlen; omega
    · simp only [expireLoop, gridWindowTimeScope, girdCntOneSecond, List.length_cons, h, if_false]
      exact hc

/-- The drain reads the factor only through its type. -/
theorem releaseLoop_congr (f f' : LimitFactor) (g : GridElement)
    (ht : f'.factorType = f.factorType) :
    ∀ (ws : List AllocElement) (need used : Nat),
      releaseLoop f' g ws need used = releaseLoop f g ws need used := by
  have hneed : ∀ a m, getNeedByMagnify f' a m = getNeedByMagnify f a m := by
    intro a m; simp [getNeedByMagnify, ht]
  intro ws
  induction ws with
  | nil => intro need used; simp [releaseLoop]
  | cons ele rest ih => intro need used; simp only [releaseLoop, hneed, ih]

theorem releaseLoop_update (f : LimitFactor) (l : List GridElement) (w : List AllocElement)
    (nd c i m : Nat) (g : GridElement) (ws : List AllocElement) (need used : Nat) :
    releaseLoop ⟨f.factorType, l, w, nd, c, i, m⟩ g ws need used = releaseLoop f g ws need used :=
  releaseLoop_congr f ⟨f.factorType, l, w, nd, c, i, m⟩ g rfl ws need used

/-- `SetLimit` on a non-empty window rewrites limit and buffer of the tail,
drains into it, and keeps everything else of the window. -/
theorem SetLimit_nonempty (mgr : LimitManager) (f : LimitFactor) (L B now : Nat)
    (ini : List GridElement) (tail : GridElement) (hl : f.gridList = ini ++ [tail]) :
    (SetLimit mgr f L B now).factor =
      { f with
        gridList := ini ++ [(TryReleaseWaitList f { tail with buffer := B / 3, limit := L / 3 }).grid]
        waitList := (TryReleaseWaitList f { tail with buffer := B / 3, limit := L / 3 }).factor.waitList
        need := (TryReleaseWaitList f { tail with buffer := B / 3, limit := L / 3 }).factor.need } ∧
    (SetLimit mgr f L B now).released =
      (TryReleaseWaitList f { tail with buffer := B / 3, limit := L / 3 }).released := by
  constructor
  · simp only [SetLimit, hl, getLast?_snoc, setBack_snoc, TryReleaseWaitList, girdCntOneSecond,
      releaseLoop_update]
  · simp only [SetLimit, hl, getLast?_snoc, setBack_snoc, TryReleaseWaitList, girdCntOneSecond,
      releaseLoop_update]

/-- `SetLimit` on an empty window installs one grid and drains into it. -/
theorem SetLimit_empty (mgr : LimitManager) (f : LimitFactor) (L B now : Nat)
    (hl : f.gridList = []) :
    (SetLimit mgr f L B now).factor =
      { f with
        gridId := u64 (f.gridId + 1)
        gridList := [(TryReleaseWaitList f (initialGrid L B f.gridId now)).grid]
        waitList := (TryReleaseWaitList f (initialGrid L B f.gridId now)).factor.waitList
        need := (TryReleaseWaitList f (initialGrid L B f.gridId now)).factor.need } := by
  simp only [SetLimit, hl, List.getLast?_nil, List.nil_append, setBack, List.dropLast_single,
    TryReleaseWaitList, releaseLoop_update]

/-- `CheckGrid` on a non-empty window returns; the window afterwards is the old
one with the new grid appended and the excess over 30 dropped from the front,
the drain having run on the new grid. -/
theorem CheckGrid_nonempty (f : LimitFactor) (now : Nat)
    (ini : List GridElement) (tail : GridElement) (hl : f.gridList = ini ++ [tail]) :
    ∃ r, CheckGrid f now = some r ∧
      r.factor.gridList =
        (f.gridList ++ [(TryReleaseWaitList f (rotatedGrid tail f.gridId now)).grid]).drop
          (f.gridList.length + 1 - 30) ∧
      r.factor.gidHitLimitCnt =
        (expireLoop (f.gridList ++ [rotatedGrid tail f.gridId now]) f.gidHitLimitCnt).2 ∧
      r.factor.gridId = u64 (f.gridId + 1) ∧
      r.factor.waitList = (TryReleaseWaitList f (rotatedGrid tail f.gridId now)).factor.waitList ∧
      r.factor.need = (TryReleaseWaitList f (rotatedGrid tail f.gridId now)).factor.need ∧
      r.factor.magnify = f.magnify ∧ r.factor.factorType = f.factorType ∧
      r.released = (TryReleaseWaitList f (rotatedGrid tail f.gridId now)).released := by
  refine ⟨_, by simp only [CheckGrid, hl, getLast?_snoc]; rfl, ?_, ?_, ?_, ?_, ?_, ?_, ?_, ?_⟩
  · simp only [TryReleaseWaitList, expireLoop_fst, releaseLoop_update, hl, rotatedGrid,
      List.length_append, List.length_singleton]
    exact setBack_drop_snoc _ _ _ _ (by simp only [List.length_append, List.length_singleton]; omega)
  · simp only [TryReleaseWaitList, hl]
  · simp only [TryReleaseWaitList]
  · simp only [TryReleaseWaitList, releaseLoop_update]
  · simp only [TryReleaseWaitList, releaseLoop_update]
  · simp only [TryReleaseWaitList]
  · simp only [TryReleaseWaitList]
  · simp only [TryReleaseWaitList, releaseLoop_update]

/-! ## `alloc` when the manager is disabled -/

theorem alloc_disabled_nonempty (mgr : LimitManager) (f : LimitFactor) (n now : Nat)
    (fut : Future) (ini : List GridElement) (tail : GridElement)
    (hen : mgr.enable = false) (hl : f.gridList = ini ++ [tail]) :
    alloc mgr f n now fut =
      some { ret := runNow, future := none
             factor := { f with gridList := ini ++ [{ tail with used := u64 (tail.used + n) }] }
             mgr := mgr, spawned := false } := by
  simp only [alloc, hen, hl, getLast?_snoc, setBack_snoc]
  rfl

theorem alloc_disabled_empty (mgr : LimitManager) (f : LimitFactor) (n now : Nat)
    (fut : Future) (hen : mgr.enable = false) (hl : f.gridList = []) :
    alloc mgr f n now fut =
      some { ret := runNow, future := none, factor := f, mgr := mgr, spawned := false } := by
  simp only [alloc, hen, hl, List.getLast?_nil]
  rfl

/-! ## The window invariant -/

theorem WindowInv_newLimitFactor (mgr : LimitManager) (t : FactorType) (now : Nat) :
    WindowInv (newLimitFactor mgr t now).factor := by
  unfold newLimitFactor
  rw [SetLimit_empty _ _ _ _ _ rfl]
  refine ⟨by simp, by simp [gridWindowTimeScope, girdCntOneSecond], ?_⟩
  simp [hitCount, TryReleaseWaitList, initialGrid]

theorem WindowInv_SetLimit (mgr : LimitManager) (f : LimitFactor) (L B now : Nat)
    (h : WindowInv f) : WindowInv (SetLimit mgr f L B now).factor := by
  obtain ⟨hne, hlen, hcnt⟩ := h
  obtain ⟨ini, tail, hl⟩ := exists_snoc_of_ne_nil hne
  rw [(SetLimit_nonempty mgr f L B now ini tail hl).1]
  refine ⟨by simp, ?_, ?_⟩
  · simpa [hl] using hlen
  · simp only [hcnt, hl, hitCount_snoc, TryReleaseWaitList]

theorem WindowInv_CheckGrid (f : LimitFactor) (now : Nat) (r : CheckGridResult)
    (h : WindowInv f) (hr : CheckGrid f now = some r) : WindowInv r.factor := by
  obtain ⟨hne, hlen, hcnt⟩ := h
  obtain ⟨ini, tail, hl⟩ := exists_snoc_of_ne_nil hne
  obtain ⟨r', hr', hgl, hc, _⟩ := CheckGrid_nonempty f now ini tail hl
  have hrr : r' = r := Option.some.inj (hr'.symm.trans hr)
  subst hrr
  simp only [gridWindowTimeScope, girdCntOneSecond] at hlen
  have hk : f.gridList.length + 1 - 30 ≤ f.gridList.length := by omega
  have hgl2 : r'.factor.gridList = f.gridList.drop (f.gridList.length + 1 - 30) ++
      [(TryReleaseWaitList f (rotatedGrid tail f.gridId now)).grid] := by
    rw [hgl, List.drop_append_of_le_length hk]
  refine ⟨by simp [hgl2], ?_, ?_⟩
  · simp only [hgl2, gridWindowTimeScope, girdCntOneSecond, List.length_append, List.length_drop,
      List.length_singleton]
    omega
  · rw [hc, expireLoop_snd _ _ (by simp [hcnt, hitCount_snoc, rotatedGrid])
      (by simp only [List.length_append, List.length_singleton]; omega), expireLoop_fst, hgl2]
    simp only [List.length_append, List.length_singleton]
    rw [List.drop_append_of_le_length hk, hitCount_snoc, hitCount_snoc]
    simp [rotatedGrid, TryReleaseWaitList]

theorem WindowInv_alloc (mgr : LimitManager) (f : LimitFactor) (n now : Nat) (fut : Future)
    (r : AllocResult) (h : WindowInv f) (hr : alloc mgr f n now fut = some r) :
    WindowInv r.factor := by
  obtain ⟨hne, hlen, hcnt⟩ := h
  obtain ⟨ini, tail, hl⟩ := exists_snoc_of_ne_nil hne
  simp only [gridWindowTimeScope, girdCntOneSecond] at hlen
  cases hen : mgr.enable
  · rw [alloc_disabled_nonempty mgr f n now fut ini tail hen hl] at hr
    have := Option.some.inj hr
    subst this
    refine ⟨by simp, ?_, ?_⟩
    · simpa [hl, gridWindowTimeScope, girdCntOneSecond] using hlen
    · simp only [hcnt, hl, hitCount_snoc]
  · obtain ⟨r', hr', hpark, hpass⟩ := alloc_enabled mgr f n now fut ini tail hen hl
    have hrr : r' = r := Option.some.inj (hr'.symm.trans hr)
    subst hrr
    by_cases hc : f.waitList ≠ [] ∨ u64 (tail.limit + tail.buffer) < u64 (tail.used + n)
    · obtain ⟨_, _, _, hg, _, hcnt', _⟩ := hpark hc
      refine ⟨by simp [hg], ?_, ?_⟩
      · simpa [hg, hl, gridWindowTimeScope, girdCntOneSecond] using hlen
      · rw [hcnt', hg, hitCount_snoc, hcnt, hl, hitCount_snoc]
        have hle := hitCount_le_length ini
        have hlen' : ini.length + 1 ≤ 30 := by simpa [hl] using hlen
        cases ht : tail.hitLimit
        · simp only [Bool.false_eq_true, if_false, if_true, Nat.add_zero]
          unfold u8
          omega
        · simp
    · rw [hpass hc]
      refine ⟨by simp, ?_, ?_⟩
      · simpa [hl, gridWindowTimeScope, girdCntOneSecond] using hlen
      · simp only [hcnt, hl, hitCount_snoc]

/-- Every reachable factor state satisfies the window invariant. -/
theorem Reachable.windowInv {f : LimitFactor} (h : Reachable f) : WindowInv f := by
  induction h with
  | init mgr t now => exact WindowInv_newLimitFactor mgr t now
  | alloc mgr n now fut r _ hr ih => exact WindowInv_alloc mgr _ n now fut r ih hr
  | checkGrid now r _ hr ih => exact WindowInv_CheckGrid _ now r ih hr
  | setLimit mgr L B now _ ih => exact WindowInv_SetLimit mgr _ L B now ih

/-- The state `parkedFactor` is reached by `SetLimit(300, 0)`, an admitted
`alloc(80)` and a parked `alloc(80)`. -/
theorem parkedFactor_reachable : Reachable parkedFactor := by
  have h0 : Reachable freshFactor := Reachable.init (mgrWith false) FactorType.FlowWriteType 0
  have h1 : Reachable factor100 := Reachable.setLimit (mgrWith true) 300 0 1 h0
  have h2 : Reachable admittedFactor :=
    Reachable.alloc (mgrWith true) 80 2 0 ⟨runNow, none, admittedFactor, mgrWith true, false⟩ h1
      (by decide)
  exact Reachable.alloc (mgrWith true) 80 3 7
    ⟨runLater, some 7, parkedFactor, mgrWith true, false⟩ h2 (by decide)

/-! ## C4: hit-limit accounting -/

/-- C4: in every state reachable from `newLimitFactor` by `alloc`, `CheckGrid`
and `SetLimit` (each atomic, with any manager state), `gidHitLimitCnt` equals
the number of grids of `gridList` whose `hitLimit` flag is true. -/
theorem gidHitLimitCnt_counts_flagged_grids (f : LimitFactor) (h : Reachable f) :
    f.gidHitLimitCnt = hitCount f.gridList :=
  h.windowInv.2.2

theorem gidHitLimitCnt_counts_flagged_grids_witness :
    parkedFactor.gidHitLimitCnt = 1 ∧
    parkedFactor.gidHitLimitCnt = hitCount parkedFactor.gridList :=
  ⟨by decide, gidHitLimitCnt_counts_flagged_grids parkedFactor parkedFactor_reachable⟩

/-! ## C6: retention bound -/

/-- C6: the retention bound is 30; `CheckGrid` on a non-empty window returns a
window of at most 30 grids, which is the old window with the new grid appended
and the excess over 30 dropped from the front (oldest first); and every state
reachable from `newLimitFactor` by `alloc`, `CheckGrid` and `SetLimit` has a
non-empty window of at most 30 grids. -/
theorem CheckGrid_retention_bound (f : LimitFactor) (now : Nat) :
    gridWindowTimeScope * girdCntOneSecond = 30 ∧
    (f.gridList ≠ [] → ∃ r newGrid, CheckGrid f now = some r ∧
      r.factor.gridList.length ≤ gridWindowTimeScope * girdCntOneSecond ∧
      r.factor.gridList = (f.gridList ++ [newGrid]).drop (f.gridList.length + 1 - 30)) ∧
    (Reachable f → f.gridList ≠ [] ∧
      f.gridList.length ≤ gridWindowTimeScope * girdCntOneSecond) := by
  refine ⟨by decide, ?_, fun h => ⟨h.windowInv.1, h.windowInv.2.1⟩⟩
  intro hne
  obtain ⟨ini, tail, hl⟩ := exists_snoc_of_ne_nil hne
  obtain ⟨r, hr, hgl, _⟩ := CheckGrid_nonempty f now ini tail hl
  refine ⟨r, _, hr, ?_, hgl⟩
  simp only [hgl, gridWindowTimeScope, girdCntOneSecond, List.length_drop, List.length_append,
    List.length_singleton]
  omega

theorem CheckGrid_retention_bound_witness :
    (∃ r newGrid, CheckGrid parkedFactor 9 = some r ∧
      r.factor.gridList.length ≤ gridWindowTimeScope * girdCntOneSecond ∧
      r.factor.gridList =
        (parkedFactor.gridList ++ [newGrid]).drop (parkedFactor.gridList.length + 1 - 30)) ∧
    parkedFactor.gridList ≠ [] ∧
    parkedFactor.gridList.length ≤ gridWindowTimeScope * girdCntOneSecond :=
  ⟨(CheckGrid_retention_bound parkedFactor 9).2.1 (by decide),
   (CheckGrid_retention_bound parkedFactor 9).2.2 parkedFactor_reachable⟩

/-! ## C5: demand synthesis -/

/-- While the `uint32` product does not overflow, `getNeedByMagnify` is the
product (with the default magnify above 1000), capped at 128 MiB for the flow
classes. -/
theorem getNeedByMagnify_no_overflow (factor : LimitFactor) (n m : Nat)
    (h : n * (if n > 1000 then 100 else m) < 2 ^ 32) :
    getNeedByMagnify factor n m =
      if m = 0 then 0
      else if isFlow factor.factorType then min (n * (if n > 1000 then 100 else m)) (2 ^ 27)
      else n * (if n > 1000 then 100 else m) := by
  unfold getNeedByMagnify
  by_cases hm : m = 0
  · simp [hm]
  · simp only [hm, if_false, defaultMagnifyFactor, u32, Nat.mod_eq_of_lt h, GB]
    cases isFlow factor.factorType
    · simp
    · simp only [if_true]
      have h27 : (2 : Nat) ^ 30 / 8 = 2 ^ 27 := by norm_num
      rw [h27]
      by_cases hgt : n * (if n > 1000 then 100 else m) > 2 ^ 27
      · simp only [hgt, if_true]; omega
      · simp only [hgt, if_false]; omega

/-- C5 (the code at the failing input): for `n = 42949673` and `m = 100` the
product `n × 100 = 4294967300` wraps in `uint32` to 4 before the conversion to
`uint64`; `getNeedByMagnify` returns 4 for a flow class, where the claimed value
is `min(4294967300, 128 MiB) = 134217728`, and 4 for an IOPS class, where the
claimed value is 4294967300. -/
theorem getNeedByMagnify_wraps_uint32 :
    getNeedByMagnify admittedFactor 42949673 100 = 4 ∧
    min (42949673 * 100) (GB / 8) = 134217728 ∧
    getNeedByMagnify iopsFactor 42949673 100 = 4 ∧
    42949673 * 100 = 4294967300 ∧ 42949673 < 2 ^ 32 := by
  decide

/-! ## C7: admission decision -/

/-- C7: with the manager enabled and a non-empty window, `alloc(n)` returns
`runNow` or `runLater`, and `runNow` exactly when the queue is empty and
`tail.used + n ≤ tail.limit + tail.buffer` (in `uint64` arithmetic for every
state, with exact sums when they fit in 64 bits). On `runNow` there is no
future and the state changes only in `tail.used`, which grows by `n`; on
`runLater` the future is returned, the window changes only in the tail's
`hitLimit` (so `tail.used` is unchanged), and exactly the waiter
`{used: n, magnify: factor.magnify}` is appended at the back of the queue. -/
theorem alloc_enabled_decision (mgr : LimitManager) (f : LimitFactor) (n now : Nat)
    (fut : Future) (ini : List GridElement) (tail : GridElement)
    (hen : mgr.enable = true) (hl : f.gridList = ini ++ [tail]) :
    ∃ r, alloc mgr f n now fut = some r ∧
      (r.ret = runNow ∨ r.ret = runLater) ∧
      (r.ret = runNow ↔
        f.waitList = [] ∧ u64 (tail.used + n) ≤ u64 (tail.limit + tail.buffer)) ∧
      (tail.used + n < 2 ^ 64 → tail.limit + tail.buffer < 2 ^ 64 →
        ((r.ret = runNow ↔ f.waitList = [] ∧ tail.used + n ≤ tail.limit + tail.buffer) ∧
          u64 (tail.used + n) = tail.used + n)) ∧
      (r.ret = runNow → r.future = none ∧ r.mgr = mgr ∧ r.spawned = false ∧
        r.factor = { f with gridList := ini ++ [{ tail with used := u64 (tail.used + n) }] }) ∧
      (r.ret = runLater → r.future = some fut ∧
        r.factor.gridList = ini ++ [{ tail with hitLimit := true }] ∧
        r.factor.waitList =
          f.waitList ++ [{ used := n, magnify := f.magnify, future := fut }]) := by
  obtain ⟨r, hr, hpark, hpass⟩ := alloc_enabled mgr f n now fut ini tail hen hl
  have h12 : runNow ≠ runLater := by decide
  by_cases hc : f.waitList ≠ [] ∨ u64 (tail.limit + tail.buffer) < u64 (tail.used + n)
  · obtain ⟨hret, hfut, hw, hg, _⟩ := hpark hc
    have hnot : ¬ (f.waitList = [] ∧ u64 (tail.used + n) ≤ u64 (tail.limit + tail.buffer)) := by
      rintro ⟨h1, h2⟩
      rcases hc with h | h
      · exact h h1
      · exact absurd h (Nat.not_lt.mpr h2)
    refine ⟨r, hr, Or.inr hret, ?_, ?_, ?_, ?_⟩
    · rw [hret]
      exact ⟨fun h => absurd h.symm h12, fun h => absurd h hnot⟩
    · intro h1 h2
      rw [u64_of_lt h1, u64_of_lt h2] at hnot
      rw [hret]
      exact ⟨⟨fun h => absurd h.symm h12, fun h => absurd h hnot⟩, u64_of_lt h1⟩
    · intro h; rw [hret] at h; exact absurd h.symm h12
    · intro _; exact ⟨hfut, hg, hw⟩
  · have hr' := hpass hc
    have hyes : f.waitList = [] ∧ u64 (tail.used + n) ≤ u64 (tail.limit + tail.buffer) := by
      constructor
      · by_contra h; exact hc (Or.inl h)
      · exact Nat.not_lt.mp (fun h => hc (Or.inr h))
    have hret : r.ret = runNow := by rw [hr']
    refine ⟨r, hr, Or.inl hret, ?_, ?_, ?_, ?_⟩
    · exact ⟨fun _ => hyes, fun _ => hret⟩
    · intro h1 h2
      have hyes' := hyes
      rw [u64_of_lt h1, u64_of_lt h2] at hyes'
      exact ⟨⟨fun _ => hyes', fun _ => hret⟩, u64_of_lt h1⟩
    · intro _; rw [hr']; exact ⟨rfl, rfl, rfl, rfl⟩
    · intro h; rw [hret] at h; exact absurd h h12

theorem alloc_enabled_decision_witness :
    ∃ r, alloc (mgrWith true) admittedFactor 80 3 7 = some r ∧
      (r.ret = runNow ∨ r.ret = runLater) ∧
      (r.ret = runNow ↔ admittedFactor.waitList = [] ∧ u64 (80 + 80) ≤ u64 (100 + 0)) ∧
      (80 + 80 < 2 ^ 64 → 100 + 0 < 2 ^ 64 →
        ((r.ret = runNow ↔ admittedFactor.waitList = [] ∧ 80 + 80 ≤ 100 + 0) ∧
          u64 (80 + 80) = 80 + 80)) ∧
      (r.ret = runNow → r.future = none ∧ r.mgr = mgrWith true ∧ r.spawned = false ∧
        r.factor = { admittedFactor with gridList := [] ++
          [{ time := 0, used := u64 (80 + 80), limit := 100, buffer := 0, hitLimit := false,
             ID := 0 }] }) ∧
      (r.ret = runLater → r.future = some 7 ∧
        r.factor.gridList = [] ++
          [{ time := 0, used := 80, limit := 100, buffer := 0, hitLimit := true, ID := 0 }] ∧
        r.factor.waitList =
          admittedFactor.waitList ++ [{ used := 80, magnify := admittedFactor.magnify, future := 7 }]) :=
  alloc_enabled_decision (mgrWith true) admittedFactor 80 3 7 []
    { time := 0, used := 80, limit := 100, buffer := 0, hitLimit := false, ID := 0 }
    (by decide) (by decide)

/-! ## C8: disabled pass-through -/

/-- C8: with the manager's enable flag false, `alloc(n)` returns `runNow`
without a future for every factor state; the manager is untouched and no
refresh is started; the queue, `need` and `gidHitLimitCnt` are unchanged; on a
non-empty window the only change is `tail.used`, which grows by `n` (a `uint64`
addition, exact when the sum fits in 64 bits), so the tail's `hitLimit` is
unchanged; on an empty window nothing changes. -/
theorem alloc_disabled_passthrough (mgr : LimitManager) (f : LimitFactor) (n now : Nat)
    (fut : Future) (hen : mgr.enable = false) :
    ∃ r, alloc mgr f n now fut = some r ∧ r.ret = runNow ∧ r.future = none ∧
      r.mgr = mgr ∧ r.spawned = false ∧
      r.factor.waitList = f.waitList ∧ r.factor.need = f.need ∧
      r.factor.gidHitLimitCnt = f.gidHitLimitCnt ∧
      (f.gridList = [] → r.factor = f) ∧
      (∀ ini tail, f.gridList = ini ++ [tail] →
        r.factor = { f with gridList := ini ++ [{ tail with used := u64 (tail.used + n) }] } ∧
        (tail.used + n < 2 ^ 64 → u64 (tail.used + n) = tail.used + n)) := by
  rcases List.eq_nil_or_concat f.gridList with h0 | ⟨ini, tail, hl⟩
  · refine ⟨_, alloc_disabled_empty mgr f n now fut hen h0, rfl, rfl, rfl, rfl, rfl, rfl, rfl,
      fun _ => rfl, ?_⟩
    intro ini tail hl
    rw [h0] at hl
    exact absurd hl (by simp)
  · have hl' : f.gridList = ini ++ [tail] := by simpa using hl
    refine ⟨_, alloc_disabled_nonempty mgr f n now fut ini tail hen hl', rfl, rfl, rfl, rfl, rfl,
      rfl, rfl, ?_, ?_⟩
    · intro h0; rw [h0] at hl'; exact absurd hl' (by simp)
    · intro ini2 tail2 hl2
      rw [hl'] at hl2
      obtain ⟨h1, h2⟩ := List.append_inj' hl2 rfl
      have h3 : tail = tail2 := by simpa using h2
      subst h1; subst h3
      exact ⟨rfl, fun h => u64_of_lt h⟩

theorem alloc_disabled_passthrough_witness :
    (mgrWith false).enable = false ∧
    ∃ r, alloc (mgrWith false) parkedFactor 5 3 7 = some r ∧ r.ret = runNow ∧ r.future = none ∧
      r.mgr = mgrWith false ∧ r.spawned = false ∧
      r.factor.waitList = parkedFactor.waitList ∧ r.factor.need = parkedFactor.need ∧
      r.factor.gidHitLimitCnt = parkedFactor.gidHitLimitCnt ∧
      (parkedFactor.gridList = [] → r.factor = parkedFactor) ∧
      (∀ ini tail, parkedFactor.gridList = ini ++ [tail] →
        r.factor = { parkedFactor with
          gridList := ini ++ [{ tail with used := u64 (tail.used + 5) }] } ∧
        (tail.used + 5 < 2 ^ 64 → u64 (tail.used + 5) = tail.used + 5)) :=
  ⟨by decide, alloc_disabled_passthrough (mgrWith false) parkedFactor 5 3 7 (by decide)⟩

/-! ## Floating point lemmas -/

theorem log2Fuel_eq : ∀ (fuel n k : Nat), 2 ^ k ≤ n → n < 2 ^ (k + 1) → k ≤ fuel →
    log2Fuel fuel n = k := by
  intro fuel
  induction fuel with
  | zero =>
    intro n k _ _ hk
    have : k = 0 := by omega
    subst this
    rfl
  | succ fuel ih =>
    intro n k hlo hhi hk
    by_cases h2 : n ≥ 2
    · have hk1 : 1 ≤ k := by
        rcases Nat.eq_zero_or_pos k with h0 | h0
        · subst h0; simp at hhi; omega
        · exact h0
      obtain ⟨j, rfl⟩ : ∃ j, k = j + 1 := ⟨k - 1, by omega⟩
      have hlo' : 2 ^ j ≤ n / 2 := by
        rw [Nat.le_div_iff_mul_le (by norm_num)]
        rw [Nat.pow_succ] at hlo; exact hlo
      have hhi' : n / 2 < 2 ^ (j + 1) := by
        rw [Nat.div_lt_iff_lt_mul (by norm_num)]
        rw [Nat.pow_succ] at hhi; exact hhi
      simp only [log2Fuel, h2, if_true, ih (n / 2) j hlo' hhi' (by omega)]
    · have hn : n < 2 := by omega
      have hk0 : k = 0 := by
        rcases Nat.eq_zero_or_pos k with h0 | h0
        · exact h0
        · have : 2 ^ 1 ≤ 2 ^ k := Nat.pow_le_pow_right (by norm_num) h0
          omega
      subst hk0
      simp [log2Fuel, h2]

theorem ilog2_eq (n k : Nat) (hlo : 2 ^ k ≤ n) (hhi : n < 2 ^ (k + 1)) : ilog2 n = k := by
  have hk : k < 2 ^ k := Nat.lt_two_pow k
  exact log2Fuel_eq n n k hlo hhi (by omega)

theorem F64.round_small (n : Nat) (e : Int) (h : n < 2 ^ 53) : F64.round n e = ⟨n, e⟩ := by
  unfold F64.round; rw [if_pos h]

/-- Rounding a number of `k + 53` bits drops its `k` low bits. -/
theorem F64.round_big (n k : Nat) (e : Int) (hlo : 2 ^ (k + 52) ≤ n)
    (hhi : n < 2 ^ (k + 53)) (hk : 1 ≤ k) :
    F64.round n e =
      if n % 2 ^ k > 2 ^ (k - 1) ∨ (n % 2 ^ k = 2 ^ (k - 1) ∧ n / 2 ^ k % 2 = 1)
      then ⟨n / 2 ^ k + 1, e + k⟩ else ⟨n / 2 ^ k, e + k⟩ := by
  have hlog : ilog2 n = k + 52 := ilog2_eq n (k + 52) hlo hhi
  have h53 : ¬ n < 2 ^ 53 := by
    have : (2 : Nat) ^ 53 ≤ 2 ^ (k + 52) := Nat.pow_le_pow_right (by norm_num) (by omega)
    omega
  unfold F64.round
  rw [if_neg h53]
  simp only [hlog, Nat.add_sub_cancel]

theorem F64.c15 : F64.ofRatio 15 10 = ⟨6755399441055744, -52⟩ := by decide
theorem F64.c12 : F64.ofRatio 12 10 = ⟨5404319552844595, -52⟩ := by decide
theorem F64.c11 : F64.ofRatio 11 10 = ⟨4953959590107546, -52⟩ := by decide

theorem F64.mul_const_ofNat (m : Nat) (r : Nat) (hr : r < 2 ^ 53) :
    F64.mul ⟨m, -52⟩ (F64.ofNat r) = F64.round (m * r) (-52) := by
  simp [F64.mul, F64.ofNat, F64.round_small r 0 hr]

theorem F64.toUInt64_negSucc (q k : Nat) :
    F64.toUInt64 ⟨q, Int.negSucc k⟩ = u64 (q / 2 ^ (k + 1)) := rfl

/-- `uint64(1.5 * float64(r))` is `⌊3r/2⌋` on the branch `5 MiB ≤ r < 10 MiB`. -/
theorem F64.mul15 (r : Nat) (h1 : 5 * MB ≤ r) (h2 : r < 10 * MB) :
    F64.toUInt64 (F64.mul (F64.ofRatio 15 10) (F64.ofNat r)) = 3 * r / 2 := by
  simp only [MB] at h1 h2
  rw [F64.c15, F64.mul_const_ofNat _ _ (by omega)]
  by_cases hb : 6755399441055744 * r < 2 ^ 75
  · rw [F64.round_big _ 22 _ (by norm_num; omega) (by norm_num; omega) (by norm_num)]
    have e1 : (-52 : Int) + ((22 : Nat) : Int) = Int.negSucc 29 := by decide
    rw [e1]
    split_ifs <;> simp only [F64.toUInt64_negSucc, u64, Nat.reducePow, Nat.reduceAdd] <;>
      rw [Nat.mod_eq_of_lt (by omega)] <;> omega
  · rw [F64.round_big _ 23 _ (by norm_num; omega) (by norm_num; omega) (by norm_num)]
    have e1 : (-52 : Int) + ((23 : Nat) : Int) = Int.negSucc 28 := by decide
    rw [e1]
    split_ifs <;> simp only [F64.toUInt64_negSucc, u64, Nat.reducePow, Nat.reduceAdd] <;>
      rw [Nat.mod_eq_of_lt (by omega)] <;> omega

/-- `uint64(1.2 * float64(r))` is `⌊6r/5⌋` on the branch `10 MiB ≤ r < 50 MiB`. -/
theorem F64.mul12 (r : Nat) (h1 : 10 * MB ≤ r) (h2 : r < 50 * MB) :
    F64.toUInt64 (F64.mul (F64.ofRatio 12 10) (F64.ofNat r)) = 6 * r / 5 := by
  simp only [MB] at h1 h2
  rw [F64.c12, F64.mul_const_ofNat _ _ (by omega)]
  by_cases hb : 5404319552844595 * r < 2 ^ 76
  · rw [F64.round_big _ 23 _ (by norm_num; omega) (by norm_num; omega) (by norm_num)]
    have e1 : (-52 : Int) + ((23 : Nat) : Int) = Int.negSucc 28 := by decide
    rw [e1]
    split_ifs <;> simp only [F64.toUInt64_negSucc, u64, Nat.reducePow, Nat.reduceAdd] <;>
      rw [Nat.mod_eq_of_lt (by omega)] <;> omega
  · by_cases hb2 : 5404319552844595 * r < 2 ^ 77
    · rw [F64.round_big _ 24 _ (by norm_num; omega) (by norm_num; omega) (by norm_num)]
      have e1 : (-52 : Int) + ((24 : Nat) : Int) = Int.negSucc 27 := by decide
      rw [e1]
      split_ifs <;> simp only [F64.toUInt64_negSucc, u64, Nat.reducePow, Nat.reduceAdd] <;>
        rw [Nat.mod_eq_of_lt (by omega)] <;> omega
    · rw [F64.round_big _ 25 _ (by norm_num; omega) (by norm_num; omega) (by norm_num)]
      have e1 : (-52 : Int) + ((25 : Nat) : Int) = Int.negSucc 26 := by decide
      rw [e1]
      split_ifs <;> simp only [F64.toUInt64_negSucc, u64, Nat.reducePow, Nat.reduceAdd] <;>
        rw [Nat.mod_eq_of_lt (by omega)] <;> omega

/-- `uint64(1.1 * float64(r))` is `⌊11r/10⌋` on the branch `50 MiB ≤ r < 100 MiB`. -/
theorem F64.mul11 (r : Nat) (h1 : 50 * MB ≤ r) (h2 : r < 100 * MB) :
    F64.toUInt64 (F64.mul (F64.ofRatio 11 10) (F64.ofNat r)) = 11 * r / 10 := by
  simp only [MB] at h1 h2
  rw [F64.c11, F64.mul_const_ofNat _ _ (by omega)]
  by_cases hb : 4953959590107546 * r < 2 ^ 78
  · rw [F64.round_big _ 25 _ (by norm_num; omega) (by norm_num; omega) (by norm_num)]
    have e1 : (-52 : Int) + ((25 : Nat) : Int) = Int.negSucc 26 := by decide
    rw [e1]
    split_ifs <;> simp only [F64.toUInt64_negSucc, u64, Nat.reducePow, Nat.reduceAdd] <;>
      rw [Nat.mod_eq_of_lt (by omega)] <;> omega
  · rw [F64.round_big _ 26 _ (by norm_num; omega) (by norm_num; omega) (by norm_num)]
    have e1 : (-52 : Int) + ((26 : Nat) : Int) = Int.negSucc 25 := by decide
    rw [e1]
    split_ifs <;> simp only [F64.toUInt64_negSucc, u64, Nat.reducePow, Nat.reduceAdd] <;>
      rw [Nat.mod_eq_of_lt (by omega)] <;> omega

/-! ## The report of one factor -/

/-- The demand curve of the source (with its `float64` products) is the curve
of the spec. -/
theorem needOfReqUsed_eq_spec (r : Nat) : needOfReqUsed r = specNeedCurve r := by
  unfold needOfReqUsed specNeedCurve
  by_cases h1 : r < MB
  · simp only [h1, if_true, u64]
    exact Nat.mod_eq_of_lt (by simp only [MB] at h1; omega)
  · by_cases h2 : r < 5 * MB
    · simp only [h1, h2, if_true, if_false, u64]
      exact Nat.mod_eq_of_lt (by simp only [MB] at h2; omega)
    · by_cases h3 : r < 10 * MB
      · simp only [h1, h2, h3, if_true, if_false]
        exact F64.mul15 r (Nat.le_of_not_lt h2) h3
      · by_cases h4 : r < 50 * MB
        · simp only [h1, h2, h3, h4, if_true, if_false]
          exact F64.mul12 r (Nat.le_of_not_lt h3) h4
        · by_cases h5 : r < 100 * MB
          · simp only [h1, h2, h3, h4, h5, if_true, if_false]
            exact F64.mul11 r (Nat.le_of_not_lt h4) h5
          · simp only [h1, h2, h3, h4, h5, if_false]

theorem specNeedCurve_le (r : Nat) : specNeedCurve r ≤ 300 * MB := by
  unfold specNeedCurve
  simp only [MB]
  split_ifs <;> omega

theorem walkBack_cons (g : GridElement) (prev : List GridElement) (c u l b : Nat) :
    ∃ r, walkBack (g :: prev) c u l b = some r := by
  unfold walkBack
  by_cases h : prev = [] ∨ c + 1 ≥ girdCntOneSecond
  · exact ⟨(u64 (u + g.used), u64 (l + g.limit), u64 (b + g.buffer), g), if_pos h⟩
  · simp only [h, if_false]
    cases walkBack prev (c + 1) (u64 (u + g.used)) (u64 (l + g.limit)) (u64 (b + g.buffer)) with
    | none => exact ⟨_, rfl⟩
    | some r => exact ⟨_, rfl⟩

/-- On a non-empty window the loop body of `GetFlowInfo` returns: the entry
carries the rate `reqUsed` and three times the tail's limit and buffer, and the
need stored is the need emitted. -/
theorem flowInfoOfFactor_nonempty (f : LimitFactor) (now : Nat) (ini : List GridElement)
    (tail : GridElement) (hl : f.gridList = ini ++ [tail]) :
    ∃ reqUsed, reqUsedOfFactor f now = some reqUsed ∧
      flowInfoOfFactor f now =
        some ({ f with need := needAfterReport f reqUsed },
              { Used := reqUsed, Need := needAfterReport f reqUsed
                UsedLimit := u64 (tail.limit * girdCntOneSecond)
                UsedBuffer := u64 (tail.buffer * girdCntOneSecond) }) := by
  obtain ⟨⟨used, lim, buf, grid⟩, hw⟩ := walkBack_cons tail ini.reverse 0 0 0 0
  have hreq : reqUsedOfFactor f now = some (reqUsedOf used
      (if (now - grid.time) / 1000000 < qosReportMinGap then qosReportMinGap
       else (now - grid.time) / 1000000)) := by
    simp only [reqUsedOfFactor, hl, List.reverse_append, List.reverse_singleton,
      List.singleton_append, hw]
  refine ⟨_, hreq, ?_⟩
  simp only [flowInfoOfFactor, hreq]
  simp only [hl, getLast?_snoc]

/-- The demand-curve step against the curve of the spec. -/
theorem needAfterReport_spec (f : LimitFactor) (r : Nat) :
    (isFlow f.factorType = true → 0 < f.need → needAfterReport f r = specNeedCurve r) ∧
    (isFlow f.factorType = true → needAfterReport f r ≤ 300 * MB) ∧
    (¬ (isFlow f.factorType = true ∧ 0 < f.need) → needAfterReport f r = f.need) := by
  unfold needAfterReport
  refine ⟨?_, ?_, ?_⟩
  · intro hflow hneed
    simp only [hflow, hneed, decide_True, Bool.and_self, if_true, needOfReqUsed_eq_spec]
  · intro hflow
    by_cases hneed : 0 < f.need
    · simp only [hflow, gt_iff_lt, hneed, decide_True, Bool.and_self, if_true,
        needOfReqUsed_eq_spec]
      exact specNeedCurve_le _
    · have h0 : f.need = 0 := by omega
      simp [h0]
  · intro hn
    by_cases hflow : isFlow f.factorType = true
    · have h0 : ¬ 0 < f.need := fun h => hn ⟨hflow, h⟩
      simp [hflow, h0]
    · simp [hflow]

/-! ## `GetFlowInfo` on the manager -/

/-- When the four windows are non-empty `GetFlowInfo` returns: every entry of
the report and every factor afterwards come from the loop body on that factor,
`isLastReqValid` records the validity of this report, the latch is consumed,
and the flag is false only if the last report and this one (forced valid by the
latch on the first call) are both invalid. -/
theorem GetFlowInfo_nonempty (mgr : LimitManager) (lm : LimitMap) (now : Nat)
    (hwin : ∀ t, (lm.get t).gridList ≠ []) :
    ∃ R, GetFlowInfo mgr lm now = some R ∧
      (∀ t, flowInfoOfFactor (lm.get t) now = some (R.limitMap.get t, R.info.get t)) ∧
      R.mgr = { mgr with isLastReqValid := reportValid R.info, once := true } ∧
      R.send = !(!mgr.isLastReqValid && !(if mgr.once then reportValid R.info else true)) ∧
      R.info.ID = mgr.ID := by
  obtain ⟨i1, t1, h1⟩ := exists_snoc_of_ne_nil (hwin FactorType.IopsReadType)
  obtain ⟨i2, t2, h2⟩ := exists_snoc_of_ne_nil (hwin FactorType.IopsWriteType)
  obtain ⟨i3, t3, h3⟩ := exists_snoc_of_ne_nil (hwin FactorType.FlowWriteType)
  obtain ⟨i4, t4, h4⟩ := exists_snoc_of_ne_nil (hwin FactorType.FlowReadType)
  obtain ⟨r1, _, e1⟩ := flowInfoOfFactor_nonempty _ now i1 t1 h1
  obtain ⟨r2, _, e2⟩ := flowInfoOfFactor_nonempty _ now i2 t2 h2
  obtain ⟨r3, _, e3⟩ := flowInfoOfFactor_nonempty _ now i3 t3 h3
  obtain ⟨r4, _, e4⟩ := flowInfoOfFactor_nonempty _ now i4 t4 h4
  simp only [LimitMap.get] at e1 e2 e3 e4
  have hsome : (GetFlowInfo mgr lm now).isSome = true := by
    simp only [GetFlowInfo, e1, e2, e3, e4]
    rfl
  obtain ⟨R, hR⟩ := Option.isSome_iff_exists.mp hsome
  refine ⟨R, hR, ?_⟩
  simp only [GetFlowInfo, e1, e2, e3, e4] at hR
  have hR' := Option.some.inj hR
  subst hR'
  refine ⟨?_, rfl, rfl, rfl⟩
  intro t
  cases t
  · simpa only [LimitMap.get, ClientReportLimitInfo.get] using e1
  · simpa only [LimitMap.get, ClientReportLimitInfo.get] using e2
  · simpa only [LimitMap.get, ClientReportLimitInfo.get] using e4
  · simpa only [LimitMap.get, ClientReportLimitInfo.get] using e3

/-! ## C9: demand curve -/

/-- C9: when the four windows are non-empty `GetFlowInfo` returns, and for every
class `t` with computed rate `reqUsed` (the `Used` of its entry): the need
emitted is the need stored in the factor; for a flow class whose need was
`> 0` it is the curve of the spec at `reqUsed` (5×, 2×, ⌊1.5×⌋, ⌊1.2×⌋, ⌊1.1×⌋,
1×, cap 300 MiB), whatever the need was; the need emitted for a flow class is
at most 300 MiB; for an IOPS class, and for a flow class with need 0, the need
is unchanged. The curve gives 6 MiB at 3 MiB and 300 MiB at 400 MiB. -/
theorem GetFlowInfo_demand_curve (mgr : LimitManager) (lm : LimitMap) (now : Nat)
    (hwin : ∀ t, (lm.get t).gridList ≠ []) :
    (∃ R, GetFlowInfo mgr lm now = some R ∧
      ∀ t, ∃ reqUsed, reqUsedOfFactor (lm.get t) now = some reqUsed ∧
        (R.info.get t).Used = reqUsed ∧
        (R.info.get t).Need = (R.limitMap.get t).need ∧
        (isFlow (lm.get t).factorType = true → 0 < (lm.get t).need →
          (R.limitMap.get t).need = specNeedCurve reqUsed) ∧
        (isFlow (lm.get t).factorType = true → (R.info.get t).Need ≤ 300 * MB) ∧
        (¬ (isFlow (lm.get t).factorType = true ∧ 0 < (lm.get t).need) →
          (R.limitMap.get t).need = (lm.get t).need)) ∧
    specNeedCurve (3 * MB) = 6 * MB ∧ specNeedCurve (400 * MB) = 300 * MB ∧
    needOfReqUsed (3 * MB) = 6 * MB ∧ needOfReqUsed (400 * MB) = 300 * MB := by
  refine ⟨?_, by decide, by decide, by decide, by decide⟩
  obtain ⟨R, hR, hent, _⟩ := GetFlowInfo_nonempty mgr lm now hwin
  refine ⟨R, hR, ?_⟩
  intro t
  obtain ⟨ini, tail, hl⟩ := exists_snoc_of_ne_nil (hwin t)
  obtain ⟨r, hr, he⟩ := flowInfoOfFactor_nonempty (lm.get t) now ini tail hl
  have hpair := Option.some.inj ((hent t).symm.trans he)
  have hf : R.limitMap.get t = { lm.get t with need := needAfterReport (lm.get t) r } :=
    congrArg Prod.fst hpair
  have hi : R.info.get t = { Used := r, Need := needAfterReport (lm.get t) r
                             UsedLimit := u64 (tail.limit * girdCntOneSecond)
                             UsedBuffer := u64 (tail.buffer * girdCntOneSecond) } :=
    congrArg Prod.snd hpair
  obtain ⟨s1, s2, s3⟩ := needAfterReport_spec (lm.get t) r
  refine ⟨r, hr, by rw [hi], by rw [hi, hf], ?_, ?_, ?_⟩
  · intro a b; rw [hf]; exact s1 a b
  · intro a; rw [hi]; exact s2 a
  · intro a; rw [hf]; exact s3 a

theorem GetFlowInfo_demand_curve_witness :
    (GetFlowInfo (mgrWith true) busyMap 1000000000).map
        (fun R => (R.info.flowRead.Used, R.info.flowRead.Need, R.limitMap.flowRead.need)) =
      some (3 * MB, 6 * MB, 6 * MB) ∧
    ((∃ R, GetFlowInfo (mgrWith true) busyMap 1000000000 = some R ∧
      ∀ t, ∃ reqUsed, reqUsedOfFactor (busyMap.get t) 1000000000 = some reqUsed ∧
        (R.info.get t).Used = reqUsed ∧
        (R.info.get t).Need = (R.limitMap.get t).need ∧
        (isFlow (busyMap.get t).factorType = true → 0 < (busyMap.get t).need →
          (R.limitMap.get t).need = specNeedCurve reqUsed) ∧
        (isFlow (busyMap.get t).factorType = true → (R.info.get t).Need ≤ 300 * MB) ∧
        (¬ (isFlow (busyMap.get t).factorType = true ∧ 0 < (busyMap.get t).need) →
          (R.limitMap.get t).need = (busyMap.get t).need)) ∧
    specNeedCurve (3 * MB) = 6 * MB ∧ specNeedCurve (400 * MB) = 300 * MB ∧
    needOfReqUsed (3 * MB) = 6 * MB ∧ needOfReqUsed (400 * MB) = 300 * MB) :=
  ⟨by decide, GetFlowInfo_demand_curve (mgrWith true) busyMap 1000000000
    (by intro t; cases t <;> decide)⟩

/-! ## C10: the first report is sent -/

/-- C10: on a manager whose `once` latch has not run (as `NewLimitManager`
returns it), `GetFlowInfo` returns `true` as its flag for every state of the
four factors (their windows being non-empty, as they always are), also when
every field of the report is zero; the call consumes the latch. -/
theorem GetFlowInfo_first_call_sends (mgr : LimitManager) (lm : LimitMap) (now : Nat)
    (honce : mgr.once = false) (hwin : ∀ t, (lm.get t).gridList ≠ []) :
    (∃ R, GetFlowInfo mgr lm now = some R ∧ R.send = true ∧ R.mgr.once = true) ∧
    (∀ t0, (NewLimitManager t0).mgr.once = false ∧
      ∀ t, ((NewLimitManager t0).limitMap.get t).gridList ≠ []) := by
  constructor
  · obtain ⟨R, hR, _, hmgr, hsend, _⟩ := GetFlowInfo_nonempty mgr lm now hwin
    refine ⟨R, hR, ?_, by rw [hmgr]⟩
    rw [hsend, honce]
    simp
  · intro t0
    refine ⟨rfl, ?_⟩
    intro t
    cases t <;>
      simp [NewLimitManager, LimitMap.get, newLimitFactor, SetLimit, setBack, TryReleaseWaitList]

theorem GetFlowInfo_first_call_sends_witness :
    (GetFlowInfo (NewLimitManager 0).mgr (NewLimitManager 0).limitMap 5).map
        (fun R => (reportValid R.info, R.send)) = some (false, true) ∧
    ((∃ R, GetFlowInfo (NewLimitManager 0).mgr (NewLimitManager 0).limitMap 5 = some R ∧
        R.send = true ∧ R.mgr.once = true) ∧
      (∀ t0, (NewLimitManager t0).mgr.once = false ∧
        ∀ t, ((NewLimitManager t0).limitMap.get t).gridList ≠ [])) :=
  ⟨by decide, GetFlowInfo_first_call_sends (NewLimitManager 0).mgr (NewLimitManager 0).limitMap 5
    (by decide) (by intro t; cases t <;> decide)⟩

/-! ## The manager fields through the calls -/

theorem SetLimit_mgr (mgr : LimitManager) (f : LimitFactor) (L B now : Nat) :
    (SetLimit mgr f L B now).mgr = { mgr with lastTimeOfSetLimit := now } := by
  unfold SetLimit
  cases f.gridList.getLast? <;> rfl

theorem setLimitOf_mgr (limit : LimitRsp2Client) (now : Nat) (s : ManagerState) (t : FactorType) :
    (setLimitOf limit now s t).mgr = s.mgr ∨
    (setLimitOf limit now s t).mgr = { s.mgr with lastTimeOfSetLimit := now } := by
  unfold setLimitOf
  cases limit.FactorMap t with
  | none => exact Or.inl rfl
  | some c => exact Or.inr (SetLimit_mgr _ _ _ _ _)

theorem setMagnifyOf_mgr (limit : LimitRsp2Client) (s : ManagerState) (t : FactorType) :
    (setMagnifyOf limit s t).mgr = s.mgr := by
  unfold setMagnifyOf
  cases limit.Magnify t <;> rfl

/-- `SetClientLimit` writes `enable`, a positive `HitTriggerCnt` and a positive
`ReqPeriod`, and (through `SetLimit`) `lastTimeOfSetLimit`; it keeps the other
manager fields. -/
theorem SetClientLimit_mgr (s : ManagerState) (limit : LimitRsp2Client) (now : Nat) :
    (SetClientLimit s (some limit) now).mgr.lastReqTime = s.mgr.lastReqTime ∧
    (SetClientLimit s (some limit) now).mgr.isLastReqValid = s.mgr.isLastReqValid ∧
    (SetClientLimit s (some limit) now).mgr.once = s.mgr.once ∧
    (SetClientLimit s (some limit) now).mgr.enable = limit.Enable ∧
    (SetClientLimit s (some limit) now).mgr.ReqPeriod =
      (if limit.ReqPeriod > 0 then limit.ReqPeriod else s.mgr.ReqPeriod) := by
  have key : ∀ (l : List FactorType) (s0 : ManagerState),
      (l.foldl (setLimitOf limit now) s0).mgr.lastReqTime = s0.mgr.lastReqTime ∧
      (l.foldl (setLimitOf limit now) s0).mgr.isLastReqValid = s0.mgr.isLastReqValid ∧
      (l.foldl (setLimitOf limit now) s0).mgr.once = s0.mgr.once ∧
      (l.foldl (setLimitOf limit now) s0).mgr.enable = s0.mgr.enable ∧
      (l.foldl (setLimitOf limit now) s0).mgr.ReqPeriod = s0.mgr.ReqPeriod := by
    intro l
    induction l with
    | nil => intro s0; exact ⟨rfl, rfl, rfl, rfl, rfl⟩
    | cons t l ih =>
      intro s0
      simp only [List.foldl_cons]
      obtain ⟨a, b, c, d, e⟩ := ih (setLimitOf limit now s0 t)
      rcases setLimitOf_mgr limit now s0 t with h | h <;> rw [h] at a b c d e <;>
        exact ⟨a, b, c, d, e⟩
  have key2 : ∀ (l : List FactorType) (s0 : ManagerState),
      (l.foldl (setMagnifyOf limit) s0).mgr = s0.mgr := by
    intro l
    induction l with
    | nil => intro s0; rfl
    | cons t l ih => intro s0; simp only [List.foldl_cons, ih, setMagnifyOf_mgr]
  simp only [SetClientLimit, key2]
  obtain ⟨a, b, c, d, e⟩ := key factorTypes
    { s with mgr :=
      if limit.ReqPeriod > 0 then
        { (if limit.HitTriggerCnt > 0 then
            { ({ s.mgr with enable := limit.Enable } : LimitManager) with
              HitTriggerCnt := limit.HitTriggerCnt }
           else { s.mgr with enable := limit.Enable }) with ReqPeriod := limit.ReqPeriod }
      else (if limit.HitTriggerCnt > 0 then
            { ({ s.mgr with enable := limit.Enable } : LimitManager) with
              HitTriggerCnt := limit.HitTriggerCnt }
           else { s.mgr with enable := limit.Enable }) }
  rw [a, b, c, d, e]
  by_cases h1 : limit.ReqPeriod > 0 <;> by_cases h2 : limit.HitTriggerCnt > 0 <;> simp [h1, h2]

/-- When `alloc` starts the refresh callback it has parked, the tail's
`hitLimit` was false, the incremented counter has reached `HitTriggerCnt`, more
than `ReqPeriod` seconds have passed since `lastReqTime`, and `lastReqTime`
becomes `now`; otherwise the manager is unchanged. -/
theorem alloc_spawn (mgr : LimitManager) (f : LimitFactor) (n now : Nat) (fut : Future)
    (r : AllocResult) (h : alloc mgr f n now fut = some r) :
    (r.spawned = true →
      mgr.enable = true ∧ r.ret = runLater ∧
      (∃ ini tail, f.gridList = ini ++ [tail] ∧ tail.hitLimit = false) ∧
      u8 (f.gidHitLimitCnt + 1) ≥ mgr.HitTriggerCnt ∧
      mgr.lastReqTime + mgr.ReqPeriod * 1000000000 < now ∧
      r.mgr = { mgr with lastReqTime := now }) ∧
    (r.spawned = false → r.mgr = mgr) := by
  cases hen : mgr.enable
  · rcases List.eq_nil_or_concat f.gridList with h0 | ⟨ini, tail, hl⟩
    · rw [alloc_disabled_empty mgr f n now fut hen h0] at h
      have := Option.some.inj h; subst this
      exact ⟨fun hs => by simp at hs, fun _ => rfl⟩
    · have hl' : f.gridList = ini ++ [tail] := by simpa using hl
      rw [alloc_disabled_nonempty mgr f n now fut ini tail hen hl'] at h
      have := Option.some.inj h; subst this
      exact ⟨fun hs => by simp at hs, fun _ => rfl⟩
  · rcases List.eq_nil_or_concat f.gridList with h0 | ⟨ini, tail, hl⟩
    · simp [alloc, hen, h0] at h
    · have hl' : f.gridList = ini ++ [tail] := by simpa using hl
      simp only [alloc, hen, hl', getLast?_snoc, setBack_snoc, Bool.not_true, Bool.false_eq_true,
        if_false, Bool.true_and] at h
      split at h
      · split at h
        · have := Option.some.inj h; subst this
          rename_i hcond hhit
          constructor
          · intro hs
            simp only [Bool.and_eq_true, decide_eq_true_eq] at hs
            obtain ⟨h1, h2⟩ := hs
            refine ⟨rfl, rfl, ⟨ini, tail, hl', by simpa using hhit⟩, h1, h2, ?_⟩
            simp [h1, h2]
          · intro hn
            have hnot : ¬ (u8 (f.gidHitLimitCnt + 1) ≥ mgr.HitTriggerCnt ∧
                mgr.lastReqTime + mgr.ReqPeriod * 1000000000 < now) := by
              intro hc; simp [hc.1, hc.2] at hn
            simp only [Bool.and_eq_true, decide_eq_true_eq, hnot, if_false]
        · have := Option.some.inj h; subst this
          exact ⟨fun hs => by simp at hs, fun _ => rfl⟩
      · have := Option.some.inj h; subst this
        exact ⟨fun hs => by simp at hs, fun _ => rfl⟩

theorem lor_eq_zero (a b : Nat) : a ||| b = 0 ↔ a = 0 ∧ b = 0 := by
  constructor
  · intro h
    have hbit : ∀ i, a.testBit i = false ∧ b.testBit i = false := by
      intro i
      have := Nat.testBit_or a b i
      rw [h, Nat.zero_testBit] at this
      simpa using this.symm
    exact ⟨Nat.zero_of_testBit_eq_false fun i => (hbit i).1,
      Nat.zero_of_testBit_eq_false fun i => (hbit i).2⟩
  · rintro ⟨rfl, rfl⟩
    rfl

/-- An entry is valid exactly when one of its four fields is not zero. -/
theorem infoValid_iff (i : ClientLimitInfo) :
    infoValid i = true ↔ i.Used ≠ 0 ∨ i.Need ≠ 0 ∨ i.UsedLimit ≠ 0 ∨ i.UsedBuffer ≠ 0 := by
  unfold infoValid
  rw [decide_eq_true_iff, gt_iff_lt, Nat.pos_iff_ne_zero, Ne, lor_eq_zero, lor_eq_zero,
    lor_eq_zero]
  constructor
  · intro h
    by_contra hc
    simp only [not_or, not_not] at hc
    exact h ⟨⟨⟨hc.1, hc.2.1⟩, hc.2.2.1⟩, hc.2.2.2⟩
  · rintro h ⟨⟨⟨h1, h2⟩, h3⟩, h4⟩
    rcases h with h | h | h | h
    · exact h h1
    · exact h h2
    · exact h h3
    · exact h h4

/-- A report is valid exactly when some entry has a non-zero field. -/
theorem reportValid_iff (r : ClientReportLimitInfo) :
    reportValid r = true ↔
      ∃ t, (r.get t).Used ≠ 0 ∨ (r.get t).Need ≠ 0 ∨ (r.get t).UsedLimit ≠ 0 ∨
        (r.get t).UsedBuffer ≠ 0 := by
  unfold reportValid
  simp only [Bool.or_eq_true, infoValid_iff]
  constructor
  · rintro (((h | h) | h) | h)
    · exact ⟨FactorType.IopsReadType, h⟩
    · exact ⟨FactorType.IopsWriteType, h⟩
    · exact ⟨FactorType.FlowWriteType, h⟩
    · exact ⟨FactorType.FlowReadType, h⟩
  · rintro ⟨t, h⟩
    cases t
    · exact Or.inl (Or.inl (Or.inl h))
    · exact Or.inl (Or.inl (Or.inr h))
    · exact Or.inr h
    · exact Or.inl (Or.inr h)

/-- What one call does to the manager fields read by the rate limit and by the
report flag. -/
theorem step_mgr (s : ManagerState) (op : Op) (s1 : ManagerState) (ev : Option Nat)
    (h : step s op = some (s1, ev)) :
    (∀ t, ev = some t →
      s.mgr.lastReqTime + s.mgr.ReqPeriod * 1000000000 < t ∧ s1.mgr.lastReqTime = t) ∧
    (ev = none → s1.mgr.lastReqTime = s.mgr.lastReqTime) ∧
    (op.keepsReqPeriod s.mgr.ReqPeriod → s1.mgr.ReqPeriod = s.mgr.ReqPeriod) ∧
    (op.isGetFlowInfo = false →
      s1.mgr.isLastReqValid = s.mgr.isLastReqValid ∧ s1.mgr.once = s.mgr.once) := by
  cases op with
  | alloc t n now fut =>
    simp only [step] at h
    cases ha : alloc s.mgr (s.limitMap.get t) n now fut with
    | none => simp [ha] at h
    | some r =>
      simp only [ha, Option.some.injEq, Prod.mk.injEq] at h
      obtain ⟨hs1, hev⟩ := h
      subst hs1
      obtain ⟨hsp, hnsp⟩ := alloc_spawn _ _ _ _ _ _ ha
      cases hspawn : r.spawned
      · have hm := hnsp hspawn
        simp only [hspawn, Bool.false_eq_true, if_false] at hev
        subst hev
        refine ⟨fun t ht => by simp at ht, fun _ => by simp [hm], fun _ => by simp [hm],
          fun _ => by simp [hm]⟩
      · obtain ⟨_, _, _, _, hlt, hm⟩ := hsp hspawn
        simp only [hspawn, if_true] at hev
        subst hev
        refine ⟨fun t ht => ?_, fun hn => by simp at hn, fun _ => by simp [hm],
          fun _ => by simp [hm]⟩
        have := Option.some.inj ht
        subst this
        exact ⟨hlt, by simp [hm]⟩
  | checkGrid t now =>
    simp only [step] at h
    cases hc : CheckGrid (s.limitMap.get t) now with
    | none => simp [hc] at h
    | some r =>
      simp only [hc, Option.some.injEq, Prod.mk.injEq] at h
      obtain ⟨hs1, hev⟩ := h
      subst hs1; subst hev
      exact ⟨fun t ht => by simp at ht, fun _ => rfl, fun _ => rfl, fun _ => ⟨rfl, rfl⟩⟩
  | getFlowInfo now =>
    simp only [step] at h
    cases hg : GetFlowInfo s.mgr s.limitMap now with
    | none => simp [hg] at h
    | some R =>
      simp only [hg, Option.some.injEq, Prod.mk.injEq] at h
      obtain ⟨hs1, hev⟩ := h
      subst hs1; subst hev
      have hm : R.mgr.lastReqTime = s.mgr.lastReqTime ∧ R.mgr.ReqPeriod = s.mgr.ReqPeriod := by
        unfold GetFlowInfo at hg
        split at hg
        · have := Option.some.inj hg; subst this
          exact ⟨rfl, rfl⟩
        · simp at hg
      exact ⟨fun t ht => by simp at ht, fun _ => hm.1, fun _ => hm.2,
        fun hn => by simp [Op.isGetFlowInfo] at hn⟩
  | setClientLimit limit now =>
    simp only [step, Option.some.injEq, Prod.mk.injEq] at h
    obtain ⟨hs1, hev⟩ := h
    subst hs1; subst hev
    cases limit with
    | none =>
      exact ⟨fun t ht => by simp at ht, fun _ => rfl, fun _ => rfl, fun _ => ⟨rfl, rfl⟩⟩
    | some limit =>
      obtain ⟨a, b, c, _, e⟩ := SetClientLimit_mgr s limit now
      refine ⟨fun t ht => by simp at ht, fun _ => a, ?_, fun _ => ⟨b, c⟩⟩
      intro hk
      simp only [Op.keepsReqPeriod] at hk
      rw [e]
      rcases hk with hk | hk
      · simp [hk]
      · by_cases hp : limit.ReqPeriod > 0
        · simp [hp, hk]
        · simp [hp]

/-- A returning `GetFlowInfo` records the validity of its report, consumes the
latch and computes its flag from the last validity and this one. -/
theorem GetFlowInfo_some (mgr : LimitManager) (lm : LimitMap) (now : Nat) (R : FlowInfoResult)
    (h : GetFlowInfo mgr lm now = some R) :
    R.mgr = { mgr with isLastReqValid := reportValid R.info, once := true } ∧
    R.send = !(!mgr.isLastReqValid && !(if mgr.once then reportValid R.info else true)) := by
  unfold GetFlowInfo at h
  split at h
  · have := Option.some.inj h
    subst this
    exact ⟨rfl, rfl⟩
  · simp at h

theorem run_keeps_report_fields : ∀ (ops : List Op) (s s2 : ManagerState) (evs : List Nat),
    run s ops = some (s2, evs) → (∀ op ∈ ops, op.isGetFlowInfo = false) →
    s2.mgr.isLastReqValid = s.mgr.isLastReqValid ∧ s2.mgr.once = s.mgr.once := by
  intro ops
  induction ops with
  | nil =>
    intro s s2 evs h _
    simp only [run, Option.some.injEq, Prod.mk.injEq] at h
    rw [← h.1]
    exact ⟨rfl, rfl⟩
  | cons op ops ih =>
    intro s s2 evs h hops
    simp only [run] at h
    cases hst : step s op with
    | none => simp [hst] at h
    | some p =>
      obtain ⟨s1, ev⟩ := p
      simp only [hst] at h
      cases hr : run s1 ops with
      | none => simp [hr] at h
      | some q =>
        obtain ⟨s3, evs3⟩ := q
        simp only [hr, Option.some.injEq, Prod.mk.injEq] at h
        obtain ⟨hs, _⟩ := h
        subst hs
        obtain ⟨_, _, _, hk⟩ := step_mgr s op s1 ev hst
        obtain ⟨a, b⟩ := hk (hops op (by simp))
        obtain ⟨c, d⟩ := ih s1 s3 evs3 hr (fun o ho => hops o (by simp [ho]))
        exact ⟨c.trans a, d.trans b⟩

/-! ## C11: silent-client suppression -/

/-- C11: take a returning call of `GetFlowInfo` (the manager's first or not),
then any calls other than `GetFlowInfo`, then `GetFlowInfo` again (the windows
being non-empty): the second call returns, and its flag is false if and only
if the report of the first call and the report of this call are both not
valid, where a report is valid exactly when some entry has a non-zero `Used`,
`Need`, `UsedLimit` or `UsedBuffer`. -/
theorem GetFlowInfo_silent_suppression (s : ManagerState) (now : Nat) (R1 : FlowInfoResult)
    (ops : List Op) (s2 : ManagerState) (evs : List Nat) (now2 : Nat)
    (h1 : GetFlowInfo s.mgr s.limitMap now = some R1)
    (hrun : run { mgr := R1.mgr, limitMap := R1.limitMap } ops = some (s2, evs))
    (hops : ∀ op ∈ ops, op.isGetFlowInfo = false)
    (hwin : ∀ t, (s2.limitMap.get t).gridList ≠ []) :
    ∃ R2, GetFlowInfo s2.mgr s2.limitMap now2 = some R2 ∧
      (R2.send = false ↔ reportValid R1.info = false ∧ reportValid R2.info = false) ∧
      (reportValid R1.info = true ↔
        ∃ t, (R1.info.get t).Used ≠ 0 ∨ (R1.info.get t).Need ≠ 0 ∨
          (R1.info.get t).UsedLimit ≠ 0 ∨ (R1.info.get t).UsedBuffer ≠ 0) ∧
      (reportValid R2.info = true ↔
        ∃ t, (R2.info.get t).Used ≠ 0 ∨ (R2.info.get t).Need ≠ 0 ∨
          (R2.info.get t).UsedLimit ≠ 0 ∨ (R2.info.get t).UsedBuffer ≠ 0) := by
  obtain ⟨hm1, _⟩ := GetFlowInfo_some _ _ _ _ h1
  obtain ⟨hv, ho⟩ := run_keeps_report_fields ops _ s2 evs hrun hops
  simp only [hm1] at hv ho
  obtain ⟨R2, hR2, _, _, hsend, _⟩ := GetFlowInfo_nonempty s2.mgr s2.limitMap now2 hwin
  refine ⟨R2, hR2, ?_, reportValid_iff _, reportValid_iff _⟩
  rw [hsend, hv, ho]
  cases reportValid R1.info <;> cases reportValid R2.info <;> simp

theorem GetFlowInfo_silent_suppression_witness :
    ∃ R2, GetFlowInfo zeroReport.mgr zeroReport.limitMap 9 = some R2 ∧
      (R2.send = false ↔ reportValid zeroReport.info = false ∧ reportValid R2.info = false) ∧
      (reportValid zeroReport.info = true ↔
        ∃ t, (zeroReport.info.get t).Used ≠ 0 ∨ (zeroReport.info.get t).Need ≠ 0 ∨
          (zeroReport.info.get t).UsedLimit ≠ 0 ∨ (zeroReport.info.get t).UsedBuffer ≠ 0) ∧
      (reportValid R2.info = true ↔
        ∃ t, (R2.info.get t).Used ≠ 0 ∨ (R2.info.get t).Need ≠ 0 ∨
          (R2.info.get t).UsedLimit ≠ 0 ∨ (R2.info.get t).UsedBuffer ≠ 0) :=
  GetFlowInfo_silent_suppression (NewLimitManager 0) 5 zeroReport []
    { mgr := zeroReport.mgr, limitMap := zeroReport.limitMap } [] 9
    (by decide) rfl (by intro op hop; simp at hop) (by intro t; cases t <;> decide)

/-! ## C12: refresh rate limit -/

theorem run_spawn_times : ∀ (ops : List Op) (s s2 : ManagerState) (spawns : List Nat),
    run s ops = some (s2, spawns) → (∀ op ∈ ops, op.keepsReqPeriod s.mgr.ReqPeriod) →
    spawns.Pairwise (fun t1 t2 => t1 + s.mgr.ReqPeriod * 1000000000 < t2) ∧
    (∀ t ∈ spawns, s.mgr.lastReqTime + s.mgr.ReqPeriod * 1000000000 < t) := by
  intro ops
  induction ops with
  | nil =>
    intro s s2 spawns h _
    simp only [run, Option.some.injEq, Prod.mk.injEq] at h
    rw [← h.2]
    exact ⟨List.Pairwise.nil, fun t ht => by simp at ht⟩
  | cons op ops ih =>
    intro s s2 spawns h hP
    simp only [run] at h
    cases hst : step s op with
    | none => simp [hst] at h
    | some p =>
      obtain ⟨s1, ev⟩ := p
      simp only [hst] at h
      cases hr : run s1 ops with
      | none => simp [hr] at h
      | some q =>
        obtain ⟨s3, evs3⟩ := q
        simp only [hr, Option.some.injEq, Prod.mk.injEq] at h
        obtain ⟨_, hsp⟩ := h
        obtain ⟨hsome, hnone, hper, _⟩ := step_mgr s op s1 ev hst
        have hp1 : s1.mgr.ReqPeriod = s.mgr.ReqPeriod := hper (hP op (by simp))
        obtain ⟨ihp, iht⟩ := ih s1 s3 evs3 hr
          (fun o ho => by rw [hp1]; exact hP o (by simp [ho]))
        rw [hp1] at ihp iht
        cases ev with
        | none =>
          simp only [List.nil_append] at hsp
          subst hsp
          rw [hnone rfl] at iht
          exact ⟨ihp, iht⟩
        | some t =>
          simp only [List.singleton_append] at hsp
          subst hsp
          obtain ⟨hlt, hlast⟩ := hsome t rfl
          rw [hlast] at iht
          refine ⟨List.Pairwise.cons iht ihp, ?_⟩
          intro x hx
          rcases List.mem_cons.mp hx with rfl | hx
          · exact hlt
          · have := iht x hx
            omega

/-- C12: along any sequence of calls on the manager that leaves `ReqPeriod`
unchanged, the times (nanoseconds) at which `alloc` started the refresh
callback are pairwise more than `ReqPeriod` seconds apart, each later than the
earlier one, whatever factors the calls were made on; and an `alloc` starts the
callback only if it parks (on an enabled manager), the tail's `hitLimit` was
false before the call, the incremented `gidHitLimitCnt` is at least
`HitTriggerCnt`, and more than `ReqPeriod` seconds have passed since
`lastReqTime`. -/
theorem refresh_rate_limit (s : ManagerState) (ops : List Op) (s2 : ManagerState)
    (spawns : List Nat) (hrun : run s ops = some (s2, spawns))
    (hP : ∀ op ∈ ops, op.keepsReqPeriod s.mgr.ReqPeriod) :
    spawns.Pairwise (fun t1 t2 =>
      t1 < t2 ∧ t2 - t1 ≥ s.mgr.ReqPeriod * 1000000000 ∧
      t1 + s.mgr.ReqPeriod * 1000000000 < t2) ∧
    (∀ (mgr : LimitManager) (f : LimitFactor) (n now : Nat) (fut : Future) (r : AllocResult),
      alloc mgr f n now fut = some r → r.spawned = true →
      mgr.enable = true ∧ r.ret = runLater ∧
      (∃ ini tail, f.gridList = ini ++ [tail] ∧ tail.hitLimit = false) ∧
      u8 (f.gidHitLimitCnt + 1) ≥ mgr.HitTriggerCnt ∧
      mgr.lastReqTime + mgr.ReqPeriod * 1000000000 < now) := by
  constructor
  · refine (run_spawn_times ops s s2 spawns hrun hP).1.imp ?_
    intro a b hab
    exact ⟨by omega, by omega, hab⟩
  · intro mgr f n now fut r hr hs
    obtain ⟨h1, h2, h3, h4, h5, _⟩ := (alloc_spawn mgr f n now fut r hr).1 hs
    exact ⟨h1, h2, h3, h4, h5⟩

theorem refresh_rate_limit_witness :
    ∃ s2 spawns, run triggerState triggerOps = some (s2, spawns) ∧
      spawns = [2000000000, 4000000000] ∧
      spawns.Pairwise (fun t1 t2 =>
        t1 < t2 ∧ t2 - t1 ≥ triggerState.mgr.ReqPeriod * 1000000000 ∧
        t1 + triggerState.mgr.ReqPeriod * 1000000000 < t2) := by
  have hm : (run triggerState triggerOps).map Prod.snd = some [2000000000, 4000000000] := by
    decide
  cases hr : run triggerState triggerOps with
  | none => rw [hr] at hm; simp at hm
  | some p =>
    obtain ⟨s2, spawns⟩ := p
    rw [hr] at hm
    have hsp : spawns = [2000000000, 4000000000] := by simpa using hm
    refine ⟨s2, spawns, rfl, hsp, (refresh_rate_limit triggerState triggerOps s2 spawns hr ?_).1⟩
    intro op hop
    simp only [triggerOps, List.mem_cons, List.mem_singleton, List.not_mem_nil, or_false] at hop
    rcases hop with rfl | rfl | rfl | rfl <;> trivial

/-! ## What a drain adds to the grid -/

/-- The drain adds to `used` the `used` of the waiters it released (a `uint64`
sum; exact when the values are in range). -/
theorem TryReleaseWaitList_used (factor : LimitFactor) (g : GridElement) :
    (TryReleaseWaitList factor g).grid.used =
      (if (TryReleaseWaitList factor g).released = [] then g.used
       else u64 (g.used + sumUsed (TryReleaseWaitList factor g).released)) ∧
    (DrainInRange factor g →
      (TryReleaseWaitList factor g).grid.used =
        g.used + sumUsed (TryReleaseWaitList factor g).released) := by
  constructor
  · obtain ⟨k, hk, _, h2, h3, _⟩ := releaseLoop_prefix factor g factor.waitList factor.need g.used
    have hrel : (TryReleaseWaitList factor g).released = factor.waitList.take k := by
      simp [TryReleaseWaitList, h2]
    have hu : (TryReleaseWaitList factor g).grid.used =
        (if k = 0 then g.used else u64 (g.used + sumUsed (factor.waitList.take k))) := by
      simp [TryReleaseWaitList, h3]
    rw [hu, hrel]
    by_cases hk0 : k = 0
    · subst hk0; simp
    · have hne : factor.waitList.take k ≠ [] := by
        intro h0
        have hlen := congrArg List.length h0
        simp only [List.length_take, List.length_nil] at hlen
        omega
      simp [hk0, hne]
  · rintro ⟨hU, hC, hW⟩
    obtain ⟨k, _, _, h2, h3, _⟩ :=
      releaseLoop_prefix_exact factor g hC factor.waitList factor.need g.used hU hW
    simp [TryReleaseWaitList, h2, h3]

/-! ## C13: rotation -/

/-- C13: on a non-empty window `CheckGrid` returns; the window afterwards is the
grids that stay (the old window without the grids dropped from the front, each
unchanged) followed by a new tail whose limit and buffer are the previous
tail's, whose `hitLimit` is false and whose ID is `gridId` before the call;
`gridId` grows by 1 (a `uint64` increment); the new tail starts with `used = 0`
and ends with the sum of the `used` of the released waiters (a `uint64` sum,
exact when the values are in range). If the IDs of the window were strictly
increasing and below `gridId`, and `gridId + 1` does not wrap, they still are
afterwards. -/
theorem CheckGrid_rotation (f : LimitFactor) (now : Nat) (ini : List GridElement)
    (tail : GridElement) (hl : f.gridList = ini ++ [tail]) :
    ∃ r newTail, CheckGrid f now = some r ∧
      r.factor.gridList = f.gridList.drop (f.gridList.length + 1 - 30) ++ [newTail] ∧
      newTail.limit = tail.limit ∧ newTail.buffer = tail.buffer ∧
      newTail.hitLimit = false ∧ newTail.ID = f.gridId ∧
      (rotatedGrid tail f.gridId now).used = 0 ∧
      newTail.used = u64 (sumUsed r.released) ∧
      (DrainInRange f (rotatedGrid tail f.gridId now) → newTail.used = sumUsed r.released) ∧
      r.factor.gridId = u64 (f.gridId + 1) ∧
      (f.gridId + 1 < 2 ^ 64 → r.factor.gridId = f.gridId + 1) ∧
      (f.gridId + 1 < 2 ^ 64 → (∀ g ∈ f.gridList, g.ID < f.gridId) →
        f.gridList.Pairwise (fun a b => a.ID < b.ID) →
        r.factor.gridList.Pairwise (fun a b => a.ID < b.ID) ∧
        ∀ g ∈ r.factor.gridList, g.ID < r.factor.gridId) := by
  obtain ⟨r, hr, hgl, _, hid, _, _, _, _, hrel⟩ := CheckGrid_nonempty f now ini tail hl
  have hk : f.gridList.length + 1 - 30 ≤ f.gridList.length := by omega
  rw [List.drop_append_of_le_length hk] at hgl
  obtain ⟨hu1, hu2⟩ := TryReleaseWaitList_used f (rotatedGrid tail f.gridId now)
  have hid' : f.gridId + 1 < 2 ^ 64 → r.factor.gridId = f.gridId + 1 := by
    intro h; rw [hid, u64_of_lt h]
  refine ⟨r, (TryReleaseWaitList f (rotatedGrid tail f.gridId now)).grid, hr, hgl, rfl, rfl,
    rfl, rfl, rfl, ?_, ?_, hid, hid', ?_⟩
  · rw [hrel, hu1]
    by_cases h0 : (TryReleaseWaitList f (rotatedGrid tail f.gridId now)).released = []
    · rw [if_pos h0, h0]
      rfl
    · rw [if_neg h0]
      show u64 (0 + _) = _
      rw [Nat.zero_add]
  · intro hin
    rw [hrel, hu2 hin]
    show 0 + _ = _
    rw [Nat.zero_add]
  · intro hw hlt hpw
    rw [hgl, hid' hw]
    constructor
    · rw [List.pairwise_append]
      refine ⟨hpw.sublist (List.drop_sublist _ _), List.pairwise_singleton _ _, ?_⟩
      intro a ha b hb
      have hb' : b = (TryReleaseWaitList f (rotatedGrid tail f.gridId now)).grid := by
        simpa using hb
      subst hb'
      exact hlt a (List.mem_of_mem_drop ha)
    · intro g hg
      rcases List.mem_append.mp hg with hg | hg
      · have := hlt g (List.mem_of_mem_drop hg)
        omega
      · have hg' : g = (TryReleaseWaitList f (rotatedGrid tail f.gridId now)).grid := by
          simpa using hg
        subst hg'
        show f.gridId < f.gridId + 1
        omega

theorem CheckGrid_rotation_witness :
    (CheckGrid parkedFactor 9).map (fun r => (r.factor.gridList.map (fun g => (g.ID, g.used)),
        r.released.map (fun w => w.used), r.factor.gridId)) =
      some ([(0, 80), (1, 80)], [80], 2) ∧
    ∃ r newTail, CheckGrid parkedFactor 9 = some r ∧
      r.factor.gridList =
        parkedFactor.gridList.drop (parkedFactor.gridList.length + 1 - 30) ++ [newTail] ∧
      newTail.limit = 100 ∧ newTail.buffer = 0 ∧
      newTail.hitLimit = false ∧ newTail.ID = parkedFactor.gridId ∧
      (rotatedGrid { time := 0, used := 80, limit := 100, buffer := 0, hitLimit := true, ID := 0 }
        parkedFactor.gridId 9).used = 0 ∧
      newTail.used = u64 (sumUsed r.released) ∧
      (DrainInRange parkedFactor
        (rotatedGrid { time := 0, used := 80, limit := 100, buffer := 0, hitLimit := true, ID := 0 }
          parkedFactor.gridId 9) → newTail.used = sumUsed r.released) ∧
      r.factor.gridId = u64 (parkedFactor.gridId + 1) ∧
      (parkedFactor.gridId + 1 < 2 ^ 64 → r.factor.gridId = parkedFactor.gridId + 1) ∧
      (parkedFactor.gridId + 1 < 2 ^ 64 → (∀ g ∈ parkedFactor.gridList, g.ID < parkedFactor.gridId) →
        parkedFactor.gridList.Pairwise (fun a b => a.ID < b.ID) →
        r.factor.gridList.Pairwise (fun a b => a.ID < b.ID) ∧
        ∀ g ∈ r.factor.gridList, g.ID < r.factor.gridId) :=
  ⟨by decide, CheckGrid_rotation parkedFactor 9 []
    { time := 0, used := 80, limit := 100, buffer := 0, hitLimit := true, ID := 0 } (by decide)⟩

/-! ## C14: what `SetLimit` changes -/

/-- C14: on a non-empty window `SetLimit(L, B)` leaves every non-tail grid as it
was and rewrites the tail: limit `L/3`, buffer `B/3`, same `hitLimit`, ID and
time, and `used` changed only by the drain, which adds the `used` of the
released waiters (a `uint64` sum; with values in range the sum is exact, so
`used` does not decrease); the window length, `gridId` and `gidHitLimitCnt` are
unchanged. On an empty window it installs one grid with limit `L/3`, buffer
`B/3`, ID `gridId` and `used = 0`, into which the same drain runs (it stays at
0 when no waiter is queued), and `gridId` grows by 1. -/
theorem SetLimit_frame (mgr : LimitManager) (f : LimitFactor) (L B now : Nat) :
    (∀ ini tail, f.gridList = ini ++ [tail] →
      ∃ newTail, (SetLimit mgr f L B now).factor.gridList = ini ++ [newTail] ∧
        newTail.limit = L / 3 ∧ newTail.buffer = B / 3 ∧
        newTail.hitLimit = tail.hitLimit ∧ newTail.ID = tail.ID ∧ newTail.time = tail.time ∧
        newTail.used =
          (if (SetLimit mgr f L B now).released = [] then tail.used
           else u64 (tail.used + sumUsed (SetLimit mgr f L B now).released)) ∧
        (DrainInRange f { tail with buffer := B / 3, limit := L / 3 } →
          newTail.used = tail.used + sumUsed (SetLimit mgr f L B now).released ∧
          tail.used ≤ newTail.used) ∧
        (SetLimit mgr f L B now).factor.gridList.length = f.gridList.length ∧
        (SetLimit mgr f L B now).factor.gridId = f.gridId ∧
        (SetLimit mgr f L B now).factor.gidHitLimitCnt = f.gidHitLimitCnt) ∧
    (f.gridList = [] →
      ∃ newTail, (SetLimit mgr f L B now).factor.gridList = [newTail] ∧
        newTail.limit = L / 3 ∧ newTail.buffer = B / 3 ∧ newTail.hitLimit = false ∧
        newTail.ID = f.gridId ∧
        (initialGrid L B f.gridId now).used = 0 ∧
        newTail = (TryReleaseWaitList f (initialGrid L B f.gridId now)).grid ∧
        (f.waitList = [] → newTail = initialGrid L B f.gridId now ∧ newTail.used = 0) ∧
        (SetLimit mgr f L B now).factor.gridId = u64 (f.gridId + 1)) := by
  constructor
  · intro ini tail hl
    obtain ⟨hf, hrel⟩ := SetLimit_nonempty mgr f L B now ini tail hl
    obtain ⟨hu1, hu2⟩ := TryReleaseWaitList_used f { tail with buffer := B / 3, limit := L / 3 }
    refine ⟨(TryReleaseWaitList f { tail with buffer := B / 3, limit := L / 3 }).grid,
      by rw [hf], rfl, rfl, rfl, rfl, rfl, by rw [hrel]; exact hu1, ?_, by rw [hf]; simp [hl],
      by rw [hf], by rw [hf]⟩
    intro hin
    rw [hrel]
    have := hu2 hin
    exact ⟨this, by rw [this]; exact Nat.le_add_right _ _⟩
  · intro h0
    have hf := SetLimit_empty mgr f L B now h0
    refine ⟨(TryReleaseWaitList f (initialGrid L B f.gridId now)).grid, by rw [hf], rfl, rfl,
      rfl, rfl, rfl, rfl, ?_, by rw [hf]⟩
    intro hw
    have : (TryReleaseWaitList f (initialGrid L B f.gridId now)).grid =
        initialGrid L B f.gridId now := by
      simp [TryReleaseWaitList, hw, releaseLoop, initialGrid]
    rw [this]
    exact ⟨rfl, rfl⟩

theorem SetLimit_frame_witness :
    (SetLimit (mgrWith true) parkedFactor 600 0 9).factor.gridList.map
        (fun g => (g.used, g.limit, g.buffer)) = [(160, 200, 0)] ∧
    ∃ newTail, (SetLimit (mgrWith true) parkedFactor 600 0 9).factor.gridList = [] ++ [newTail] ∧
      newTail.limit = 600 / 3 ∧ newTail.buffer = 0 / 3 ∧
      newTail.hitLimit = true ∧ newTail.ID = 0 ∧ newTail.time = 0 ∧
      newTail.used =
        (if (SetLimit (mgrWith true) parkedFactor 600 0 9).released = [] then 80
         else u64 (80 + sumUsed (SetLimit (mgrWith true) parkedFactor 600 0 9).released)) ∧
      (DrainInRange parkedFactor
          { time := 0, used := 80, limit := 600 / 3, buffer := 0 / 3, hitLimit := true, ID := 0 } →
        newTail.used = 80 + sumUsed (SetLimit (mgrWith true) parkedFactor 600 0 9).released ∧
        80 ≤ newTail.used) ∧
      (SetLimit (mgrWith true) parkedFactor 600 0 9).factor.gridList.length =
        parkedFactor.gridList.length ∧
      (SetLimit (mgrWith true) parkedFactor 600 0 9).factor.gridId = parkedFactor.gridId ∧
      (SetLimit (mgrWith true) parkedFactor 600 0 9).factor.gidHitLimitCnt =
        parkedFactor.gidHitLimitCnt :=
  ⟨by decide, (SetLimit_frame (mgrWith true) parkedFactor 600 0 9).1 []
    { time := 0, used := 80, limit := 100, buffer := 0, hitLimit := true, ID := 0 } (by decide)⟩

/-! ## The window is never empty -/

theorem setMagnify_fields (f : LimitFactor) (m : Nat) :
    (setMagnify f m).gridList = f.gridList ∧ (setMagnify f m).waitList = f.waitList ∧
    (setMagnify f m).need = f.need ∧ (setMagnify f m).gidHitLimitCnt = f.gidHitLimitCnt ∧
    (setMagnify f m).gridId = f.gridId ∧ (setMagnify f m).factorType = f.factorType := by
  unfold setMagnify
  split <;> exact ⟨rfl, rfl, rfl, rfl, rfl, rfl⟩

/-- The loop body of `GetFlowInfo` changes only `need`. -/
theorem flowInfoOfFactor_fields (f f' : LimitFactor) (now : Nat) (info : ClientLimitInfo)
    (h : flowInfoOfFactor f now = some (f', info)) :
    f.gridList ≠ [] ∧ ∃ r, reqUsedOfFactor f now = some r ∧
      f' = { f with need := needAfterReport f r } ∧ info.Need = needAfterReport f r ∧
      info.Used = r := by
  have hne : f.gridList ≠ [] := by
    intro h0
    simp [flowInfoOfFactor, reqUsedOfFactor, h0, walkBack] at h
  obtain ⟨ini, tail, hl⟩ := exists_snoc_of_ne_nil hne
  obtain ⟨r, hr, he⟩ := flowInfoOfFactor_nonempty f now ini tail hl
  have hp := Option.some.inj (h.symm.trans he)
  have hi : info = _ := congrArg Prod.snd hp
  refine ⟨hne, r, hr, congrArg Prod.fst hp, ?_, ?_⟩
  · rw [hi]
  · rw [hi]

/-- Every state reachable with reports and magnify updates satisfies the window
invariant. -/
theorem ReachableR.windowInvR {f : LimitFactor} (h : ReachableR f) : WindowInv f := by
  induction h with
  | init mgr t now => exact WindowInv_newLimitFactor mgr t now
  | alloc mgr n now fut r _ hr ih => exact WindowInv_alloc mgr _ n now fut r ih hr
  | checkGrid now r _ hr ih => exact WindowInv_CheckGrid _ now r ih hr
  | setLimit mgr L B now _ ih => exact WindowInv_SetLimit mgr _ L B now ih
  | getFlowInfo now f' info _ hf ih =>
    obtain ⟨_, r, _, hf', _⟩ := flowInfoOfFactor_fields _ f' now info hf
    rw [hf']
    exact ih
  | setMagnify m _ ih =>
    obtain ⟨a, _, _, b, _⟩ := setMagnify_fields _ m
    unfold WindowInv
    rw [a, b]
    exact ih

theorem LimitMap.get_set_same (m : LimitMap) (t : FactorType) (f : LimitFactor) :
    (m.set t f).get t = f := by
  cases t <;> rfl

theorem LimitMap.get_set_ne (m : LimitMap) (t t' : FactorType) (f : LimitFactor) (h : t' ≠ t) :
    (m.set t f).get t' = m.get t' := by
  cases t <;> cases t' <;> first | rfl | exact absurd rfl h

theorem LimitMap.get_set (m : LimitMap) (t t' : FactorType) (f : LimitFactor) :
    (m.set t f).get t' = if t' = t then f else m.get t' := by
  by_cases h : t' = t
  · subst h; simp [LimitMap.get_set_same]
  · simp [h, LimitMap.get_set_ne m t t' f h]

/-- On a non-empty window every call that dereferences `gridList.Back()`
returns. -/
theorem calls_return_of_nonempty (f : LimitFactor) (hne : f.gridList ≠ []) :
    (∀ (mgr : LimitManager) (n now : Nat) (fut : Future), ∃ r, alloc mgr f n now fut = some r) ∧
    (∀ now, ∃ r, CheckGrid f now = some r) ∧
    (∀ now, ∃ f' info, flowInfoOfFactor f now = some (f', info)) := by
  obtain ⟨ini, tail, hl⟩ := exists_snoc_of_ne_nil hne
  refine ⟨?_, ?_, ?_⟩
  · intro mgr n now fut
    cases hen : mgr.enable
    · exact ⟨_, alloc_disabled_nonempty mgr f n now fut ini tail hen hl⟩
    · obtain ⟨r, hr, _⟩ := alloc_enabled mgr f n now fut ini tail hen hl
      exact ⟨r, hr⟩
  · intro now
    obtain ⟨r, hr, _⟩ := CheckGrid_nonempty f now ini tail hl
    exact ⟨r, hr⟩
  · intro now
    obtain ⟨r, _, he⟩ := flowInfoOfFactor_nonempty f now ini tail hl
    exact ⟨_, _, he⟩

theorem setLimitOf_reachable (limit : LimitRsp2Client) (now : Nat) (s : ManagerState)
    (t : FactorType) (h : ∀ t', ReachableR (s.limitMap.get t')) :
    ∀ t', ReachableR ((setLimitOf limit now s t).limitMap.get t') := by
  intro t'
  unfold setLimitOf
  cases limit.FactorMap t with
  | none => exact h t'
  | some c =>
    simp only [LimitMap.get_set]
    split
    · exact ReachableR.setLimit _ _ _ _ (h t)
    · exact h t'

theorem setMagnifyOf_reachable (limit : LimitRsp2Client) (s : ManagerState)
    (t : FactorType) (h : ∀ t', ReachableR (s.limitMap.get t')) :
    ∀ t', ReachableR ((setMagnifyOf limit s t).limitMap.get t') := by
  intro t'
  unfold setMagnifyOf
  cases limit.Magnify t with
  | none => exact h t'
  | some m =>
    simp only [LimitMap.get_set]
    split
    · exact ReachableR.setMagnify _ (h t)
    · exact h t'

theorem SetClientLimit_reachable (s : ManagerState) (limit : Option LimitRsp2Client) (now : Nat)
    (h : ∀ t, ReachableR (s.limitMap.get t)) :
    ∀ t, ReachableR ((SetClientLimit s limit now).limitMap.get t) := by
  cases limit with
  | none => exact h
  | some limit =>
    have key1 : ∀ (l : List FactorType) (s0 : ManagerState),
        (∀ t, ReachableR (s0.limitMap.get t)) →
        ∀ t, ReachableR ((l.foldl (setLimitOf limit now) s0).limitMap.get t) := by
      intro l
      induction l with
      | nil => intro s0 h0; exact h0
      | cons a l ih =>
        intro s0 h0
        exact ih _ (setLimitOf_reachable limit now s0 a h0)
    have key2 : ∀ (l : List FactorType) (s0 : ManagerState),
        (∀ t, ReachableR (s0.limitMap.get t)) →
        ∀ t, ReachableR ((l.foldl (setMagnifyOf limit) s0).limitMap.get t) := by
      intro l
      induction l with
      | nil => intro s0 h0; exact h0
      | cons a l ih =>
        intro s0 h0
        exact ih _ (setMagnifyOf_reachable limit s0 a h0)
    exact key2 _ _ (key1 _ _ h)

/-- A call on a manager whose four factors are reachable returns, and the
factors afterwards are reachable. -/
theorem step_total (s : ManagerState) (op : Op) (h : ∀ t, ReachableR (s.limitMap.get t)) :
    ∃ s1 ev, step s op = some (s1, ev) ∧ ∀ t, ReachableR (s1.limitMap.get t) := by
  cases op with
  | alloc t n now fut =>
    obtain ⟨r, hr⟩ := (calls_return_of_nonempty _ (h t).windowInvR.1).1 s.mgr n now fut
    refine ⟨{ mgr := r.mgr, limitMap := s.limitMap.set t r.factor },
      (if r.spawned then some now else none), by simp only [step, hr], ?_⟩
    intro t'
    simp only [LimitMap.get_set]
    split
    · exact ReachableR.alloc _ _ _ _ r (h t) hr
    · exact h t'
  | checkGrid t now =>
    obtain ⟨r, hr⟩ := (calls_return_of_nonempty _ (h t).windowInvR.1).2.1 now
    refine ⟨{ s with limitMap := s.limitMap.set t r.factor }, none, by simp only [step, hr], ?_⟩
    intro t'
    simp only [LimitMap.get_set]
    split
    · exact ReachableR.checkGrid _ r (h t) hr
    · exact h t'
  | getFlowInfo now =>
    obtain ⟨R, hR, hent, _⟩ := GetFlowInfo_nonempty s.mgr s.limitMap now
      (fun t => (h t).windowInvR.1)
    refine ⟨{ mgr := R.mgr, limitMap := R.limitMap }, none, by simp only [step, hR], ?_⟩
    intro t
    exact ReachableR.getFlowInfo now _ _ (h t) (hent t)
  | setClientLimit limit now =>
    exact ⟨_, _, rfl, SetClientLimit_reachable s limit now h⟩

theorem run_total : ∀ (ops : List Op) (s : ManagerState), (∀ t, ReachableR (s.limitMap.get t)) →
    ∃ s2 evs, run s ops = some (s2, evs) ∧ ∀ t, ReachableR (s2.limitMap.get t) := by
  intro ops
  induction ops with
  | nil => intro s h; exact ⟨s, [], rfl, h⟩
  | cons op ops ih =>
    intro s h
    obtain ⟨s1, ev, hst, h1⟩ := step_total s op h
    obtain ⟨s2, evs, hr, h2⟩ := ih s1 h1
    cases ev with
    | none => exact ⟨s2, evs, by simp only [run, hst, hr, List.nil_append], h2⟩
    | some t => exact ⟨s2, t :: evs, by simp only [run, hst, hr, List.singleton_append], h2⟩

theorem NewLimitManager_reachable (now : Nat) :
    ∀ t, ReachableR ((NewLimitManager now).limitMap.get t) := by
  intro t
  cases t
  · exact ReachableR.init (mgrWith false) FactorType.IopsReadType now
  · exact ReachableR.init (mgrWith false) FactorType.IopsWriteType now
  · exact ReachableR.init (mgrWith false) FactorType.FlowReadType now
  · exact ReachableR.init (mgrWith false) FactorType.FlowWriteType now

theorem Reachable.toR {f : LimitFactor} (h : Reachable f) : ReachableR f := by
  induction h with
  | init mgr t now => exact ReachableR.init mgr t now
  | alloc mgr n now fut r _ hr ih => exact ReachableR.alloc mgr n now fut r ih hr
  | checkGrid now r _ hr ih => exact ReachableR.checkGrid now r ih hr
  | setLimit mgr L B now _ ih => exact ReachableR.setLimit mgr L B now ih

/-! ## C15: the tail grid always exists -/

/-- C15: `newLimitFactor` returns a window of exactly one grid with limit 0,
buffer 0 and used 0; in every factor state reachable from it by `alloc`,
`CheckGrid`, `SetLimit`, the loop body of `GetFlowInfo` (and magnify updates)
the window is non-empty, so `alloc`, `CheckGrid` and the loop body of
`GetFlowInfo` return (no nil dereference); and every sequence of calls on the
manager `NewLimitManager` builds runs to the end, leaving four non-empty
windows. -/
theorem tail_grid_always_exists :
    (∀ (mgr : LimitManager) (t : FactorType) (now : Nat),
      (newLimitFactor mgr t now).factor.gridList =
        [{ time := now, used := 0, limit := 0, buffer := 0, hitLimit := false, ID := 0 }]) ∧
    (∀ f, ReachableR f →
      f.gridList ≠ [] ∧
      (∀ (mgr : LimitManager) (n now : Nat) (fut : Future),
        ∃ r, alloc mgr f n now fut = some r) ∧
      (∀ now, ∃ r, CheckGrid f now = some r) ∧
      (∀ now, ∃ f' info, flowInfoOfFactor f now = some (f', info))) ∧
    (∀ (t0 : Nat) (ops : List Op), ∃ s evs, run (NewLimitManager t0) ops = some (s, evs) ∧
      ∀ t, (s.limitMap.get t).gridList ≠ []) := by
  refine ⟨?_, ?_, ?_⟩
  · intro mgr t now
    unfold newLimitFactor
    rw [SetLimit_empty _ _ _ _ _ rfl]
    simp [TryReleaseWaitList, releaseLoop, initialGrid]
  · intro f hf
    exact ⟨hf.windowInvR.1, calls_return_of_nonempty f hf.windowInvR.1⟩
  · intro t0 ops
    obtain ⟨s, evs, hr, hs⟩ := run_total ops (NewLimitManager t0) (NewLimitManager_reachable t0)
    exact ⟨s, evs, hr, fun t => (hs t).windowInvR.1⟩

theorem tail_grid_always_exists_witness :
    ReachableR parkedFactor ∧ parkedFactor.gridList ≠ [] ∧
    (∀ (mgr : LimitManager) (n now : Nat) (fut : Future),
      ∃ r, alloc mgr parkedFactor n now fut = some r) ∧
    (∀ now, ∃ r, CheckGrid parkedFactor now = some r) ∧
    (∀ now, ∃ f' info, flowInfoOfFactor parkedFactor now = some (f', info)) :=
  ⟨parkedFactor_reachable.toR,
    tail_grid_always_exists.2.1 parkedFactor parkedFactor_reachable.toR⟩

/-! ## C16: the quota through the report -/

/-- `CheckGrid` on a non-empty window: the grids that stay, then the new tail
after the drain; the queue, the need and the released waiters are the drain's. -/
theorem CheckGrid_tail (f : LimitFactor) (now : Nat) (ini : List GridElement)
    (tail : GridElement) (hl : f.gridList = ini ++ [tail]) :
    ∃ r, CheckGrid f now = some r ∧
      r.factor.gridList = f.gridList.drop (f.gridList.length + 1 - 30) ++
        [(TryReleaseWaitList f (rotatedGrid tail f.gridId now)).grid] ∧
      r.factor.waitList = (TryReleaseWaitList f (rotatedGrid tail f.gridId now)).factor.waitList ∧
      r.factor.need = (TryReleaseWaitList f (rotatedGrid tail f.gridId now)).factor.need ∧
      r.factor.factorType = f.factorType ∧
      r.released = (TryReleaseWaitList f (rotatedGrid tail f.gridId now)).released := by
  obtain ⟨r, hr, hgl, _, _, hw, hn, _, ht, hrel⟩ := CheckGrid_nonempty f now ini tail hl
  have hk : f.gridList.length + 1 - 30 ≤ f.gridList.length := by omega
  rw [List.drop_append_of_le_length hk] at hgl
  exact ⟨r, hr, hgl, hw, hn, ht, hrel⟩

/-- An `alloc` keeps limit and buffer of the tail. -/
theorem alloc_tail_quota (mgr : LimitManager) (f : LimitFactor) (n now : Nat) (fut : Future)
    (r : AllocResult) (ini : List GridElement) (tail : GridElement)
    (hl : f.gridList = ini ++ [tail]) (hr : alloc mgr f n now fut = some r) :
    ∃ tail', r.factor.gridList = ini ++ [tail'] ∧ tail'.limit = tail.limit ∧
      tail'.buffer = tail.buffer := by
  cases hen : mgr.enable
  · rw [alloc_disabled_nonempty mgr f n now fut ini tail hen hl] at hr
    have := Option.some.inj hr; subst this
    exact ⟨_, rfl, rfl, rfl⟩
  · obtain ⟨r', hr', hpark, hpass⟩ := alloc_enabled mgr f n now fut ini tail hen hl
    have hrr : r' = r := Option.some.inj (hr'.symm.trans hr)
    subst hrr
    by_cases hc : f.waitList ≠ [] ∨ u64 (tail.limit + tail.buffer) < u64 (tail.used + n)
    · obtain ⟨_, _, _, hg, _⟩ := hpark hc
      exact ⟨_, hg, rfl, rfl⟩
    · rw [hpass hc]
      exact ⟨_, rfl, rfl, rfl⟩

/-- Rotations and allocs keep the window non-empty and keep limit and buffer of
its tail. -/
theorem RotAlloc.tail_quota {f g : LimitFactor} (h : RotAlloc f g) (ini : List GridElement)
    (tail : GridElement) (hl : f.gridList = ini ++ [tail]) :
    ∃ ini' tail', g.gridList = ini' ++ [tail'] ∧ tail'.limit = tail.limit ∧
      tail'.buffer = tail.buffer := by
  induction h with
  | refl => exact ⟨ini, tail, hl, rfl, rfl⟩
  | alloc mgr n now fut r _ hr ih =>
    obtain ⟨ini', tail', hl', h1, h2⟩ := ih
    obtain ⟨t2, hg, h3, h4⟩ := alloc_tail_quota mgr _ n now fut r ini' tail' hl' hr
    exact ⟨ini', t2, hg, h3.trans h1, h4.trans h2⟩
  | checkGrid now r _ hr ih =>
    obtain ⟨ini', tail', hl', h1, h2⟩ := ih
    obtain ⟨r', hr', hgl, _⟩ := CheckGrid_tail _ now ini' tail' hl'
    have hrr : r' = r := Option.some.inj (hr'.symm.trans hr)
    subst hrr
    exact ⟨_, _, hgl, h1, h2⟩

/-- After `SetLimit(L, B)` the tail has limit `L/3` and buffer `B/3`. -/
theorem SetLimit_tail (mgr : LimitManager) (f : LimitFactor) (L B now : Nat) :
    ∃ ini tail, (SetLimit mgr f L B now).factor.gridList = ini ++ [tail] ∧
      tail.limit = L / 3 ∧ tail.buffer = B / 3 := by
  rcases List.eq_nil_or_concat f.gridList with h0 | ⟨ini, tail, hl⟩
  · rw [SetLimit_empty mgr f L B now h0]
    exact ⟨[], _, rfl, rfl, rfl⟩
  · have hl' : f.gridList = ini ++ [tail] := by simpa using hl
    rw [(SetLimit_nonempty mgr f L B now ini tail hl').1]
    exact ⟨ini, _, rfl, rfl, rfl⟩

/-- The entries of a returning `GetFlowInfo` come from the loop body on each
factor. -/
theorem GetFlowInfo_entries (mgr : LimitManager) (lm : LimitMap) (now : Nat)
    (R : FlowInfoResult) (h : GetFlowInfo mgr lm now = some R) :
    ∀ t, flowInfoOfFactor (lm.get t) now = some (R.limitMap.get t, R.info.get t) := by
  unfold GetFlowInfo at h
  split at h
  · rename_i f1 i1 f2 i2 f3 i3 f4 i4 e1 e2 e3 e4
    have := Option.some.inj h
    subst this
    intro t
    cases t
    · exact e1
    · exact e2
    · exact e4
    · exact e3
  · simp at h

/-- C16: after `SetLimit(L, B)` (with `uint64` arguments) on any factor state,
followed by any number of `CheckGrid` rotations and `alloc` calls and no other
`SetLimit`, the loop body of `GetFlowInfo` returns and emits
`UsedLimit = 3 × ⌊L/3⌋` and `UsedBuffer = 3 × ⌊B/3⌋`; the products
`tail.limit * 3` and `tail.buffer * 3` do not overflow 64 bits; the emitted
values are at most `L` and `B`, smaller by at most 2, and equal to them exactly
when `L` and `B` are multiples of 3. The same holds for the entry of that
class in the report of a returning `GetFlowInfo`. -/
theorem quota_round_trip (mgr : LimitManager) (f f' : LimitFactor) (L B now now' : Nat)
    (hL : L < 2 ^ 64) (hB : B < 2 ^ 64)
    (hseq : RotAlloc (SetLimit mgr f L B now).factor f') :
    (∃ f'' info, flowInfoOfFactor f' now' = some (f'', info) ∧
      info.UsedLimit = 3 * (L / 3) ∧ info.UsedBuffer = 3 * (B / 3) ∧
      (∃ ini tail, f'.gridList = ini ++ [tail] ∧
        tail.limit * girdCntOneSecond < 2 ^ 64 ∧ tail.buffer * girdCntOneSecond < 2 ^ 64) ∧
      info.UsedLimit ≤ L ∧ L - info.UsedLimit ≤ 2 ∧ (info.UsedLimit = L ↔ L % 3 = 0) ∧
      info.UsedBuffer ≤ B ∧ B - info.UsedBuffer ≤ 2 ∧ (info.UsedBuffer = B ↔ B % 3 = 0)) ∧
    (∀ (m : LimitManager) (lm : LimitMap) (R : FlowInfoResult) (t : FactorType),
      GetFlowInfo m lm now' = some R → lm.get t = f' →
      (R.info.get t).UsedLimit = 3 * (L / 3) ∧ (R.info.get t).UsedBuffer = 3 * (B / 3)) := by
  obtain ⟨ini0, tail0, hl0, hlim0, hbuf0⟩ := SetLimit_tail mgr f L B now
  obtain ⟨ini, tail, hl, hlim, hbuf⟩ := hseq.tail_quota ini0 tail0 hl0
  rw [hlim0] at hlim
  rw [hbuf0] at hbuf
  obtain ⟨r, _, he⟩ := flowInfoOfFactor_nonempty f' now' ini tail hl
  have h1 : u64 (tail.limit * girdCntOneSecond) = 3 * (L / 3) := by
    rw [hlim, girdCntOneSecond, u64_of_lt (by omega)]; omega
  have h2 : u64 (tail.buffer * girdCntOneSecond) = 3 * (B / 3) := by
    rw [hbuf, girdCntOneSecond, u64_of_lt (by omega)]; omega
  constructor
  · refine ⟨_, _, he, h1, h2, ⟨ini, tail, hl, ?_, ?_⟩, ?_⟩
    · rw [hlim, girdCntOneSecond]; omega
    · rw [hbuf, girdCntOneSecond]; omega
    · simp only [h1, h2]
      omega
  · intro m lm R t hR ht
    have hent := GetFlowInfo_entries m lm now' R hR t
    rw [ht, he] at hent
    have hi := congrArg Prod.snd (Option.some.inj hent)
    simp only at hi
    rw [← hi]
    exact ⟨h1, h2⟩

theorem quota_round_trip_witness :
    (flowInfoOfFactor (SetLimit (mgrWith true) parkedFactor 1000 500 9).factor 20).map
        (fun p => (p.2.UsedLimit, p.2.UsedBuffer)) = some (999, 498) ∧
    ∃ f'' info, flowInfoOfFactor (SetLimit (mgrWith true) parkedFactor 1000 500 9).factor 20 =
        some (f'', info) ∧
      info.UsedLimit = 3 * (1000 / 3) ∧ info.UsedBuffer = 3 * (500 / 3) ∧
      (∃ ini tail, (SetLimit (mgrWith true) parkedFactor 1000 500 9).factor.gridList =
          ini ++ [tail] ∧
        tail.limit * girdCntOneSecond < 2 ^ 64 ∧ tail.buffer * girdCntOneSecond < 2 ^ 64) ∧
      info.UsedLimit ≤ 1000 ∧ 1000 - info.UsedLimit ≤ 2 ∧ (info.UsedLimit = 1000 ↔ 1000 % 3 = 0) ∧
      info.UsedBuffer ≤ 500 ∧ 500 - info.UsedBuffer ≤ 2 ∧ (info.UsedBuffer = 500 ↔ 500 % 3 = 0) :=
  ⟨by decide, (quota_round_trip (mgrWith true) parkedFactor _ 1000 500 9 20 (by decide)
    (by decide) (RotAlloc.refl _)).1⟩

/-! ## C17: the drain is maximal -/

/-- C17: after a returning `CheckGrid` and after `SetLimit`, a waiter left at
the head of the queue does not fit in the tail:
`tail.used + head.used > tail.limit + tail.buffer` (in the `uint64` arithmetic
of the code; exactly, when both sums fit in 64 bits). A single parked waiter
with `used ≤ tail.limit + tail.buffer` is released by `CheckGrid`, which leaves
an empty queue and a new tail with `used` equal to the waiter's; and the head
waiter is released by `SetLimit(L, B)` whenever
`tail.used + head.used ≤ ⌊L/3⌋ + ⌊B/3⌋`. -/
theorem drain_is_maximal (mgr : LimitManager) (f : LimitFactor) (L B now : Nat) :
    (∀ r w rest, CheckGrid f now = some r → r.factor.waitList = w :: rest →
      ∃ ini tail, r.factor.gridList = ini ++ [tail] ∧
        u64 (tail.limit + tail.buffer) < u64 (tail.used + w.used) ∧
        (tail.used + w.used < 2 ^ 64 → tail.limit + tail.buffer < 2 ^ 64 →
          tail.limit + tail.buffer < tail.used + w.used)) ∧
    (∀ w rest, (SetLimit mgr f L B now).factor.waitList = w :: rest →
      ∃ ini tail, (SetLimit mgr f L B now).factor.gridList = ini ++ [tail] ∧
        u64 (tail.limit + tail.buffer) < u64 (tail.used + w.used) ∧
        (tail.used + w.used < 2 ^ 64 → tail.limit + tail.buffer < 2 ^ 64 →
          tail.limit + tail.buffer < tail.used + w.used)) ∧
    (∀ ini tail w, f.gridList = ini ++ [tail] → f.waitList = [w] →
      tail.limit + tail.buffer < 2 ^ 64 → w.used ≤ tail.limit + tail.buffer →
      ∃ r newTail, CheckGrid f now = some r ∧ r.released = [w] ∧ r.factor.waitList = [] ∧
        r.factor.gridList = f.gridList.drop (f.gridList.length + 1 - 30) ++ [newTail] ∧
        newTail.used = w.used) ∧
    (∀ ini tail w rest, f.gridList = ini ++ [tail] → f.waitList = w :: rest →
      L < 2 ^ 64 → B < 2 ^ 64 → tail.used + w.used ≤ L / 3 + B / 3 →
      ∃ more, (SetLimit mgr f L B now).released = w :: more ∧
        more ++ (SetLimit mgr f L B now).factor.waitList = rest) := by
  have exact : ∀ (t : GridElement) (w : AllocElement),
      u64 (t.limit + t.buffer) < u64 (t.used + w.used) →
      t.used + w.used < 2 ^ 64 → t.limit + t.buffer < 2 ^ 64 →
      t.limit + t.buffer < t.used + w.used := by
    intro t w h h1 h2
    rwa [u64_of_lt h1, u64_of_lt h2] at h
  refine ⟨?_, ?_, ?_, ?_⟩
  · intro r w rest hr hw
    have hne : f.gridList ≠ [] := by
      intro h0; simp [CheckGrid, h0] at hr
    obtain ⟨ini, tail, hl⟩ := exists_snoc_of_ne_nil hne
    obtain ⟨r', hr', hgl, hwl, _⟩ := CheckGrid_tail f now ini tail hl
    have hrr : r' = r := Option.some.inj (hr'.symm.trans hr)
    subst hrr
    rw [hwl] at hw
    have hb := releaseLoop_head_blocked f (rotatedGrid tail f.gridId now) f.waitList f.need
      (rotatedGrid tail f.gridId now).used w rest hw
    exact ⟨_, _, hgl, hb, exact _ w hb⟩
  · intro w rest hw
    rcases List.eq_nil_or_concat f.gridList with h0 | ⟨ini, tail, hl⟩
    · rw [SetLimit_empty mgr f L B now h0] at hw ⊢
      have hb := releaseLoop_head_blocked f (initialGrid L B f.gridId now) f.waitList f.need
        (initialGrid L B f.gridId now).used w rest hw
      exact ⟨[], _, rfl, hb, exact _ w hb⟩
    · have hl' : f.gridList = ini ++ [tail] := by simpa using hl
      rw [(SetLimit_nonempty mgr f L B now ini tail hl').1] at hw ⊢
      have hb := releaseLoop_head_blocked f { tail with buffer := B / 3, limit := L / 3 }
        f.waitList f.need tail.used w rest hw
      exact ⟨ini, _, rfl, hb, exact _ w hb⟩
  · intro ini tail w hl hw hcap hfit
    obtain ⟨r, hr, hgl, hwl, _, _, hrel⟩ := CheckGrid_tail f now ini tail hl
    have hnot : ¬ u64 (0 + w.used) > u64 (tail.limit + tail.buffer) := by
      rw [Nat.zero_add, u64_of_lt hcap]
      exact Nat.not_lt.mpr (Nat.le_trans (u64_le _) hfit)
    have hwu : u64 (0 + w.used) = w.used := by
      rw [Nat.zero_add]
      exact u64_of_lt (by omega)
    have hnot' : ¬ u64 (tail.limit + tail.buffer) < u64 w.used := by
      rw [Nat.zero_add] at hnot; exact hnot
    refine ⟨r, _, hr, ?_, ?_, hgl, ?_⟩
    · rw [hrel]
      simp [TryReleaseWaitList, hw, releaseLoop, rotatedGrid, hnot']
    · rw [hwl]
      simp [TryReleaseWaitList, hw, releaseLoop, rotatedGrid, hnot']
    · simp only [TryReleaseWaitList, hw, releaseLoop, rotatedGrid, hnot, if_false]
      exact hwu
  · intro ini tail w rest hl hw hL hB hfit
    obtain ⟨hf, hrel⟩ := SetLimit_nonempty mgr f L B now ini tail hl
    have hnot : ¬ u64 (tail.used + w.used) > u64 (L / 3 + B / 3) := by
      rw [u64_of_lt (by omega : L / 3 + B / 3 < 2 ^ 64)]
      exact Nat.not_lt.mpr (Nat.le_trans (u64_le _) hfit)
    rw [hrel, hf]
    simp only [TryReleaseWaitList, hw, releaseLoop, hnot, if_false]
    obtain ⟨k, _, h1, h2, _⟩ := releaseLoop_prefix f { tail with buffer := B / 3, limit := L / 3 }
      rest (u64sub f.need (getNeedByMagnify f w.used w.magnify)) (u64 (tail.used + w.used))
    refine ⟨_, rfl, ?_⟩
    rw [h1, h2]
    exact List.take_append_drop k rest

theorem drain_is_maximal_witness :
    (∃ r newTail, CheckGrid parkedFactor 9 = some r ∧
      r.released = [{ used := 80, magnify := 100, future := 7 }] ∧ r.factor.waitList = [] ∧
      r.factor.gridList =
        parkedFactor.gridList.drop (parkedFactor.gridList.length + 1 - 30) ++ [newTail] ∧
      newTail.used = 80) ∧
    (∃ more, (SetLimit (mgrWith true) parkedFactor 600 0 9).released =
        { used := 80, magnify := 100, future := 7 } :: more ∧
      more ++ (SetLimit (mgrWith true) parkedFactor 600 0 9).factor.waitList = []) :=
  ⟨(drain_is_maximal (mgrWith true) parkedFactor 600 0 9).2.2.1 []
      { time := 0, used := 80, limit := 100, buffer := 0, hitLimit := true, ID := 0 }
      { used := 80, magnify := 100, future := 7 } (by decide) (by decide) (by decide) (by decide),
   (drain_is_maximal (mgrWith true) parkedFactor 600 0 9).2.2.2 []
      { time := 0, used := 80, limit := 100, buffer := 0, hitLimit := true, ID := 0 }
      { used := 80, magnify := 100, future := 7 } [] (by decide) (by decide) (by decide)
      (by decide) (by decide)⟩

/-! ## C18: need and the queue -/

theorem getNeedByMagnify_lt (f : LimitFactor) (a m : Nat) : getNeedByMagnify f a m < 2 ^ 32 := by
  unfold getNeedByMagnify
  have hu : ∀ x, u32 x < 2 ^ 32 := fun x => Nat.mod_lt _ (by norm_num)
  have hg : GB / 8 < 2 ^ 32 := by decide
  by_cases hm : m = 0
  · simp [hm]
  · simp only [hm, if_false]
    split_ifs <;> first | exact hg | exact hu _

theorem getNeedByMagnify_congr (f f' : LimitFactor) (ht : f'.factorType = f.factorType)
    (a m : Nat) : getNeedByMagnify f' a m = getNeedByMagnify f a m := by
  simp [getNeedByMagnify, ht]

theorem needSum_congr (f f' : LimitFactor) (ht : f'.factorType = f.factorType)
    (ws : List AllocElement) : needSum f' ws = needSum f ws := by
  simp [needSum, getNeedByMagnify_congr f f' ht]

theorem needSum_update (f : LimitFactor) (l : List GridElement) (w : List AllocElement)
    (nd c i m : Nat) (ws : List AllocElement) :
    needSum ⟨f.factorType, l, w, nd, c, i, m⟩ ws = needSum f ws :=
  needSum_congr f ⟨f.factorType, l, w, nd, c, i, m⟩ rfl ws

theorem needSum_cons (f : LimitFactor) (w : AllocElement) (ws : List AllocElement) :
    needSum f (w :: ws) = getNeedByMagnify f w.used w.magnify + needSum f ws := by
  simp [needSum]

theorem needSum_snoc (f : LimitFactor) (ws : List AllocElement) (w : AllocElement) :
    needSum f (ws ++ [w]) = needSum f ws + getNeedByMagnify f w.used w.magnify := by
  simp [needSum]

/-- The drain keeps `need` equal to the sum over the waiters left. -/
theorem releaseLoop_need (f : LimitFactor) (g : GridElement) :
    ∀ (ws : List AllocElement) (need used : Nat), need = u64 (needSum f ws) →
      (releaseLoop f g ws need used).2.1 = u64 (needSum f (releaseLoop f g ws need used).1) := by
  intro ws
  induction ws with
  | nil => intro need used h; simpa [releaseLoop] using h
  | cons ele rest ih =>
    intro need used h
    by_cases hfit : u64 (used + ele.used) > u64 (g.limit + g.buffer)
    · simpa [releaseLoop, hfit] using h
    · simp only [releaseLoop, hfit, if_false]
      apply ih
      rw [h, needSum_cons]
      have hlt := getNeedByMagnify_lt f ele.used ele.magnify
      unfold u64sub u64
      omega

theorem NeedInv_TryReleaseWaitList (f : LimitFactor) (g : GridElement) (h : NeedInv f) :
    (TryReleaseWaitList f g).factor.need =
      u64 (needSum f (TryReleaseWaitList f g).factor.waitList) := by
  simpa [TryReleaseWaitList] using releaseLoop_need f g f.waitList f.need g.used h

theorem NeedInv_alloc (mgr : LimitManager) (f : LimitFactor) (n now : Nat) (fut : Future)
    (r : AllocResult) (h : NeedInv f) (hne : f.gridList ≠ [])
    (hr : alloc mgr f n now fut = some r) : NeedInv r.factor := by
  obtain ⟨ini, tail, hl⟩ := exists_snoc_of_ne_nil hne
  unfold NeedInv at h ⊢
  cases hen : mgr.enable
  · rw [alloc_disabled_nonempty mgr f n now fut ini tail hen hl] at hr
    have := Option.some.inj hr; subst this
    exact h
  · obtain ⟨r', hr', hpark, hpass⟩ := alloc_enabled mgr f n now fut ini tail hen hl
    have hrr : r' = r := Option.some.inj (hr'.symm.trans hr)
    subst hrr
    by_cases hc : f.waitList ≠ [] ∨ u64 (tail.limit + tail.buffer) < u64 (tail.used + n)
    · obtain ⟨_, _, hw, _, hn, _, _, _, ht⟩ := hpark hc
      rw [hn, hw, needSum_congr f r'.factor ht, needSum_snoc, h]
      dsimp only
      unfold u64
      omega
    · rw [hpass hc]
      exact h

/-- Without `GetFlowInfo`, `need` is the sum over the queue in every reachable
state. -/
theorem ReachableM.needInv {f : LimitFactor} (h : ReachableM f) :
    NeedInv f ∧ f.gridList ≠ [] := by
  induction h with
  | init mgr t now =>
    unfold newLimitFactor
    rw [SetLimit_empty _ _ _ _ _ rfl]
    exact ⟨by simp [NeedInv, TryReleaseWaitList, releaseLoop, needSum, u64], by simp⟩
  | alloc mgr n now fut r _ hr ih =>
    refine ⟨NeedInv_alloc mgr _ n now fut r ih.1 ih.2 hr, ?_⟩
    obtain ⟨ini, tail, hl⟩ := exists_snoc_of_ne_nil ih.2
    obtain ⟨t', hg, _⟩ := alloc_tail_quota mgr _ n now fut r ini tail hl hr
    simp [hg]
  | @checkGrid f0 now r _ hr ih =>
    obtain ⟨ini, tail, hl⟩ := exists_snoc_of_ne_nil ih.2
    obtain ⟨r', hr', hgl, hw, hn, ht, _⟩ := CheckGrid_tail f0 now ini tail hl
    have hrr : r' = r := Option.some.inj (hr'.symm.trans hr)
    subst hrr
    refine ⟨?_, by simp [hgl]⟩
    unfold NeedInv
    rw [hn, hw, needSum_congr f0 r'.factor ht]
    exact NeedInv_TryReleaseWaitList f0 _ ih.1
  | @setLimit f0 mgr L B now _ ih =>
    obtain ⟨ini, tail, hl⟩ := exists_snoc_of_ne_nil ih.2
    rw [(SetLimit_nonempty mgr f0 L B now ini tail hl).1]
    refine ⟨?_, by simp⟩
    unfold NeedInv
    simp only [needSum_update]
    exact NeedInv_TryReleaseWaitList f0 _ ih.1
  | @setMagnify f0 m _ ih =>
    obtain ⟨a, b, c, _, _, d⟩ := setMagnify_fields f0 m
    refine ⟨?_, by rw [a]; exact ih.2⟩
    unfold NeedInv
    rw [c, b, needSum_congr f0 _ d]
    exact ih.1

/-- The drain loop reads the grid only through its limit and buffer. -/
theorem releaseLoop_grid (f : LimitFactor) (g g' : GridElement) (h1 : g'.limit = g.limit)
    (h2 : g'.buffer = g.buffer) :
    ∀ (ws : List AllocElement) (need used : Nat),
      releaseLoop f g' ws need used = releaseLoop f g ws need used := by
  intro ws
  induction ws with
  | nil => intro need used; simp [releaseLoop]
  | cons ele rest ih => intro need used; simp only [releaseLoop, h1, h2, ih]

/-- An `alloc` that returns `runLater` ran on an enabled manager and a non-empty
window, appended its waiter and added its need. -/
theorem alloc_runLater (mgr : LimitManager) (f : LimitFactor) (n now : Nat) (fut : Future)
    (r : AllocResult) (hr : alloc mgr f n now fut = some r) (hret : r.ret = runLater) :
    mgr.enable = true ∧ f.gridList ≠ [] ∧
    r.factor.waitList = f.waitList ++ [{ used := n, magnify := f.magnify, future := fut }] ∧
    r.factor.need = u64 (f.need + getNeedByMagnify f n f.magnify) := by
  have h12 : runNow ≠ runLater := by decide
  cases hen : mgr.enable
  · exfalso
    rcases List.eq_nil_or_concat f.gridList with h0 | ⟨ini, tail, hl⟩
    · rw [alloc_disabled_empty mgr f n now fut hen h0] at hr
      have := Option.some.inj hr; subst this
      exact h12 hret
    · have hl' : f.gridList = ini ++ [tail] := by simpa using hl
      rw [alloc_disabled_nonempty mgr f n now fut ini tail hen hl'] at hr
      have := Option.some.inj hr; subst this
      exact h12 hret
  · have hne : f.gridList ≠ [] := by
      intro h0; simp [alloc, hen, h0] at hr
    obtain ⟨ini, tail, hl⟩ := exists_snoc_of_ne_nil hne
    obtain ⟨r', hr', hpark, hpass⟩ := alloc_enabled mgr f n now fut ini tail hen hl
    have hrr : r' = r := Option.some.inj (hr'.symm.trans hr)
    subst hrr
    by_cases hc : f.waitList ≠ [] ∨ u64 (tail.limit + tail.buffer) < u64 (tail.used + n)
    · obtain ⟨_, _, hw, _, hn, _⟩ := hpark hc
      exact ⟨rfl, hne, hw, hn⟩
    · rw [hpass hc] at hret
      exact absurd hret h12

/-- C18: a parking `alloc(n)` appends the waiter `{used: n, magnify: factor.magnify}`
and adds `getNeedByMagnify(n, factor.magnify)` to `need`; when the drain
releases the head waiter `w` it subtracts `getNeedByMagnify(w.used, w.magnify)`,
with the magnify stored in the waiter, whatever `factor.magnify` has become
(the drain of a factor whose magnify was replaced by `m'` is stated). So in
every state reachable from `newLimitFactor` by `alloc`, `CheckGrid`, `SetLimit`
and magnify updates (no `GetFlowInfo`), `need` is the `uint64` value of the sum
of `getNeedByMagnify(w.used, w.magnify)` over the queued waiters, and equals the
sum when it fits in 64 bits. -/
theorem need_released_with_parked_magnify (f : LimitFactor) :
    (∀ (mgr : LimitManager) (n now : Nat) (fut : Future) (r : AllocResult),
      alloc mgr f n now fut = some r → r.ret = runLater →
      r.factor.waitList = f.waitList ++ [{ used := n, magnify := f.magnify, future := fut }] ∧
      r.factor.need = u64 (f.need + getNeedByMagnify f n f.magnify)) ∧
    (∀ (m' : Nat) (g : GridElement) (w : AllocElement) (rest : List AllocElement),
      f.waitList = w :: rest → ¬ u64 (g.used + w.used) > u64 (g.limit + g.buffer) →
      (TryReleaseWaitList { f with magnify := m' } g).released =
        w :: (TryReleaseWaitList
          { f with magnify := m', waitList := rest
                   need := u64sub f.need (getNeedByMagnify f w.used w.magnify) }
          { g with used := u64 (g.used + w.used) }).released ∧
      (TryReleaseWaitList { f with magnify := m' } g).factor.need =
        (TryReleaseWaitList
          { f with magnify := m', waitList := rest
                   need := u64sub f.need (getNeedByMagnify f w.used w.magnify) }
          { g with used := u64 (g.used + w.used) }).factor.need) ∧
    (ReachableM f →
      f.need = u64 (needSum f f.waitList) ∧
      (needSum f f.waitList < 2 ^ 64 → f.need = needSum f f.waitList)) := by
  refine ⟨?_, ?_, ?_⟩
  · intro mgr n now fut r hr hret
    exact (alloc_runLater mgr f n now fut r hr hret).2.2
  · intro m' g w rest hw hfit
    have hg : getNeedByMagnify { f with magnify := m' } w.used w.magnify =
        getNeedByMagnify f w.used w.magnify := getNeedByMagnify_congr f _ rfl _ _
    have hgr := releaseLoop_grid f g { g with used := u64 (g.used + w.used) } rfl rfl rest
      (u64sub f.need (getNeedByMagnify f w.used w.magnify)) (u64 (g.used + w.used))
    constructor
    · simp only [TryReleaseWaitList, hw, releaseLoop, hfit, if_false, hg, releaseLoop_update, hgr]
    · simp only [TryReleaseWaitList, hw, releaseLoop, hfit, if_false, hg, releaseLoop_update, hgr]
  · intro h
    have hinv : f.need = u64 (needSum f f.waitList) := h.needInv.1
    exact ⟨hinv, fun hlt => by rw [hinv, u64_of_lt hlt]⟩

/-- The state `parkedFactor` is reached without `GetFlowInfo`. -/
theorem parkedFactor_reachableM : ReachableM parkedFactor := by
  have h0 : ReachableM freshFactor := ReachableM.init (mgrWith false) FactorType.FlowWriteType 0
  have h1 : ReachableM factor100 := ReachableM.setLimit (mgrWith true) 300 0 1 h0
  have h2 : ReachableM admittedFactor :=
    ReachableM.alloc (mgrWith true) 80 2 0 ⟨runNow, none, admittedFactor, mgrWith true, false⟩ h1
      (by decide)
  exact ReachableM.alloc (mgrWith true) 80 3 7
    ⟨runLater, some 7, parkedFactor, mgrWith true, false⟩ h2 (by decide)

theorem need_released_with_parked_magnify_witness :
    parkedFactor.need = 8000 ∧
    parkedFactor.need = u64 (needSum parkedFactor parkedFactor.waitList) ∧
    (needSum parkedFactor parkedFactor.waitList < 2 ^ 64 →
      parkedFactor.need = needSum parkedFactor parkedFactor.waitList) :=
  ⟨by decide, (need_released_with_parked_magnify parkedFactor).2.2 parkedFactor_reachableM⟩

/-! ## C19: need across reports -/

/-- C19 (the code at the failing input): on a fresh manager, after enabling
flow-write with 100 per grid, an admitted `alloc(80)`, a parked `alloc(80)`
(need 8000), `GetFlowInfo` one second later (need rewritten to `5 × 80 = 400`)
and a `CheckGrid` that releases the waiter, the flow-write queue is empty and
`need` is `400 - 8000` wrapped in `uint64`, that is `2^64 - 7600`, not 0. -/
theorem need_wraps_after_report :
    (run (NewLimitManager 0) (reportThenDrainOps.take 3)).map
        (fun p => (p.1.limitMap.flowWrite.waitList.length, p.1.limitMap.flowWrite.need)) =
      some (1, 8000) ∧
    (run (NewLimitManager 0) (reportThenDrainOps.take 4)).map
        (fun p => (p.1.limitMap.flowWrite.waitList.length, p.1.limitMap.flowWrite.need)) =
      some (1, 400) ∧
    (run (NewLimitManager 0) reportThenDrainOps).map
        (fun p => (p.1.limitMap.flowWrite.waitList, p.1.limitMap.flowWrite.need)) =
      some ([], 18446744073709544016) ∧
    18446744073709544016 = 2 ^ 64 - 7600 := by
  decide

/-! ## C20: head-of-line blocking -/

/-- A drain into an empty grid whose capacity is below the head waiter's `used`
releases nothing. -/
theorem TryReleaseWaitList_blocked (f : LimitFactor) (g : GridElement) (w : AllocElement)
    (rest : List AllocElement) (hq : f.waitList = w :: rest) (hu : g.used = 0)
    (hw : w.used < 2 ^ 64) (hbig : g.limit + g.buffer < w.used) :
    (TryReleaseWaitList f g).released = [] ∧
    (TryReleaseWaitList f g).factor.waitList = f.waitList := by
  have hnot : u64 (0 + w.used) > u64 (g.limit + g.buffer) := by
    rw [Nat.zero_add, u64_of_lt hw]
    exact Nat.lt_of_le_of_lt (u64_le _) hbig
  constructor
  · simp only [TryReleaseWaitList, hq, hu, releaseLoop, hnot, if_true]
  · simp only [TryReleaseWaitList, hq, hu, releaseLoop, hnot, if_true]

/-- An `alloc` leaves the queue as it is or appends one waiter. -/
theorem alloc_waitList (mgr : LimitManager) (f : LimitFactor) (n now : Nat) (fut : Future)
    (r : AllocResult) (hne : f.gridList ≠ []) (hr : alloc mgr f n now fut = some r) :
    r.factor.waitList = f.waitList ∨
    r.factor.waitList = f.waitList ++ [{ used := n, magnify := f.magnify, future := fut }] := by
  obtain ⟨ini, tail, hl⟩ := exists_snoc_of_ne_nil hne
  cases hen : mgr.enable
  · rw [alloc_disabled_nonempty mgr f n now fut ini tail hen hl] at hr
    have := Option.some.inj hr; subst this
    exact Or.inl rfl
  · obtain ⟨r', hr', hpark, hpass⟩ := alloc_enabled mgr f n now fut ini tail hen hl
    have hrr : r' = r := Option.some.inj (hr'.symm.trans hr)
    subst hrr
    by_cases hc : f.waitList ≠ [] ∨ u64 (tail.limit + tail.buffer) < u64 (tail.used + n)
    · exact Or.inr (hpark hc).2.2.1
    · rw [hpass hc]
      exact Or.inl rfl

/-- Through rotations and allocs an oversized head waiter stays at the head,
and the tail keeps its limit and buffer. -/
theorem RotAlloc.head_stays {f g : LimitFactor} (h : RotAlloc f g) (ini : List GridElement)
    (tail : GridElement) (w : AllocElement) (rest : List AllocElement)
    (hl : f.gridList = ini ++ [tail]) (hq : f.waitList = w :: rest) (hw : w.used < 2 ^ 64)
    (hbig : tail.limit + tail.buffer < w.used) :
    ∃ ini' tail' rest', g.gridList = ini' ++ [tail'] ∧ g.waitList = w :: rest' ∧
      tail'.limit = tail.limit ∧ tail'.buffer = tail.buffer := by
  induction h with
  | refl => exact ⟨ini, tail, rest, hl, hq, rfl, rfl⟩
  | @alloc g0 mgr n now fut r _ hr ih =>
    obtain ⟨ini', tail', rest', hl', hq', h1, h2⟩ := ih
    obtain ⟨t2, hg, h3, h4⟩ := alloc_tail_quota mgr g0 n now fut r ini' tail' hl' hr
    have hne : g0.gridList ≠ [] := by simp [hl']
    rcases alloc_waitList mgr g0 n now fut r hne hr with hwl | hwl
    · exact ⟨ini', t2, rest', hg, by rw [hwl, hq'], h3.trans h1, h4.trans h2⟩
    · exact ⟨ini', t2, rest' ++ [_], hg, by rw [hwl, hq']; rfl, h3.trans h1, h4.trans h2⟩
  | @checkGrid g0 now r _ hr ih =>
    obtain ⟨ini', tail', rest', hl', hq', h1, h2⟩ := ih
    obtain ⟨r', hr', hgl, hwl, _⟩ := CheckGrid_tail g0 now ini' tail' hl'
    have hrr : r' = r := Option.some.inj (hr'.symm.trans hr)
    subst hrr
    have hb := TryReleaseWaitList_blocked g0 (rotatedGrid tail' g0.gridId now) w rest' hq' rfl hw
      (by show tail'.limit + tail'.buffer < w.used; rw [h1, h2]; exact hbig)
    exact ⟨_, _, rest', hgl, by rw [hwl, hb.2, hq'], h1, h2⟩

/-- C20: let the head waiter's `used` exceed `tail.limit + tail.buffer`. After
any number of `CheckGrid` rotations and `alloc` calls (no `SetLimit`), that
waiter is still at the head of the queue; every `CheckGrid` returns, releases
no waiter and leaves the queue unchanged; and every `alloc(n)` on an enabled
manager, for every `n` (0 and 1 included), returns `runLater` and appends its
waiter at the back of the queue. -/
theorem head_of_line_blocking (f f' : LimitFactor) (ini : List GridElement) (tail : GridElement)
    (w : AllocElement) (rest : List AllocElement)
    (hl : f.gridList = ini ++ [tail]) (hq : f.waitList = w :: rest) (hw : w.used < 2 ^ 64)
    (hbig : tail.limit + tail.buffer < w.used) (hseq : RotAlloc f f') :
    (∃ rest', f'.waitList = w :: rest') ∧
    (∀ now, ∃ r, CheckGrid f' now = some r ∧ r.released = [] ∧
      r.factor.waitList = f'.waitList) ∧
    (∀ (mgr : LimitManager) (n now : Nat) (fut : Future), mgr.enable = true →
      ∃ r, alloc mgr f' n now fut = some r ∧ r.ret = runLater ∧ r.future = some fut ∧
        r.factor.waitList =
          f'.waitList ++ [{ used := n, magnify := f'.magnify, future := fut }]) := by
  obtain ⟨ini', tail', rest', hl', hq', h1, h2⟩ := hseq.head_stays ini tail w rest hl hq hw hbig
  refine ⟨⟨rest', hq'⟩, ?_, ?_⟩
  · intro now
    obtain ⟨r, hr, _, hwl, _, _, hrel⟩ := CheckGrid_tail f' now ini' tail' hl'
    have hb := TryReleaseWaitList_blocked f' (rotatedGrid tail' f'.gridId now) w rest' hq' rfl hw
      (by show tail'.limit + tail'.buffer < w.used; rw [h1, h2]; exact hbig)
    exact ⟨r, hr, by rw [hrel, hb.1], by rw [hwl, hb.2]⟩
  · intro mgr n now fut hen
    obtain ⟨r, hr, hpark, _⟩ := alloc_enabled mgr f' n now fut ini' tail' hen hl'
    obtain ⟨a, b, c, _⟩ := hpark (Or.inl (by rw [hq']; simp))
    exact ⟨r, hr, a, b, c⟩

theorem head_of_line_blocking_witness :
    (∃ rest', oversizedFactor.waitList = { used := 500, magnify := 100, future := 7 } :: rest') ∧
    (∀ now, ∃ r, CheckGrid oversizedFactor now = some r ∧ r.released = [] ∧
      r.factor.waitList = oversizedFactor.waitList) ∧
    (∀ (mgr : LimitManager) (n now : Nat) (fut : Future), mgr.enable = true →
      ∃ r, alloc mgr oversizedFactor n now fut = some r ∧ r.ret = runLater ∧
        r.future = some fut ∧
        r.factor.waitList =
          oversizedFactor.waitList ++
            [{ used := n, magnify := oversizedFactor.magnify, future := fut }]) :=
  head_of_line_blocking oversizedFactor oversizedFactor []
    { time := 0, used := 0, limit := 100, buffer := 0, hitLimit := true, ID := 0 }
    { used := 500, magnify := 100, future := 7 } [] (by decide) (by decide) (by decide)
    (by decide) (RotAlloc.refl _)

end Limiter
